import Mathlib

/-!
# AZCore.js: route matcher, tree reconciler, resolver, transitions and builders

A shallow embedding of `AZRouter.onMATCH`, `AZRouter.onPARAMS`, `diffAndPatch`,
`onAFFIX`, `AZRouter.onPROCESS` with the steps it calls, `AZElement`, `AZFragment` and
`AZState.dispatch` from `src/SRC/AZCore.js`, together with the properties the
specification states about them.

JavaScript strings are modelled as lists of characters (`Str`) in the router and as
`String` elsewhere; arrays as lists; an index that is out of range (`undefined` in the
source) is `none`. A call that may throw returns its outcome as a value; what the
platform decides (a query decoder, a selector match, whether a platform call returns)
is a parameter.
-/

namespace AZCore

/-- A JavaScript string, as the list of its characters. -/
abbrev Str := List Char

/-! ## String and array primitives used by the router -/

/-- The method `String.prototype.split` for a one-character separator: the pieces between
the occurrences of `sep`. The result is never empty (`''.split('/')` is `['']`). -/
def split (sep : Char) : Str → List Str
  | [] => [[]]
  | c :: cs =>
    if c = sep then [] :: split sep cs
    else
      match split sep cs with
      | [] => [[c]]
      | seg :: rest => (c :: seg) :: rest

/-- The test `seg.startsWith(c)` for a one-character prefix. -/
def startsWith (seg : Str) (c : Char) : Bool :=
  seg.head? == some c

/-- The call `seg.slice(1)`. -/
def slice1 (seg : Str) : Str :=
  seg.drop 1

/-- Loop of `Array.prototype.every`, the callback receiving the element and its index. -/
def everyFrom {α : Type} (f : α → Nat → Bool) : Nat → List α → Bool
  | _, [] => true
  | i, x :: xs => f x i && everyFrom f (i + 1) xs

/-- The method `Array.prototype.every` with an `(element, index)` callback. -/
def every {α : Type} (f : α → Nat → Bool) (xs : List α) : Bool :=
  everyFrom f 0 xs

/-- Loop of `Array.prototype.reduce`; `none` is a callback that threw. -/
def reduceFrom {α β : Type} (f : β → α → Nat → Option β) : Nat → List α → β → Option β
  | _, [], acc => some acc
  | i, x :: xs, acc =>
    match f acc x i with
    | none => none
    | some acc1 => reduceFrom f (i + 1) xs acc1

/-- The method `Array.prototype.reduce` with an `(accumulator, element, index)` callback
and an initial value. -/
def reduce {α β : Type} (f : β → α → Nat → Option β) (xs : List α) (init : β) : Option β :=
  reduceFrom f 0 xs init

/-! ## Plain objects with string values -/

/-- A plain object whose values are strings: its own properties in insertion order. -/
abbrev Obj := List (Str × Str)

/-- Own-property lookup. -/
def Obj.get : Obj → Str → Option Str
  | [], _ => none
  | (k, v) :: rest, key => if k = key then some v else Obj.get rest key

/-- Defining a data property: an existing key keeps its place and takes the new value,
a new key goes last. -/
def Obj.define : Obj → Str → Str → Obj
  | [], key, val => [(key, val)]
  | (k, v) :: rest, key, val =>
    if k = key then (k, val) :: rest else (k, v) :: Obj.define rest key val

/-- The assignment `obj[key] = val` with a string `val` on a plain object. The key
`__proto__` reaches the inherited setter, which ignores a value that is not an object,
so no own property is written for it. -/
def Obj.assign (o : Obj) (key val : Str) : Obj :=
  if key = "__proto__".toList then o else o.define key val

/-- The call `Object.fromEntries(entries)`. -/
def fromEntries (entries : List (Str × Str)) : Obj :=
  entries.foldl (fun o kv => o.define kv.1 kv.2) []

/-- The object literal with a spread, `{ ...base, ...src }`, onto an already built `base`. -/
def spread (base src : Obj) : Obj :=
  src.foldl (fun o kv => o.define kv.1 kv.2) base

/-! ## The platform query-string parser -/

/-- The text before the first `c`, and the text after it. -/
def cutAtFirst (c : Char) (s : Str) : Str × Str :=
  (s.takeWhile (fun x => x != c), (s.dropWhile (fun x => x != c)).drop 1)

/-- The entry list of `new URLSearchParams(q)` (a platform class): a leading `?` is
dropped, the text is cut at every `&`, empty pieces are skipped, each piece is cut at
its first `=`, and the name and the value are decoded. The decoding of one name or
value (`+` to space, percent-decoding, UTF-8) is the parameter `dec`. -/
def URLSearchParams (dec : Str → Str) (q : Str) : List (Str × Str) :=
  let body := if startsWith q '?' then q.drop 1 else q
  ((split '&' body).filter (fun piece => !piece.isEmpty)).map
    (fun piece => (dec (cutAtFirst '=' piece).1, dec (cutAtFirst '=' piece).2))

/-! ## Route matcher (`AZRouter.onMATCH`, `AZRouter.onPARAMS`) -/

/-- A route definition: its pattern (the field `on` of the source, a reserved word here)
and a handle for the rest of the definition. -/
structure Route where
  pattern : Str
  onVIEW : Nat
  deriving DecidableEq, Repr

/-- The callback of `find` in `onMATCH`: equal segment counts, and every pattern
segment either starts with `:` or is the URL segment at its index. -/
def routeTest (pat onURL : Str) : Bool :=
  (split '/' pat).length == (split '/' onURL).length &&
  every (fun seg i => startsWith seg ':' || (split '/' onURL)[i]? == some seg) (split '/' pat)

/-- The method `onMATCH`: `routes.find(...)`, `none` standing for `undefined`. -/
def onMATCH (routes : List Route) (onURL : Str) : Option Route :=
  routes.find? (fun route => routeTest route.pattern onURL)

/-- The text `s.split('?')[0]`. -/
def beforeQuery (s : Str) : Str :=
  (split '?' s).headD []

/-- The text `onURL.split('?')[1] || ''`. -/
def queryOf (onURL : Str) : Str :=
  ((split '?' onURL)[1]?).getD []

/-- The callback of `reduce` in `onPARAMS`; `none` is the `TypeError` of calling
`split` on `undefined`. -/
def paramStep (onURL : Str) (result : Obj) (seg : Str) (i : Nat) : Option Obj :=
  if startsWith seg ':' then
    match (split '/' onURL)[i]? with
    | none => none
    | some useg => some (result.assign (slice1 seg) (beforeQuery useg))
  else some result

/-- The method `onPARAMS`; `none` when the call throws. -/
def onPARAMS (dec : Str → Str) (pat onURL : Str) : Option Obj :=
  let current := beforeQuery onURL
  let queryParams := fromEntries (URLSearchParams dec (queryOf onURL))
  reduce (paramStep onURL) (split '/' pat) (spread [("on".toList, current)] queryParams)

/-! ## The document tree -/

/-- The three properties that `diffAndPatch` writes on an element. They are kept apart
from the attribute list; what the write of `disabled` does to the attribute of that name
on an element whose property reflects it is `reflectDisabled`. -/
structure Props where
  checked : Bool
  disabled : Bool
  selected : Bool
  deriving DecidableEq, Repr

/-- A node of the document tree. The field `id` stands for the identity of the node
object; `attrs` is the attribute list of an element in document order, under names as
`setAttribute` stores and accepts them. -/
inductive Node where
  | text (id : Nat) (data : String)
  | comment (id : Nat) (data : String)
  | element (id : Nat) (tag : String) (attrs : List (String × String)) (props : Props)
      (kids : List Node)
  deriving Repr

/-- The identity of a node. -/
def Node.id : Node → Nat
  | .text i _ => i
  | .comment i _ => i
  | .element i _ _ _ _ => i

/-- The field `nodeType`: `ELEMENT_NODE` is 1, `TEXT_NODE` is 3, `COMMENT_NODE` is 8. -/
def Node.nodeType : Node → Nat
  | .text _ _ => 3
  | .comment _ _ => 8
  | .element _ _ _ _ _ => 1

/-- The field `nodeName`. -/
def Node.nodeName : Node → String
  | .text _ _ => "#text"
  | .comment _ _ => "#comment"
  | .element _ tag _ _ _ => tag

/-- The field `childNodes`. -/
def Node.childNodes : Node → List Node
  | .element _ _ _ _ kids => kids
  | _ => []

/-- The field `attributes`. -/
def Node.attributes : Node → List (String × String)
  | .element _ _ attrs _ _ => attrs
  | _ => []

/-- The field `textContent` of a text or comment node. -/
def Node.data : Node → String
  | .text _ d => d
  | .comment _ d => d
  | .element _ _ _ _ _ => ""

/-- The call `getAttribute(name)`: the value of the first attribute with that name. -/
def getAttribute : List (String × String) → String → Option String
  | [], _ => none
  | (k, v) :: rest, name => if k = name then some v else getAttribute rest name

/-- The call `hasAttribute(name)`. -/
def hasAttribute (attrs : List (String × String)) (name : String) : Bool :=
  (getAttribute attrs name).isSome

/-- The call `setAttribute(name, value)`: the first attribute with that name takes the
value, and without one a new attribute goes last. -/
def setAttribute : List (String × String) → String → String → List (String × String)
  | [], name, value => [(name, value)]
  | (k, v) :: rest, name, value =>
    if k = name then (k, value) :: rest else (k, v) :: setAttribute rest name value

/-- The call `removeAttribute(name)`: the first attribute with that name goes. -/
def removeAttribute : List (String × String) → String → List (String × String)
  | [], _ => []
  | (k, v) :: rest, name => if k = name then rest else (k, v) :: removeAttribute rest name

/-- The identities of a node and of everything below it, in document order. -/
def Node.ids : Node → List Nat
  | .text i _ => [i]
  | .comment i _ => [i]
  | .element i _ _ _ kids => i :: idsList kids
where
  /-- The identities in a list of trees. -/
  idsList : List Node → List Nat
    | [] => []
    | k :: ks => k.ids ++ idsList ks

/-- The call `parent.contains(node)`: the node is the parent or below it. -/
def Node.contains (parent node : Node) : Bool :=
  parent.ids.contains node.id

/-- The test `preserve.some(selector => node.matches?.(selector))`. The platform's
selector matching on elements is the parameter `m`; text and comment nodes have no
`matches` method. -/
def preserved (m : Node → String → Bool) (preserve : List String) (node : Node) : Bool :=
  preserve.any (fun selector =>
    match node with
    | .element _ _ _ _ _ => m node selector
    | _ => false)

/-! ## Mutations of the tree -/

/-- A call of `setAttribute`, `removeAttribute`, `appendChild`, `removeChild` or
`replaceChild`, or an assignment to `textContent`, made by `diffAndPatch`, with the
identity of its receiver. The three property writes of an element update are not among
these calls; their effect on the attributes is applied by `reflectDisabled`. -/
inductive Mutation where
  | setAttribute (node : Nat) (name value : String)
  | removeAttribute (node : Nat) (name : String)
  | setText (node : Nat) (data : String)
  | appendChild (parent : Nat) (child : Node)
  | removeChild (parent : Nat) (child : Node)
  | replaceChild (parent : Nat) (newChild oldChild : Node)
  deriving Repr

/-- What one call of `diffAndPatch(parent, oldNode, newNode)` with an old node does at
the place of the old node. -/
inductive Effect where
  /-- The old node is removed from the parent (`removeChild`). -/
  | remove
  /-- A preserved old node without a new node: nothing happens. -/
  | untouched
  /-- A preserved old node: appended to the parent unless the parent contains it. -/
  | keep
  /-- The new node takes the place of the old one (`replaceChild`). -/
  | replace (newNode : Node)
  /-- The old node stays and has been updated in place to the given state. -/
  | update (oldNode : Node)
  deriving Repr

/-! ## The reconciler (`diffAndPatch`) -/

/-- First attribute loop: every attribute of the new node whose value the old node does
not already have is set on the old node. -/
def setNewAttrs (node : Nat) :
    List (String × String) → List (String × String) → List (String × String) × List Mutation
  | [], oldAttrs => (oldAttrs, [])
  | (name, value) :: rest, oldAttrs =>
    if getAttribute oldAttrs name != some value then
      let r := setNewAttrs node rest (setAttribute oldAttrs name value)
      (r.1, Mutation.setAttribute node name value :: r.2)
    else setNewAttrs node rest oldAttrs

/-- Second attribute loop, over a copy of the old node's attribute list: every name the
new node does not have is removed from the old node. -/
def removeStaleAttrs (node : Nat) (newAttrs : List (String × String)) :
    List (String × String) → List (String × String) → List (String × String) × List Mutation
  | [], oldAttrs => (oldAttrs, [])
  | (name, _) :: rest, oldAttrs =>
    if !hasAttribute newAttrs name then
      let r := removeStaleAttrs node newAttrs rest (removeAttribute oldAttrs name)
      (r.1, Mutation.removeAttribute node name :: r.2)
    else removeStaleAttrs node newAttrs rest oldAttrs

/-- Both attribute loops in sequence. -/
def patchAttrs (node : Nat) (oldAttrs newAttrs : List (String × String)) :
    List (String × String) × List Mutation :=
  let r1 := setNewAttrs node newAttrs oldAttrs
  let r2 := removeStaleAttrs node newAttrs r1.1 r1.1
  (r2.1, r1.2 ++ r2.2)

/-- The `forEach` over `checked`, `disabled`, `selected`: each property of the old node
becomes `newNode.hasAttribute(attr)`. What the write of `disabled` does to the
attributes is `reflectDisabled`. -/
def syncProps (newAttrs : List (String × String)) : Props :=
  { checked := hasAttribute newAttrs "checked"
    disabled := hasAttribute newAttrs "disabled"
    selected := hasAttribute newAttrs "selected" }

/-- The write `oldNode.disabled = value` as it shows in the attributes. On an element
whose `disabled` property reflects the content attribute (a form control), `true` sets
the attribute to the empty string and `false` removes it; on another element the write
leaves the attributes alone. The properties `checked` and `selected` reflect no
attribute. -/
def reflectDisabled (reflecting value : Bool) (attrs : List (String × String)) :
    List (String × String) :=
  if reflecting then
    if value then setAttribute attrs "disabled" "" else removeAttribute attrs "disabled"
  else attrs

/-- The attributes of an old element after the two loops and the property writes. -/
def updatedAttrs (reflects : String → Bool) (node : Nat) (tag : String)
    (oldAttrs newAttrs : List (String × String)) : List (String × String) :=
  reflectDisabled (reflects tag) (hasAttribute newAttrs "disabled")
    (patchAttrs node oldAttrs newAttrs).1

/-- The children that an effect leaves at the place of an old child. -/
def Effect.slot (oldChild : Node) : Effect → List Node
  | .remove => []
  | .untouched => [oldChild]
  | .keep => [oldChild]
  | .replace newNode => [newNode]
  | .update oldNode => [oldNode]

mutual
/-- The body of `diffAndPatch` for an old node that exists: the effect at the place of
the old node, and the mutating calls made, in order. `parent` is the identity of the
parent argument. The platform is in two parameters: `reflects` says, by tag name, on
which elements the property `disabled` reflects the attribute of that name, and `m` is
the selector matching. -/
def diffNode (reflects : String → Bool) (m : Node → String → Bool) (preserve : List String)
    (parent : Nat) :
    Node → Option Node → Effect × List Mutation
  | oldNode, none =>
    if !preserved m preserve oldNode then (.remove, [.removeChild parent oldNode])
    else (.untouched, [])
  | .text i d, some newNode =>
    if preserved m preserve (.text i d) then (.keep, [])
    else if (Node.text i d).nodeType != newNode.nodeType
        || (Node.text i d).nodeName != newNode.nodeName then
      (.replace newNode, [.replaceChild parent newNode (.text i d)])
    else if d != newNode.data then (.update (.text i newNode.data), [.setText i newNode.data])
    else (.update (.text i d), [])
  | .comment i d, some newNode =>
    if preserved m preserve (.comment i d) then (.keep, [])
    else if (Node.comment i d).nodeType != newNode.nodeType
        || (Node.comment i d).nodeName != newNode.nodeName then
      (.replace newNode, [.replaceChild parent newNode (.comment i d)])
    else (.update (.comment i d), [])
  | .element i tag attrs props kids, some newNode =>
    if preserved m preserve (.element i tag attrs props kids) then (.keep, [])
    else if (Node.element i tag attrs props kids).nodeType != newNode.nodeType
        || (Node.element i tag attrs props kids).nodeName != newNode.nodeName then
      (.replace newNode, [.replaceChild parent newNode (.element i tag attrs props kids)])
    else
      let a := patchAttrs i attrs newNode.attributes
      let c := diffChildren reflects m preserve i kids newNode.childNodes
      (.update (.element i tag (updatedAttrs reflects i tag attrs newNode.attributes)
        (syncProps newNode.attributes) c.1), a.2 ++ c.2)
/-- The `while` loop over the two child lists: the old cursor is the first list, the
new cursor the second; the result is the child list of the old node after the loop,
and the mutating calls made. -/
def diffChildren (reflects : String → Bool) (m : Node → String → Bool)
    (preserve : List String) (parent : Nat) :
    List Node → List Node → List Node × List Mutation
  | [], newChildren => (newChildren, newChildren.map (Mutation.appendChild parent))
  | oldChild :: olds, [] =>
    let rest := diffChildren reflects m preserve parent olds []
    if !preserved m preserve oldChild then (rest.1, .removeChild parent oldChild :: rest.2)
    else (oldChild :: rest.1, rest.2)
  | oldChild :: olds, newChild :: news =>
    if preserved m preserve oldChild then
      let rest := diffChildren reflects m preserve parent olds (newChild :: news)
      (oldChild :: rest.1, rest.2)
    else if oldChild.nodeType == newChild.nodeType
        && oldChild.nodeName == newChild.nodeName then
      let r := diffNode reflects m preserve parent oldChild (some newChild)
      let rest := diffChildren reflects m preserve parent olds news
      (r.1.slot oldChild ++ rest.1, r.2 ++ rest.2)
    else
      let rest := diffChildren reflects m preserve parent olds news
      (newChild :: rest.1, .replaceChild parent newChild oldChild :: rest.2)
end

/-- The errors the platform raises on the tree calls of `diffAndPatch`. -/
inductive DOMError where
  /-- The call `appendChild(undefined)`. -/
  | typeError
  /-- A `removeChild` or `replaceChild` whose old node is not a child of the parent. -/
  | notFound
  /-- A child given to a node that cannot have children. -/
  | hierarchyRequest
  deriving DecidableEq, Repr

/-- The tree with every node of identity `target` replaced by `repl`: how an in-place
update of one node object shows in a tree that holds it. -/
def Node.subst (target : Nat) (repl : Node) : Node → Node
  | .text i d => if i = target then repl else .text i d
  | .comment i d => if i = target then repl else .comment i d
  | .element i tag attrs props kids =>
    if i = target then repl else .element i tag attrs props (substList kids)
where
  /-- The same replacement in a list of trees. -/
  substList : List Node → List Node
    | [] => []
    | k :: ks => Node.subst target repl k :: substList ks

/-- The child list with its first node of identity `target` taken out. -/
def removeById (target : Nat) : List Node → List Node
  | [] => []
  | k :: ks => if k.id = target then ks else k :: removeById target ks

/-- The child list with its first node of identity `target` replaced by `repl`. -/
def replaceById (target : Nat) (repl : Node) : List Node → List Node
  | [] => []
  | k :: ks => if k.id = target then repl :: ks else k :: replaceById target repl ks

/-- The test that a node is a child of the parent. -/
def Node.hasChild (parent node : Node) : Bool :=
  parent.childNodes.any (fun k => k.id == node.id)

/-- The parent with a new child list; `none` for a node that cannot have children. -/
def Node.setChildNodes : Node → List Node → Option Node
  | .element i tag attrs props _, kids => some (.element i tag attrs props kids)
  | _, _ => none

/-- The state after a call of `diffAndPatch`: the parent, the old node object (when one
was passed), and the mutating calls made, in order. -/
structure Outcome where
  parent : Node
  oldNode : Option Node
  log : List Mutation
  deriving Repr

/-- The call `parent.appendChild(node)`. -/
def appendChild (parent node : Node) : Except DOMError Node :=
  match parent.setChildNodes (parent.childNodes ++ [node]) with
  | some p => .ok p
  | none => .error .hierarchyRequest

/-- The function `diffAndPatch(parent, oldNode, newNode, preserve)`. The new tree is
built apart from the live one (a new node that is already in the parent would be moved
by `appendChild` and `replaceChild`, which this model does not follow); `none` is an
argument that is `undefined` or `null`. -/
def diffAndPatch (reflects : String → Bool) (m : Node → String → Bool) (parent : Node)
    (oldNode newNode : Option Node) (preserve : List String) : Except DOMError Outcome :=
  match oldNode with
  | none =>
    match newNode with
    | none => .error .typeError
    | some n =>
      match appendChild parent n with
      | .ok p => .ok { parent := p, oldNode := none, log := [.appendChild parent.id n] }
      | .error e => .error e
  | some o =>
    match diffNode reflects m preserve parent.id o newNode with
    | (.remove, log) =>
      if parent.hasChild o then
        match parent.setChildNodes (removeById o.id parent.childNodes) with
        | some p => .ok { parent := p, oldNode := some o, log := log }
        | none => .error .notFound
      else .error .notFound
    | (.untouched, log) => .ok { parent := parent, oldNode := some o, log := log }
    | (.keep, log) =>
      if !parent.contains o then
        match appendChild parent o with
        | .ok p => .ok { parent := p, oldNode := some o, log := log ++ [.appendChild parent.id o] }
        | .error e => .error e
      else .ok { parent := parent, oldNode := some o, log := log }
    | (.replace n, log) =>
      if parent.hasChild o then
        match parent.setChildNodes (replaceById o.id n parent.childNodes) with
        | some p => .ok { parent := p, oldNode := some o, log := log }
        | none => .error .notFound
      else .error .notFound
    | (.update o1, log) =>
      .ok { parent := Node.subst o.id o1 parent, oldNode := some o1, log := log }

/-- Repeated reconciliation of the same old node object against a sequence of new
trees, each call starting from the state the previous one left. -/
def diffAndPatchAll (reflects : String → Bool) (m : Node → String → Bool)
    (preserve : List String) :
    Node → Node → List (Option Node) → Except DOMError Outcome
  | parent, oldNode, [] => .ok { parent := parent, oldNode := some oldNode, log := [] }
  | parent, oldNode, newNode :: rest =>
    match diffAndPatch reflects m parent (some oldNode) newNode preserve with
    | .ok out =>
      match diffAndPatchAll reflects m preserve out.parent (out.oldNode.getD oldNode) rest with
      | .ok out1 => .ok { parent := out1.parent, oldNode := out1.oldNode, log := out.log ++ out1.log }
      | .error e => .error e
    | .error e => .error e

/-! ## Vocabulary of the reconciler's properties -/

/-- Two attribute lists bind the same names to the same values. -/
def attrsEq (a b : List (String × String)) : Bool :=
  a.all (fun kv => getAttribute b kv.1 == getAttribute a kv.1) &&
  b.all (fun kv => getAttribute a kv.1 == getAttribute b kv.1)

/-- Structural equality of two trees: same category, tag, attribute bindings, text, and
children in order; identities and properties do not count. -/
def structEq : Node → Node → Bool
  | .text _ d, .text _ d1 => d == d1
  | .comment _ d, .comment _ d1 => d == d1
  | .element _ tag attrs _ kids, .element _ tag1 attrs1 _ kids1 =>
    tag == tag1 && attrsEq attrs attrs1 && structEqList kids kids1
  | _, _ => false
where
  /-- Structural equality of two child lists. -/
  structEqList : List Node → List Node → Bool
    | [], [] => true
    | o :: os, n :: ns => structEq o n && structEqList os ns
    | _, _ => false

/-- Every element of the tree has pairwise different attribute names. -/
def Node.attrsUnique : Node → Bool
  | .element _ _ attrs _ kids => (attrs.map Prod.fst).Nodup && attrsUniqueList kids
  | _ => true
where
  /-- The same for a list of trees. -/
  attrsUniqueList : List Node → Bool
    | [] => true
    | k :: ks => k.attrsUnique && attrsUniqueList ks

/-- The tree is built from element and text nodes only. -/
def Node.elementsAndText : Node → Bool
  | .text _ _ => true
  | .comment _ _ => false
  | .element _ _ _ _ kids => elementsAndTextList kids
where
  /-- The same for a list of trees. -/
  elementsAndTextList : List Node → Bool
    | [] => true
    | k :: ks => k.elementsAndText && elementsAndTextList ks

/-- The nodes of a tree: the root and everything below it, in document order. -/
def Node.nodes : Node → List Node
  | .text i d => [.text i d]
  | .comment i d => [.comment i d]
  | .element i tag attrs props kids => .element i tag attrs props kids :: nodesList kids
where
  /-- The nodes of a list of trees. -/
  nodesList : List Node → List Node
    | [] => []
    | k :: ks => k.nodes ++ nodesList ks

/-- The node reached from the root by a path of child indices. -/
def Node.at? : Node → List Nat → Option Node
  | n, [] => some n
  | n, i :: path =>
    match n.childNodes[i]? with
    | none => none
    | some k => k.at? path

/-- An old and a new node are paired positionally along a path: at every step of the
path, the root included, the two nodes have the same category and name. -/
def pairedAt : Node → Node → List Nat → Option (Node × Node)
  | o, n, [] =>
    if o.nodeType == n.nodeType && o.nodeName == n.nodeName then some (o, n) else none
  | o, n, i :: path =>
    if o.nodeType == n.nodeType && o.nodeName == n.nodeName then
      match o.childNodes[i]?, n.childNodes[i]? with
      | some ok, some nk => pairedAt ok nk path
      | _, _ => none
    else none

/-- The value that an element updated in place against `new` binds to a name: the value
that `new` binds to it, but the empty string for `disabled` when the property reflects
on that tag and `new` has the attribute. -/
def boundAfter (reflects : String → Bool) (new : Node) (name : String) : Option String :=
  if reflects new.nodeName && name == "disabled" && hasAttribute new.attributes "disabled"
  then some ""
  else getAttribute new.attributes name

/-- No element of the tree on which `disabled` reflects has a `disabled` attribute with
a value other than the empty string. -/
def Node.disabledEmpty (reflects : String → Bool) : Node → Bool
  | .element _ tag attrs _ kids =>
    (!reflects tag || getAttribute attrs "disabled" == none
      || getAttribute attrs "disabled" == some "") && disabledEmptyList reflects kids
  | _ => true
where
  /-- The same for a list of trees. -/
  disabledEmptyList (reflects : String → Bool) : List Node → Bool
    | [] => true
    | k :: ks => k.disabledEmpty reflects && disabledEmptyList reflects ks

/-- The tree with the three properties of every element switched off: what is left is
identities, tags, attributes, text and children. -/
def Node.eraseProps : Node → Node
  | .text i d => .text i d
  | .comment i d => .comment i d
  | .element i tag attrs _ kids =>
    .element i tag attrs { checked := false, disabled := false, selected := false }
      (erasePropsList kids)
where
  /-- The same for a list of trees. -/
  erasePropsList : List Node → List Node
    | [] => []
    | k :: ks => k.eraseProps :: erasePropsList ks

/-- The node that a mutating call detaches from its parent, when it detaches one. -/
def Mutation.detached : Mutation → Option Node
  | .removeChild _ child => some child
  | .replaceChild _ _ oldChild => some oldChild
  | _ => none

/-- A selector test that reads a selector as a tag name, as type selectors do. -/
def tagSelector (node : Node) (selector : String) : Bool :=
  node.nodeName == selector

/-- The form controls of HTML, whose `disabled` property reflects the attribute, by the
tag name of an HTML document. -/
def formControl (tag : String) : Bool :=
  ["BUTTON", "FIELDSET", "INPUT", "OPTGROUP", "OPTION", "SELECT", "TEXTAREA"].contains tag

/-! ## Sample trees -/

/-- The three properties all off. -/
def noProps : Props := { checked := false, disabled := false, selected := false }

/-- A `BODY` element of identity 0 holding the given children. -/
def bodyOf (kids : List Node) : Node := .element 0 "BODY" [] noProps kids

/-- The live tree `<div id="a"><span>old</span></div>`. -/
def liveDiv : Node :=
  .element 1 "DIV" [("id", "a")] noProps [.element 2 "SPAN" [] noProps [.text 3 "old"]]

/-- The new tree `<div id="b"><span>new</span></div>`. -/
def freshDiv : Node :=
  .element 11 "DIV" [("id", "b")] noProps [.element 12 "SPAN" [] noProps [.text 13 "new"]]

/-- The live tree `<div><p></p><span></span></div>`. -/
def livePair : Node :=
  .element 1 "DIV" [] noProps [.element 2 "P" [] noProps [], .element 3 "SPAN" [] noProps []]

/-- A new tree `<div><p></p><span></span></div>`, built apart from the live one. -/
def freshPair : Node :=
  .element 11 "DIV" [] noProps [.element 12 "P" [] noProps [], .element 13 "SPAN" [] noProps []]

/-- The live tree `<div><span><p></p></span></div>`. -/
def liveNested : Node :=
  .element 1 "DIV" [] noProps [.element 2 "SPAN" [] noProps [.element 3 "P" [] noProps []]]

/-- The new tree `<div><a></a></div>`. -/
def freshLink : Node :=
  .element 11 "DIV" [] noProps [.element 12 "A" [] noProps []]

/-- The live tree `<div><a></a><b></b><c></c></div>`. -/
def liveABC : Node :=
  .element 1 "DIV" [] noProps
    [.element 2 "A" [] noProps [], .element 3 "B" [] noProps [], .element 4 "C" [] noProps []]

/-- The new tree `<div><a></a><c></c></div>`. -/
def freshAC : Node :=
  .element 11 "DIV" [] noProps [.element 12 "A" [] noProps [], .element 14 "C" [] noProps []]

/-- The live tree `<input>`. -/
def liveInput : Node := .element 1 "INPUT" [] noProps []

/-- The new tree `<input disabled="disabled">`. -/
def freshDisabledInput : Node := .element 11 "INPUT" [("disabled", "disabled")] noProps []

/-- The live tree `<button disabled="disabled">`. -/
def liveButton : Node := .element 1 "BUTTON" [("disabled", "disabled")] noProps []

/-- A new tree `<button disabled="disabled">`, built apart from the live one. -/
def freshButton : Node := .element 11 "BUTTON" [("disabled", "disabled")] noProps []

/-- The live tree `<div><!--old--></div>`. -/
def liveNote : Node := .element 1 "DIV" [] noProps [.comment 2 "old"]

/-- The new tree `<div><!--new--></div>`. -/
def freshNote : Node := .element 11 "DIV" [] noProps [.comment 12 "new"]

/-! ## Affix values and the resolver (`onAFFIX`) -/

/-- The value of an error that is thrown or that a promise rejects with. -/
abbrev Err := String

mutual
/-- A value handed to `onAFFIX`: a literal, a live element, a callable (its behaviour on
the parameters of the route), a settled promise, an array, or a plain object with its
own enumerable properties in enumeration order. -/
inductive Affix where
  | undefined
  | null
  | bool (b : Bool)
  | num (n : Int)
  | str (s : String)
  | element (id : Nat)
  | callable (call : Obj → Completion)
  | promise (settled : Completion)
  | array (items : List Affix)
  | object (props : List (String × Affix))
/-- How a call or a promise ends: with a value (a return, a fulfilment) or with an
error (a throw, a rejection). -/
inductive Completion where
  | normal (value : Affix)
  | abrupt (error : Err)
end

/-- The assignment `RESULT[KEY] = value` on a plain object: an existing key takes the
value, a new key goes last, and the key `__proto__` reaches the inherited setter, so no
own property is written for it. The setter ignores a value that is no object; for an
object or `null` it replaces the prototype of `RESULT`, which this list of own
properties does not show: the properties that read a resolved value are stated for
values that are `plain`. -/
def setProp : List (String × Affix) → String → Affix → List (String × Affix)
  | [], key, value => if key = "__proto__" then [] else [(key, value)]
  | (k, v) :: rest, key, value =>
    if key = "__proto__" then (k, v) :: rest
    else if k = key then (k, value) :: rest
    else (k, v) :: setProp rest key value

mutual
/-- The function `onAFFIX(AFFIX, PARAMS)`: how the promise it returns settles, and the
errors it hands to `console.error`, in order. An awaited value goes through the same
branches as a call on that value does, so the promise and callable branches continue
with the call on what they await. -/
def onAFFIX : Affix → Obj → Completion × List Err
  | .promise settled, PARAMS => afterAwait settled PARAMS
  | .element id, _ => (.normal (.element id), [])
  | .callable call, PARAMS => afterAwait (call PARAMS) PARAMS
  | .array items, PARAMS =>
    match resolveItems items PARAMS with
    | (.ok result, log) => (.normal (.array result), log)
    | (.error e, log) => (.normal .undefined, log ++ [e])
  | .object props, PARAMS =>
    match resolveProps props PARAMS [] with
    | (.ok result, log) => (.normal (.object result), log)
    | (.error e, log) => (.normal .undefined, log ++ [e])
  | value, _ => (.normal value, [])
/-- An `await` inside the `try` block followed by the branches on the awaited value: a
throw or a rejection lands in the `catch`, which logs it and lets the call end with
`undefined`. -/
def afterAwait : Completion → Obj → Completion × List Err
  | .abrupt e, _ => (.normal .undefined, [e])
  | .normal value, PARAMS => onAFFIX value PARAMS
/-- The `for` loop over the indices of an array, each element resolved by an awaited
recursive call; `error` is an `await` that threw. -/
def resolveItems : List Affix → Obj → Except Err (List Affix) × List Err
  | [], _ => (.ok [], [])
  | item :: rest, PARAMS =>
    match onAFFIX item PARAMS with
    | (.abrupt e, log) => (.error e, log)
    | (.normal value, log) =>
      match resolveItems rest PARAMS with
      | (.error e, log2) => (.error e, log ++ log2)
      | (.ok values, log2) => (.ok (value :: values), log ++ log2)
/-- The `for` loop over the own keys of an object, with `RESULT` as built so far. -/
def resolveProps : List (String × Affix) → Obj → List (String × Affix) →
    Except Err (List (String × Affix)) × List Err
  | [], _, result => (.ok result, [])
  | (key, item) :: rest, PARAMS, result =>
    match onAFFIX item PARAMS with
    | (.abrupt e, log) => (.error e, log)
    | (.normal value, log) =>
      match resolveProps rest PARAMS (setProp result key value) with
      | (r, log2) => (r, log ++ log2)
end

/-- An object with a callable member `then`: awaited, it is not passed on as a value,
its `then` is called. -/
def Affix.thenable : Affix → Bool
  | .object props =>
    match props.find? (fun kv => kv.1 == "then") with
    | some (_, .callable _) => true
    | _ => false
  | _ => false

mutual
/-- A value that `onAFFIX` resolves with nothing but own data properties in play: no
object that the resolution reaches has an own key `__proto__`, and no callable or
promise it awaits gives a thenable. -/
def Affix.plain : Affix → Obj → Bool
  | .promise settled, PARAMS => plainAwaited settled PARAMS
  | .callable call, PARAMS => plainAwaited (call PARAMS) PARAMS
  | .array items, PARAMS => plainItems items PARAMS
  | .object props, PARAMS => plainProps props PARAMS
  | _, _ => true
/-- The same for what an `await` gives. -/
def plainAwaited : Completion → Obj → Bool
  | .abrupt _, _ => true
  | .normal value, PARAMS => !value.thenable && Affix.plain value PARAMS
/-- The same for the elements of an array. -/
def plainItems : List Affix → Obj → Bool
  | [], _ => true
  | item :: rest, PARAMS => Affix.plain item PARAMS && plainItems rest PARAMS
/-- The same for the properties of an object. -/
def plainProps : List (String × Affix) → Obj → Bool
  | [], _ => true
  | (key, item) :: rest, PARAMS =>
    key != "__proto__" && Affix.plain item PARAMS && plainProps rest PARAMS
end

/-- The value that `onAFFIX` resolves to. -/
def resolution (value : Affix) (PARAMS : Obj) : Affix :=
  match (onAFFIX value PARAMS).1 with
  | .normal v => v
  | .abrupt _ => .undefined

/-- An element of a composite whose resolution fails with the error `e`: a promise that
rejects with it, or a callable that throws it. -/
def failsWith (value : Affix) (PARAMS : Obj) (e : Err) : Prop :=
  value = .promise (.abrupt e) ∨ ∃ call, value = .callable call ∧ call PARAMS = .abrupt e

/-- The property read `value?.key`. -/
def Affix.prop : Affix → String → Affix
  | .object props, key =>
    match props.find? (fun kv => kv.1 == key) with
    | some kv => kv.2
    | none => .undefined
  | _, _ => .undefined

/-- Truthiness of a value. -/
def Affix.truthy : Affix → Bool
  | .undefined => false
  | .null => false
  | .bool b => b
  | .num n => n != 0
  | .str s => s != ""
  | _ => true

/-- The test that a value is `undefined` or `null`, on which a property read throws. -/
def Affix.nullish : Affix → Bool
  | .undefined => true
  | .null => true
  | _ => false

/-- The test `value === s` for a string `s`. -/
def Affix.isString : Affix → String → Bool
  | .str t, s => t == s
  | _, _ => false

/-- The test `value === null`. -/
def Affix.isNull : Affix → Bool
  | .null => true
  | _ => false

/-! ## The router's URL source (`AZRouter.onURL`) -/

/-- The method `onURL`, from the router's mode and the three parts of `window.location`
it reads. -/
def onURL (onMODE pathname search hash : Str) : Str :=
  if onMODE = "history".toList then pathname ++ search else hash.drop 1

/-! ## The navigation pipeline (`AZRouter.onPROCESS`) -/

/-- The fields of a route definition that hold affixes, `undefined` when absent. -/
structure Hooks where
  onVIEW : Affix
  onBEFORE : Affix
  onREDIRECT : Affix
  onLEAVE : Affix
  onLOADED : Affix

/-- The router as constructed: the route table, the rest of each definition by its
handle, and the options that the pipeline reads. -/
structure Router where
  routes : List Route
  hooks : Nat → Hooks
  onROOT : Str
  on404 : Str
  onMODE : Str
  onBEFORE : Affix

/-- The platform during one transition: the query decoder, whether `history.pushState`
and `history.replaceState` take a URL (`false`: the call throws, as it does on a URL of
another origin), whether each step that works on the document, the window or the
progress bar returns (`true`) or throws (`false`), and the scroll offsets of the
window. -/
structure Platform where
  dec : Str → Str
  history : Str → Bool
  progressStart : Bool
  transitionOut : Bool
  renderHead : Bool
  renderMount : Bool
  transitionIn : Bool
  scroll : Bool
  progressEnd : Bool
  scrollX : Int
  scrollY : Int

/-- Every platform step of the transition returns. -/
def Platform.allOk (plat : Platform) : Bool :=
  plat.progressStart && plat.transitionOut && plat.renderHead && plat.renderMount &&
  plat.transitionIn && plat.scroll && plat.progressEnd

/-- The state that the router keeps between transitions: `onPREVIOUS` (its two fields
are `null` together or set together) and `onSCROLL.STORAGE` as `(x, y, on)`. -/
structure RouterState where
  onPREVIOUS : Option (Route × Obj)
  STORAGE : Int × Int × Option Str

/-- The steps of a transition, in the words of the specification. -/
inductive Step where
  | resolveView
  | progressStart
  | scrollStore
  | globalGuards
  | routeGuard
  | redirect
  | leave
  | transitionOut
  | renderHead
  | renderMount
  | transitionIn
  | scroll
  | progressEnd
  | loaded
  | commit
  deriving DecidableEq, Repr

/-- What a transition does that can be observed: a step is started, `onAFFIX` logs an
error, `navigateTo` calls `history.pushState` or `history.replaceState` and then
`onPROCESS` on the URL, the `catch` of `onPROCESS` is entered. -/
inductive Event where
  | step (s : Step)
  | log (e : Err)
  | pushState (url : Str)
  | replaceState (url : Str)
  | process (url : Str)
  | caught
  deriving DecidableEq, Repr

/-- The step that an event starts, if it starts one. -/
def Event.step? : Event → Option Step
  | .step s => some s
  | _ => none

/-- The events of `navigateTo`. -/
def Event.isNav : Event → Bool
  | .pushState _ => true
  | .replaceState _ => true
  | .process _ => true
  | _ => false

/-- The steps of a transition in the order of the specification. -/
def allSteps : List Step :=
  [.resolveView, .progressStart, .scrollStore, .globalGuards, .routeGuard, .redirect, .leave,
    .transitionOut, .renderHead, .renderMount, .transitionIn, .scroll, .progressEnd, .loaded,
    .commit]

/-- The call `url.replace(pattern, '')` with a string pattern: the first occurrence of
the pattern goes. -/
def removeFirst (pattern : Str) : Str → Str
  | [] => []
  | c :: cs =>
    if pattern.isPrefixOf (c :: cs) then (c :: cs).drop pattern.length
    else c :: removeFirst pattern cs

/-- The URL that `navigateTo(url)` hands to the history and to `onPROCESS`. -/
def navURL (R : Router) (url : Str) : Str :=
  if R.onMODE = "hash".toList then '#' :: removeFirst R.onROOT url
  else R.onROOT ++ removeFirst R.onROOT url

/-- The method `navigateTo(url, options)`: whether it returns, and its events. The
history call comes first; when it throws, `navigateTo` throws with it and `onPROCESS` is
not called; otherwise `onPROCESS` is called on the same URL and runs as a transition of
its own. -/
def navigateTo (R : Router) (plat : Platform) (url : Str) (replace : Bool) :
    Bool × List Event :=
  if plat.history (navURL R url) then
    (true, [if replace then .replaceState (navURL R url) else .pushState (navURL R url),
      .process (navURL R url)])
  else (false, [])

/-- The pattern `if (hook) await onAFFIX(hook, PARAMS)` of `onBEFOREX`, `onLEAVE` and
`onLOADED`: whether the step returns, and the errors logged. -/
def runHook (hook : Affix) (PARAMS : Obj) : Bool × List Event :=
  if hook.truthy then
    match onAFFIX hook PARAMS with
    | (.normal _, log) => (true, log.map Event.log)
    | (.abrupt _, log) => (false, log.map Event.log)
  else (true, [])

/-- The two reads and the test of `onREDIRECT` on what the hook resolved to:
`ON = info?.ON || null`, `REDIRECT = info?.REDIRECT || 'OFF'`, and the target `ON` when
`REDIRECT === 'ON' && ON !== null`. -/
def redirectTarget (info : Affix) : Option Affix :=
  let ON := if (info.prop "ON").truthy then info.prop "ON" else Affix.null
  let REDIRECT := if (info.prop "REDIRECT").truthy then info.prop "REDIRECT" else .str "OFF"
  if REDIRECT.isString "ON" && !ON.isNull then some ON else none

/-- The method `onREDIRECT(onREDIRECT, PARAMS)`: whether it returns, and its events. A
target that is not a string has no `replace` method, so `navigateTo` throws on it. -/
def onREDIRECT (R : Router) (plat : Platform) (hook : Affix) (PARAMS : Obj) :
    Bool × List Event :=
  if hook.truthy then
    match onAFFIX hook PARAMS with
    | (.abrupt _, log) => (false, log.map Event.log)
    | (.normal info, log) =>
      match redirectTarget info with
      | none => (true, log.map Event.log)
      | some (.str target) =>
        ((navigateTo R plat target.toList false).1,
          log.map Event.log ++ (navigateTo R plat target.toList false).2)
      | some _ => (false, log.map Event.log)
  else (true, [])

/-- The method `onSCROLLstore(onPREVIOUS)`, called with the previous parameters. -/
def onSCROLLstore (plat : Platform) (st : RouterState) : RouterState :=
  match st.onPREVIOUS with
  | some (_, PARAMS) =>
    { st with STORAGE := (plat.scrollX, plat.scrollY, PARAMS.get "on".toList) }
  | none => st

/-- The call `onLEAVE(this.onPREVIOUS.AFFIXES?.onLEAVE, this.onPREVIOUS?.PARAMS)`. -/
def leaveStep (R : Router) (st : RouterState) : Bool × List Event :=
  match st.onPREVIOUS with
  | some (prev, prevPARAMS) => runHook (R.hooks prev.onVIEW).onLEAVE prevPARAMS
  | none => (true, [])

/-- The `try` block of `onPROCESS` for a matched definition: the state it leaves and its
events. Every exit but the last is a throw that the `catch` receives. -/
def tryBlock (R : Router) (plat : Platform) (st : RouterState) (AFFIXES : Route)
    (PARAMS : Obj) : RouterState × List Event :=
  let h := R.hooks AFFIXES.onVIEW
  let view := onAFFIX h.onVIEW PARAMS
  let t1 := Event.step .resolveView :: view.2.map Event.log
  match view.1 with
  | .abrupt _ => (st, t1 ++ [.caught])
  | .normal onVIEW =>
    let t2 := t1 ++ [.step .progressStart]
    if !plat.progressStart then (st, t2 ++ [.caught]) else
    let st3 := onSCROLLstore plat st
    let t3 := t2 ++ [.step .scrollStore]
    let g := runHook R.onBEFORE PARAMS
    let t4 := t3 ++ .step .globalGuards :: g.2
    if !g.1 then (st3, t4 ++ [.caught]) else
    let b := runHook h.onBEFORE PARAMS
    let t5 := t4 ++ .step .routeGuard :: b.2
    if !b.1 then (st3, t5 ++ [.caught]) else
    let rd := onREDIRECT R plat h.onREDIRECT PARAMS
    let t6 := t5 ++ .step .redirect :: rd.2
    if !rd.1 then (st3, t6 ++ [.caught]) else
    let lv := leaveStep R st
    let t7 := t6 ++ .step .leave :: lv.2
    if !lv.1 then (st3, t7 ++ [.caught]) else
    let t8 := t7 ++ [.step .transitionOut]
    if st.onPREVIOUS.isSome && !plat.transitionOut then (st3, t8 ++ [.caught]) else
    let t9 := t8 ++ [.step .renderHead]
    if !plat.renderHead then (st3, t9 ++ [.caught]) else
    if onVIEW.nullish then (st3, t9 ++ [.caught]) else
    let t10 := t9 ++ [.step .renderMount]
    if !plat.renderMount then (st3, t10 ++ [.caught]) else
    let t11 := t10 ++ [.step .transitionIn]
    if !plat.transitionIn then (st3, t11 ++ [.caught]) else
    let t12 := t11 ++ [.step .scroll]
    if !plat.scroll then (st3, t12 ++ [.caught]) else
    let t13 := t12 ++ [.step .progressEnd]
    if !plat.progressEnd then (st3, t13 ++ [.caught]) else
    let ld := runHook h.onLOADED PARAMS
    let t14 := t13 ++ .step .loaded :: ld.2
    if !ld.1 then (st3, t14 ++ [.caught]) else
    ({ st3 with onPREVIOUS := some (AFFIXES, PARAMS) }, t14 ++ [.step .commit])

/-- One call of `onPROCESS`: the state it leaves, its events, and whether the promise
it returns is rejected (a throw outside the `try` block). -/
structure Run where
  state : RouterState
  trace : List Event
  rejected : Bool

/-- The method `onPROCESS(onURL)`. Without a match, `navigateTo(this.on404)` runs; it
throws, or it returns `undefined` and reading `AFFIXES.on` then throws: either way the
throw is outside the `try` block. -/
def onPROCESS (R : Router) (plat : Platform) (st : RouterState) (url : Str) : Run :=
  match onMATCH R.routes url with
  | none => { state := st, trace := (navigateTo R plat R.on404 false).2, rejected := true }
  | some AFFIXES =>
    match onPARAMS plat.dec AFFIXES.pattern url with
    | none => { state := st, trace := [], rejected := true }
    | some PARAMS =>
      { state := (tryBlock R plat st AFFIXES PARAMS).1
        trace := (tryBlock R plat st AFFIXES PARAMS).2
        rejected := false }

/-- An event that is an error logged by `onAFFIX`. -/
def Event.isLog : Event → Bool
  | .log _ => true
  | _ => false

/-! ## Sample routers -/

/-- A platform on which every step returns, with the identity as query decoder. -/
def calmPlatform : Platform :=
  { dec := id, history := fun _ => true, progressStart := true, transitionOut := true, renderHead := true,
    renderMount := true, transitionIn := true, scroll := true, progressEnd := true,
    scrollX := 0, scrollY := 0 }

/-- A platform on which every step returns and whose history takes the URLs that do not
start with `//`, those of the document's origin. -/
def sameOriginPlatform : Platform :=
  { calmPlatform with history := fun url => !("//".toList).isPrefixOf url }

/-- The state of a router that has committed no transition yet. -/
def freshState : RouterState := { onPREVIOUS := none, STORAGE := (0, 0, some []) }

/-- A definition whose view resolves to `{ VIEW: element }` and which has no other hook. -/
def plainHooks : Hooks :=
  { onVIEW := .object [("VIEW", .element 5)], onBEFORE := .undefined,
    onREDIRECT := .undefined, onLEAVE := .undefined, onLOADED := .undefined }

/-- A router in history mode with root `/` and the routes `/users/:id` and `/404`, the
given redirect hook on every definition. -/
def sampleRouter (redirect : Affix) : Router :=
  { routes := [⟨"/users/:id".toList, 0⟩, ⟨"/404".toList, 1⟩]
    hooks := fun _ => { plainHooks with onREDIRECT := redirect }
    onROOT := "/".toList, on404 := "/404".toList, onMODE := "history".toList
    onBEFORE := .array [] }

/-- The sample router with the given before-enter guard on every definition and no
redirect hook. -/
def guardedRouter (guard : Affix) : Router :=
  { sampleRouter .undefined with hooks := fun _ => { plainHooks with onBEFORE := guard } }

/-- The errors that `onAFFIX` logs while resolving a hook that is set, as events; a hook
that is not set is not resolved. -/
def hookLog (hook : Affix) (PARAMS : Obj) : List Event :=
  if hook.truthy then (onAFFIX hook PARAMS).2.map Event.log else []

/-- Every hook that a transition to the definition reads is plain: the view, the two
guards, the redirect and loaded hooks at the parameters of the transition, and the leave
hook of the previous definition at the previous parameters. -/
def Router.plain (R : Router) (st : RouterState) (AFFIXES : Route) (PARAMS : Obj) : Bool :=
  (R.hooks AFFIXES.onVIEW).onVIEW.plain PARAMS && R.onBEFORE.plain PARAMS &&
  (R.hooks AFFIXES.onVIEW).onBEFORE.plain PARAMS &&
  (R.hooks AFFIXES.onVIEW).onREDIRECT.plain PARAMS &&
  (R.hooks AFFIXES.onVIEW).onLOADED.plain PARAMS &&
  match st.onPREVIOUS with
  | some (prev, prevPARAMS) => (R.hooks prev.onVIEW).onLEAVE.plain prevPARAMS
  | none => true

/-! ## The builders (`AZElement`, `AZFragment`) and `dispatch` -/

/-- The code points that `String.prototype.trim` strips: the white space and the line
terminators of the language. -/
def isWhiteSpace (c : Char) : Bool :=
  [0x9, 0xA, 0xB, 0xC, 0xD, 0x20, 0xA0, 0x1680, 0x2000, 0x2001, 0x2002, 0x2003, 0x2004,
    0x2005, 0x2006, 0x2007, 0x2008, 0x2009, 0x200A, 0x2028, 0x2029, 0x202F, 0x205F,
    0x3000, 0xFEFF].contains c.toNat

/-- The method `trim()`, on the characters of a string. -/
def trim (s : List Char) : List Char :=
  ((s.dropWhile isWhiteSpace).reverse.dropWhile isWhiteSpace).reverse

/-- The value passed as `tag`, or read from the field `tag` of a child: a string, or a
value of another type, of which the code reads only whether it is truthy (`undefined`,
when the field is absent, is not). -/
inductive TagValue where
  | str (s : String)
  | other (truthy : Bool)

/-- The test `child.tag` as a condition. -/
def TagValue.truthy : TagValue → Bool
  | .str s => !s.toList.isEmpty
  | .other b => b

mutual
/-- An element of `children`. The type `α` is that of the values passed as
`attributes`, which only the platform reads. An `object` is a non-null value with
`typeof child === 'object'` that is no `Node`, with its fields `tag`, `attributes`,
`textContent` (the empty string when absent), `children` and `isSVG` (as a condition);
`other` is a value of any other type (`undefined`, a number, a boolean, a function). -/
inductive Child (α : Type) where
  | str (s : String)
  | node (n : Node)
  | null
  | object (tag : TagValue) (attributes : α) (textContent : String)
      (children : Children α) (isSVG : Bool)
  | other
/-- The value passed as `children`: `undefined` (the parameter takes its default `[]`),
a sequence with a `forEach` method, or another value (`null`, a string, a number), on
which the call `children.forEach` throws. -/
inductive Children (α : Type) where
  | undefined
  | array (items : List (Child α))
  | other
end

/-- What a builder appends: a new text node, a node that existed before the call, or
the element that a nested `AZElement` call returned. -/
inductive Built (α : Type) where
  | text (data : String)
  | node (n : Node)
  | element (tag : String) (isSVG : Bool) (attributes : α) (textContent : String)
      (kids : List (Built α))

/-- The platform calls of `AZElement` that may throw: `createElement` or
`createElementNS` on a tag (the flag says which of the two), and the statements that
apply `attributes` and `textContent` to the new element. Each gives the error thrown, or
`none` when the call returns. Appending a text node, an element or a comment to a newly
created element or fragment does not throw. -/
structure Host (α : Type) where
  createElement : Bool → String → Option Err
  setAttributes : α → String → Option Err

/-- The message of `AZElement` for a tag that fails its first test. -/
def invalidTagName : Err := "INVALID OR EMPTY TAG NAME PROVIDED."

/-- The message of `AZElement` for a child that fails its three tests. -/
def invalidChildElement : Err := "INVALID CHILD ELEMENT PROVIDED."

/-- The message of `AZFragment` for a child that fails its three tests. -/
def invalidChild : Err := "INVALID CHILD PROVIDED."

/-- The error of a member access on `null` and of a call of a value that is no
function. -/
def typeError : Err := "TypeError"

mutual
/-- The function `AZElement(tag, attributes, textContent, children, isSVG)`: the element
it returns, or the error it throws. -/
def AZElement {α : Type} (host : Host α) :
    TagValue → α → String → Children α → Bool → Except Err (Built α)
  | .other _, _, _, _, _ => .error invalidTagName
  | .str tag, attributes, textContent, children, isSVG =>
    if (trim tag.toList).isEmpty then .error invalidTagName
    else
      match host.createElement isSVG tag with
      | some e => .error e
      | none =>
        match host.setAttributes attributes textContent with
        | some e => .error e
        | none =>
          match children with
          | .undefined => .ok (.element tag isSVG attributes textContent [])
          | .other => .error typeError
          | .array items =>
            match forEachChild host items with
            | .error e => .error e
            | .ok kids => .ok (.element tag isSVG attributes textContent kids)
/-- The call `children.forEach(child => ...)` of `AZElement`: the nodes appended, in
order, or the error of the first child on which the callback throws. -/
def forEachChild {α : Type} (host : Host α) : List (Child α) → Except Err (List (Built α))
  | [] => .ok []
  | child :: rest =>
    match appendChildOf host child with
    | .error e => .error e
    | .ok kid =>
      match forEachChild host rest with
      | .error e => .error e
      | .ok kids => .ok (kid :: kids)
/-- The callback of `AZElement` on one child. -/
def appendChildOf {α : Type} (host : Host α) : Child α → Except Err (Built α)
  | .str s => .ok (.text s)
  | .node n => .ok (.node n)
  | .null => .error typeError
  | .object tag attributes textContent children isSVG =>
    if tag.truthy then AZElement host tag attributes textContent children isSVG
    else .error invalidChildElement
  | .other => .error invalidChildElement
end

/-- The callback of `AZFragment` on one child. -/
def fragmentChildOf {α : Type} (host : Host α) : Child α → Except Err (Built α)
  | .node n => .ok (.node n)
  | .str s => .ok (.text s)
  | .null => .error typeError
  | .object tag attributes textContent children isSVG =>
    if tag.truthy then AZElement host tag attributes textContent children isSVG
    else .error invalidChild
  | .other => .error invalidChild

/-- The call `children.forEach(child => ...)` of `AZFragment`. -/
def forEachFragmentChild {α : Type} (host : Host α) :
    List (Child α) → Except Err (List (Built α))
  | [] => .ok []
  | child :: rest =>
    match fragmentChildOf host child with
    | .error e => .error e
    | .ok kid =>
      match forEachFragmentChild host rest with
      | .error e => .error e
      | .ok kids => .ok (kid :: kids)

/-- The function `AZFragment(children)`: the children of the fragment it returns, or the
error it throws. -/
def AZFragment {α : Type} (host : Host α) : Children α → Except Err (List (Built α))
  | .undefined => .ok []
  | .other => .error typeError
  | .array items => forEachFragmentChild host items

/-- A host on which every platform call returns. -/
def calmHost : Host Unit :=
  { createElement := fun _ _ => none, setAttributes := fun _ _ => none }

/-! ### The conditions of the specification on the builders -/

/-- The condition "the tag is not a string or is empty or whitespace-only". -/
def TagValue.invalid : TagValue → Bool
  | .str s => s.toList.all isWhiteSpace
  | .other _ => true

/-- The condition "the child is a string, a node, or a description object with a tag",
read on the child alone. -/
def Child.described {α : Type} : Child α → Bool
  | .str _ => true
  | .node _ => true
  | .object tag _ _ _ _ => tag.truthy
  | _ => false

/-- The tag is a string that is not empty or whitespace-only, and the platform calls on
it and on the attributes return. -/
def accepts {α : Type} (host : Host α) (tag : TagValue) (attributes : α)
    (textContent : String) (isSVG : Bool) : Bool :=
  match tag with
  | .other _ => false
  | .str s =>
    !tag.invalid && (host.createElement isSVG s).isNone
      && (host.setAttributes attributes textContent).isNone

mutual
/-- The value of `children` is absent, or a sequence of constructible children. -/
def Children.constructible {α : Type} (host : Host α) : Children α → Bool
  | .undefined => true
  | .other => false
  | .array items => allConstructible host items
/-- Every child of the list is constructible. -/
def allConstructible {α : Type} (host : Host α) : List (Child α) → Bool
  | [] => true
  | child :: rest => Child.constructible host child && allConstructible host rest
/-- A constructible child: a string, a node, or a description object whose own
construction returns. -/
def Child.constructible {α : Type} (host : Host α) : Child α → Bool
  | .str _ => true
  | .node _ => true
  | .object tag attributes textContent children isSVG =>
    accepts host tag attributes textContent isSVG && Children.constructible host children
  | _ => false
end

/-- The condition under which a call `AZElement(tag, attributes, textContent, children,
isSVG)` returns: the tag is accepted, and `children` is constructible. -/
def elementConstructible {α : Type} (host : Host α) (tag : TagValue) (attributes : α)
    (textContent : String) (children : Children α) (isSVG : Bool) : Bool :=
  accepts host tag attributes textContent isSVG && Children.constructible host children

/-! ### The state container's `dispatch` -/

/-- A function called by `dispatch` with the store and the arguments that follow the
target: how the call ends. What the function does to the state happens inside that
call. -/
abbrev Action := List Affix → Completion

/-- What the expression `actions[name]` finds, when it is truthy: a function, or a value
that is no function. -/
inductive Member where
  | function (run : Action)
  | object

/-- The object `actions`: the properties that `register` has written, and what a name
that is not among them finds on the prototype of the object literal. -/
structure Actions where
  own : List (String × Action)
  inherited : String → Option Member

/-- The expression `actions[name]`, `none` when it is `undefined`. -/
def Actions.get (actions : Actions) (name : String) : Option Member :=
  match actions.own.lookup name with
  | some run => some (.function run)
  | none => actions.inherited name

/-- The first argument of `dispatch`: a function, a string, or a value of another type
with the outcome of its conversion to a string. -/
inductive Target where
  | function (run : Action)
  | name (s : String)
  | other (text : Except Err String)

mutual
/-- The expression `await value`: a promise is waited for, another value is passed on. -/
def awaitValue : Affix → Completion
  | .promise settled => awaitCompletion settled
  | .undefined => .normal .undefined
  | .null => .normal .null
  | .bool b => .normal (.bool b)
  | .num n => .normal (.num n)
  | .str s => .normal (.str s)
  | .element id => .normal (.element id)
  | .callable call => .normal (.callable call)
  | .array items => .normal (.array items)
  | .object props => .normal (.object props)
/-- The expression `await f(...)` on the completion of the call. -/
def awaitCompletion : Completion → Completion
  | .abrupt e => .abrupt e
  | .normal value => awaitValue value
end

/-- The error of `dispatch` for a target it does not accept. -/
def dispatchError (text : String) : Err :=
  "DISPATCH ERROR: Invalid action \"" ++ text ++ "\"."

/-- The body of `dispatch`: the completion of its statements. -/
def dispatchBody (actions : Actions) (target : Target) (args : List Affix) : Completion :=
  match target with
  | .function run => awaitCompletion (run args)
  | .name s =>
    match actions.get s with
    | some (.function run) => awaitCompletion (run args)
    | some .object => .abrupt typeError
    | none => .abrupt (dispatchError s)
  | .other (.ok text) => .abrupt (dispatchError text)
  | .other (.error e) => .abrupt e

/-- The call `dispatch(actionNameOrFunction, ...args)`. The function is declared
`async`: the call returns a promise, which is settled with the completion of the
body. -/
def dispatch (actions : Actions) (target : Target) (args : List Affix) : Completion :=
  .normal (.promise (dispatchBody actions target args))

/-- The condition "the target is neither a function nor the name of a registered
action". -/
def Target.unregistered (actions : Actions) : Target → Bool
  | .function _ => false
  | .name s => (actions.own.lookup s).isNone
  | .other _ => true

/-- A call that raises: it ends with an error instead of returning a value. -/
def Completion.raises : Completion → Bool
  | .abrupt _ => true
  | .normal _ => false

/-- The members that the prototype of an object literal answers: eleven functions, of
which `call` gives the behaviour, and the accessor `__proto__`, whose value is an
object that is no function. -/
def objectPrototype (call : String → Action) (name : String) : Option Member :=
  if ["constructor", "__defineGetter__", "__defineSetter__", "hasOwnProperty",
      "__lookupGetter__", "__lookupSetter__", "isPrototypeOf", "propertyIsEnumerable",
      "toString", "valueOf", "toLocaleString"].contains name then
    some (.function (call name))
  else if name = "__proto__" then some .object
  else none

/-- The object `actions` of a store on which `register` was not called. -/
def noActions (call : String → Action) : Actions :=
  { own := [], inherited := objectPrototype call }

/-! ## Route matcher: lemmas -/

theorem everyFrom_iff {α : Type} (f : α → Nat → Bool) (xs : List α) (k : Nat) :
    everyFrom f k xs = true ↔ ∀ i x, xs[i]? = some x → f x (k + i) = true := by
  induction xs generalizing k with
  | nil => simp [everyFrom]
  | cons y ys ih =>
    simp only [everyFrom, Bool.and_eq_true, ih]
    constructor
    · rintro ⟨h0, hs⟩ i x hx
      cases i with
      | zero =>
        simp at hx
        subst hx
        simpa using h0
      | succ j =>
        simp at hx
        have := hs j x hx
        rwa [show k + (j + 1) = k + 1 + j by omega]
    · intro h
      refine ⟨by simpa using h 0 y (by simp), fun i x hx => ?_⟩
      have := h (i + 1) x (by simpa using hx)
      rwa [show k + (i + 1) = k + 1 + i by omega] at this

theorem Obj.get_define (o : Obj) (key val key1 : Str) :
    (o.define key val).get key1 = if key = key1 then some val else o.get key1 := by
  induction o with
  | nil => simp [Obj.define, Obj.get]
  | cons kv rest ih =>
    obtain ⟨k, v⟩ := kv
    by_cases hk : k = key
    · subst hk
      by_cases h1 : k = key1 <;> simp [Obj.define, Obj.get, h1]
    · by_cases h1 : k = key1
      · subst h1
        simp [Obj.define, Obj.get, hk, Ne.symm hk]
      · simp [Obj.define, Obj.get, hk, h1, ih]

theorem Obj.get_assign (o : Obj) (key val key1 : Str) :
    (o.assign key val).get key1 =
      if key = "__proto__".toList then o.get key1
      else if key = key1 then some val else o.get key1 := by
  unfold Obj.assign
  split
  · rfl
  · exact Obj.get_define o key val key1

/-- The `reduce` of `onPARAMS` returns when every pattern segment has a URL segment
at its index. -/
theorem reduceFrom_paramStep_total (u : Str) (xs : List Str) (k : Nat) (acc : Obj)
    (h : k + xs.length ≤ (split '/' u).length) :
    ∃ r, reduceFrom (paramStep u) k xs acc = some r := by
  induction xs generalizing k acc with
  | nil => exact ⟨acc, rfl⟩
  | cons seg rest ih =>
    simp only [List.length_cons] at h
    have hk : k < (split '/' u).length := by omega
    have hget : (split '/' u)[k]? = some ((split '/' u)[k]) := List.getElem?_eq_getElem hk
    by_cases hs : startsWith seg ':' = true
    · simp only [reduceFrom, paramStep, hs, if_true, hget]
      exact ih (k + 1) _ (by omega)
    · simp only [reduceFrom, paramStep, hs]
      exact ih (k + 1) _ (by omega)

/-- A key that no pattern segment names keeps the binding it had before the `reduce`. -/
theorem reduceFrom_paramStep_frame (u : Str) (xs : List Str) (k : Nat) (acc r : Obj)
    (key : Str) (h : reduceFrom (paramStep u) k xs acc = some r)
    (hkey : ∀ seg ∈ xs, seg ≠ ':' :: key) : r.get key = acc.get key := by
  induction xs generalizing k acc with
  | nil =>
    simp only [reduceFrom, Option.some.injEq] at h
    rw [h]
  | cons seg rest ih =>
    have hrest : ∀ s ∈ rest, s ≠ ':' :: key := fun s hs => hkey s (List.mem_cons_of_mem _ hs)
    have hseg : seg ≠ ':' :: key := hkey seg (List.mem_cons_self _ _)
    by_cases hs : startsWith seg ':' = true
    · simp only [reduceFrom, paramStep, hs, if_true] at h
      cases hu : (split '/' u)[k]? with
      | none => simp [hu] at h
      | some useg =>
        simp only [hu] at h
        rw [ih (k + 1) _ h hrest, Obj.get_assign]
        split
        · rfl
        · have hne : slice1 seg ≠ key := by
            intro hEq
            apply hseg
            cases seg with
            | nil => simp [startsWith] at hs
            | cons c cs =>
              simp [startsWith] at hs
              simp [slice1] at hEq
              rw [hs, hEq]
          simp [hne]
    · simp only [reduceFrom, paramStep, hs] at h
      exact ih (k + 1) _ h hrest

/-- The last pattern segment `:name` decides the binding of `name`. -/
theorem reduceFrom_paramStep_binds (u : Str) (xs : List Str) (k : Nat) (acc r : Obj)
    (h : reduceFrom (paramStep u) k xs acc = some r) (i : Nat) (name : Str)
    (hi : xs[i]? = some (':' :: name)) (hproto : name ≠ "__proto__".toList)
    (hlast : ∀ j, i < j → xs[j]? ≠ some (':' :: name)) :
    ∃ useg, (split '/' u)[k + i]? = some useg ∧ r.get name = some (beforeQuery useg) := by
  induction xs generalizing k acc i with
  | nil => simp at hi
  | cons seg rest ih =>
    cases i with
    | zero =>
      simp only [List.getElem?_cons_zero, Option.some.injEq] at hi
      subst hi
      simp only [reduceFrom, paramStep, startsWith, List.head?_cons, beq_self_eq_true,
        if_true] at h
      cases hu : (split '/' u)[k]? with
      | none => simp [hu] at h
      | some useg =>
        simp only [hu] at h
        refine ⟨useg, by simpa using hu, ?_⟩
        have hrest : ∀ s ∈ rest, s ≠ ':' :: name := by
          intro s hs hEq
          obtain ⟨j, hj, hjs⟩ := List.getElem_of_mem hs
          apply hlast (j + 1) (by omega)
          simp [List.getElem?_eq_getElem hj, hjs, hEq]
        rw [reduceFrom_paramStep_frame u rest (k + 1) _ r name h hrest, Obj.get_assign]
        have hs : slice1 (':' :: name) = name := rfl
        rw [hs, if_neg hproto, if_pos rfl]
    | succ j =>
      simp only [List.getElem?_cons_succ] at hi
      have hlast1 : ∀ j1, j < j1 → rest[j1]? ≠ some (':' :: name) := by
        intro j1 hj1
        have := hlast (j1 + 1) (by omega)
        simpa using this
      have step : ∃ acc1, reduceFrom (paramStep u) (k + 1) rest acc1 = some r := by
        simp only [reduceFrom] at h
        cases hp : paramStep u acc seg k with
        | none => simp [hp] at h
        | some acc1 =>
          simp only [hp] at h
          exact ⟨acc1, h⟩
      obtain ⟨acc1, h1⟩ := step
      obtain ⟨useg, hu, hr⟩ := ih (k + 1) acc1 h1 j hi hlast1
      exact ⟨useg, by rwa [show k + (j + 1) = k + 1 + j by omega], hr⟩

theorem routeTest_length (p u : Str) (h : routeTest p u = true) :
    (split '/' p).length = (split '/' u).length := by
  unfold routeTest at h
  simp only [Bool.and_eq_true, beq_iff_eq] at h
  exact h.1

/-- Lookup after a spread: the last entry of the source under a key decides. -/
theorem get_foldl_define_last (src pre post : Obj) (base : Obj) (k v : Str)
    (hsrc : src = pre ++ (k, v) :: post) (hpost : ∀ kv ∈ post, kv.1 ≠ k) :
    (src.foldl (fun o kv => o.define kv.1 kv.2) base).get k = some v := by
  subst hsrc
  rw [List.foldl_append, List.foldl_cons]
  generalize (List.foldl (fun o kv => Obj.define o kv.1 kv.2) base pre) = o1
  have key : ∀ (post : Obj) (o : Obj), (∀ kv ∈ post, kv.1 ≠ k) → o.get k = some v →
      (post.foldl (fun o kv => o.define kv.1 kv.2) o).get k = some v := by
    intro post
    induction post with
    | nil => intro o _ ho; exact ho
    | cons kv rest ih =>
      intro o hp ho
      rw [List.foldl_cons]
      apply ih
      · exact fun x hx => hp x (List.mem_cons_of_mem _ hx)
      · rw [Obj.get_define]
        simp [hp kv (List.mem_cons_self _ _), ho]
  exact key post _ hpost (by rw [Obj.get_define]; simp)

/-- Lookup after a spread: a key absent from the source keeps the base binding. -/
theorem get_foldl_define_absent (src : Obj) (base : Obj) (k : Str)
    (hsrc : ∀ kv ∈ src, kv.1 ≠ k) :
    (src.foldl (fun o kv => o.define kv.1 kv.2) base).get k = base.get k := by
  induction src generalizing base with
  | nil => rfl
  | cons kv rest ih =>
    rw [List.foldl_cons, ih _ (fun x hx => hsrc x (List.mem_cons_of_mem _ hx)), Obj.get_define]
    simp [hsrc kv (List.mem_cons_self _ _)]

theorem Obj.keys_define (o : Obj) (key val : Str) :
    (o.define key val).map Prod.fst =
      if key ∈ o.map Prod.fst then o.map Prod.fst else o.map Prod.fst ++ [key] := by
  induction o with
  | nil => simp [Obj.define]
  | cons kv rest ih =>
    obtain ⟨k, v⟩ := kv
    by_cases hk : k = key
    · subst hk
      simp [Obj.define]
    · have hk1 : ¬ key = k := fun h => hk h.symm
      simp only [Obj.define, hk, if_false, List.map_cons, ih, List.mem_cons, hk1, false_or]
      split <;> simp

theorem Obj.nodup_define (o : Obj) (key val : Str) (h : (o.map Prod.fst).Nodup) :
    ((o.define key val).map Prod.fst).Nodup := by
  rw [Obj.keys_define]
  split
  · exact h
  · rename_i hk
    rw [List.nodup_append]
    refine ⟨h, List.nodup_singleton _, ?_⟩
    intro a ha hb
    simp only [List.mem_singleton] at hb
    subst hb
    exact hk ha

theorem nodup_foldl_define (src : List (Str × Str)) (base : Obj)
    (h : (base.map Prod.fst).Nodup) :
    ((src.foldl (fun o kv => o.define kv.1 kv.2) base).map Prod.fst).Nodup := by
  induction src generalizing base with
  | nil => exact h
  | cons kv rest ih =>
    rw [List.foldl_cons]
    exact ih _ (Obj.nodup_define base kv.1 kv.2 h)

theorem Obj.get_eq_none_of_not_mem (o : Obj) (k : Str) (h : k ∉ o.map Prod.fst) :
    o.get k = none := by
  induction o with
  | nil => rfl
  | cons kv rest ih =>
    obtain ⟨a, b⟩ := kv
    simp only [List.map_cons, List.mem_cons, not_or] at h
    simp [Obj.get, Ne.symm h.1, ih h.2]

theorem Obj.get_isSome_of_mem (o : Obj) (k : Str) (h : k ∈ o.map Prod.fst) :
    (o.get k).isSome = true := by
  induction o with
  | nil => simp at h
  | cons kv rest ih =>
    obtain ⟨a, b⟩ := kv
    by_cases hak : a = k
    · simp [Obj.get, hak]
    · simp only [List.map_cons, List.mem_cons] at h
      rcases h with h | h
      · exact absurd h.symm hak
      · simp [Obj.get, hak, ih h]

/-- Lookup after a spread of an object: a key the source binds takes the source's value. -/
theorem get_spread_of_get (base src : Obj) (k v : Str) (hnd : (src.map Prod.fst).Nodup)
    (hget : src.get k = some v) : (spread base src).get k = some v := by
  unfold spread
  induction src generalizing base with
  | nil => simp [Obj.get] at hget
  | cons kv rest ih =>
    obtain ⟨a, b⟩ := kv
    simp only [List.map_cons, List.nodup_cons] at hnd
    rw [List.foldl_cons]
    by_cases hak : a = k
    · subst hak
      simp only [Obj.get, if_true, Option.some.injEq] at hget
      subst hget
      rw [get_foldl_define_absent]
      · rw [Obj.get_define]
        simp
      · intro x hx hxa
        exact hnd.1 (by rw [← hxa]; exact List.mem_map_of_mem _ hx)
    · simp only [Obj.get, hak, if_false] at hget
      exact ih _ hnd.2 hget

/-! ## Route matcher: the specification's properties -/

/-- C1: the per-route test of `onMATCH` accepts a pattern for a URL exactly when both
have the same number of `/`-separated segments and every pattern segment that does not
start with `:` is the URL segment at the same index; segments starting with `:` put no
condition on the URL, and a pattern with a different segment count is never accepted. -/
theorem routeTest_iff_literal_segments (p u : Str) :
    routeTest p u = true ↔
      (split '/' p).length = (split '/' u).length ∧
      ∀ (i : Nat) (seg : Str), (split '/' p)[i]? = some seg → startsWith seg ':' = false →
        (split '/' u)[i]? = some seg := by
  unfold routeTest every
  rw [Bool.and_eq_true, everyFrom_iff, beq_iff_eq]
  constructor
  · rintro ⟨hlen, hall⟩
    refine ⟨hlen, fun i seg hseg hlit => ?_⟩
    have := hall i seg hseg
    simpa [hlit] using this
  · rintro ⟨hlen, hall⟩
    refine ⟨hlen, fun i seg hseg => ?_⟩
    cases hlit : startsWith seg ':' with
    | true => simp
    | false => simpa using hall i seg hseg hlit

/-- C2: `onMATCH` returns the first definition, in table order, whose pattern passes the
per-route test, and `undefined` when none passes; for the table
`['/users/:id', '/users/new']` the URL `/users/new` selects the first entry although the
second passes too, and `onPARAMS` then binds `id` to `new`. -/
theorem onMATCH_first_in_table_order :
    (∀ (routes : List Route) (u : Str) (r : Route),
      onMATCH routes u = some r ↔
        routeTest r.pattern u = true ∧
        ∃ before after, routes = before ++ r :: after ∧
          ∀ a ∈ before, routeTest a.pattern u = false) ∧
    (∀ (routes : List Route) (u : Str),
      onMATCH routes u = none ↔ ∀ r ∈ routes, routeTest r.pattern u = false) ∧
    onMATCH [⟨"/users/:id".toList, 0⟩, ⟨"/users/new".toList, 1⟩] "/users/new".toList
      = some ⟨"/users/:id".toList, 0⟩ ∧
    routeTest "/users/new".toList "/users/new".toList = true ∧
    ∀ dec : Str → Str, onPARAMS dec "/users/:id".toList "/users/new".toList
      = some [("on".toList, "/users/new".toList), ("id".toList, "new".toList)] := by
  refine ⟨fun routes u r => ?_, fun routes u => ?_, by decide, by decide, fun dec => rfl⟩
  · unfold onMATCH
    rw [List.find?_eq_some]
    simp
  · unfold onMATCH
    rw [List.find?_eq_none]
    simp

/-- C3 as stated fails: the pattern `/:a/:a` matches `/x/y`, its segment 1 is `:a` and
the URL segment 1 is `x`, yet `a` is bound to `y`; and the pattern `/:__proto__` matches
`/x` without any binding for `__proto__`. -/
theorem onPARAMS_not_every_param_segment :
    (routeTest "/:a/:a".toList "/x/y".toList = true ∧
      (split '/' "/:a/:a".toList)[1]? = some ":a".toList ∧
      (split '/' "/x/y".toList)[1]? = some "x".toList ∧
      ∀ dec : Str → Str, (onPARAMS dec "/:a/:a".toList "/x/y".toList).bind
        (fun r => r.get "a".toList) = some "y".toList) ∧
    (routeTest "/:__proto__".toList "/x".toList = true ∧
      ∀ dec : Str → Str, (onPARAMS dec "/:__proto__".toList "/x".toList).bind
        (fun r => r.get "__proto__".toList) = none) := by
  refine ⟨⟨by decide, by decide, by decide, fun dec => rfl⟩, by decide, fun dec => rfl⟩

/-- C3, amended: for a pattern that matches the URL, `onPARAMS` returns a mapping in
which every name other than `__proto__` is bound, for the last pattern segment `:name`
carrying it, to the URL segment at that index with its `?` suffix removed. -/
theorem onPARAMS_binds_last_param_segment (dec : Str → Str) (p u : Str)
    (hmatch : routeTest p u = true) :
    ∃ r, onPARAMS dec p u = some r ∧
      ∀ (i : Nat) (name : Str), (split '/' p)[i]? = some (':' :: name) → name ≠ "__proto__".toList →
        (∀ j : Nat, i < j → (split '/' p)[j]? ≠ some (':' :: name)) →
        ∃ useg, (split '/' u)[i]? = some useg ∧ r.get name = some (beforeQuery useg) := by
  have hlen := routeTest_length p u hmatch
  obtain ⟨r, hr⟩ := reduceFrom_paramStep_total u (split '/' p) 0
    (spread [("on".toList, beforeQuery u)] (fromEntries (URLSearchParams dec (queryOf u))))
    (by omega)
  refine ⟨r, hr, fun i name hi hproto hlast => ?_⟩
  have := reduceFrom_paramStep_binds u (split '/' p) 0 _ r hr i name hi hproto hlast
  simpa using this

/-- Witness for the amended C3: the pattern `/users/:id` on `/users/42?tab=1`. -/
theorem onPARAMS_binds_last_param_segment_witness :
    routeTest "/users/:id".toList "/users/42?tab=1".toList = true ∧
    ∃ r, onPARAMS id "/users/:id".toList "/users/42?tab=1".toList = some r ∧
      ∀ (i : Nat) (name : Str), (split '/' "/users/:id".toList)[i]? = some (':' :: name) →
        name ≠ "__proto__".toList →
        (∀ j : Nat, i < j → (split '/' "/users/:id".toList)[j]? ≠ some (':' :: name)) →
        ∃ useg, (split '/' "/users/42?tab=1".toList)[i]? = some useg ∧
          r.get name = some (beforeQuery useg) :=
  ⟨by decide, onPARAMS_binds_last_param_segment id _ _ (by decide)⟩

/-- C4 as stated fails: with the pattern `/:on` the key `on` is bound to the segment `x`
and not to the URL `/x`; with the pattern `/:id` the query parameter `id=9` of `/7?id=9`
is replaced by the path segment `7`; with a query parameter named `on` the key `on`
carries that parameter; and a pattern longer than the URL makes the call throw. The
query texts here hold no `+` and no `%`, so decoding leaves them as they are. -/
theorem onPARAMS_on_and_query_shadowed :
    (∀ dec : Str → Str, (onPARAMS dec "/:on".toList "/x".toList).bind
      (fun r => r.get "on".toList) = some "x".toList) ∧
    (URLSearchParams id (queryOf "/7?id=9".toList) = [("id".toList, "9".toList)] ∧
      (onPARAMS id "/:id".toList "/7?id=9".toList).bind
        (fun r => r.get "id".toList) = some "7".toList) ∧
    ((onPARAMS id "/a".toList "/a?on=b".toList).bind
        (fun r => r.get "on".toList) = some "b".toList ∧
      beforeQuery "/a?on=b".toList = "/a".toList) ∧
    (∀ dec : Str → Str, onPARAMS dec "/a/:b".toList "/a".toList = none) := by
  refine ⟨fun dec => rfl, ⟨by decide, by decide⟩, ⟨by decide, by decide⟩, fun dec => rfl⟩

/-- C4, amended: when the pattern has no more segments than the URL (as when it
matches), `onPARAMS` returns a mapping in which `on` is bound to the URL before its
first `?` unless a query parameter or a pattern segment is named `on`, and every
query-parameter name is bound to the decoded value of its last occurrence in the query
unless a pattern segment `:name` carries that name. -/
theorem onPARAMS_on_and_query (dec : Str → Str) (p u : Str)
    (hlen : (split '/' p).length ≤ (split '/' u).length) :
    ∃ r, onPARAMS dec p u = some r ∧
      ((∀ seg ∈ split '/' p, seg ≠ ':' :: "on".toList) →
        (∀ kv ∈ URLSearchParams dec (queryOf u), kv.1 ≠ "on".toList) →
        r.get "on".toList = some (beforeQuery u)) ∧
      ∀ k v pre post, URLSearchParams dec (queryOf u) = pre ++ (k, v) :: post →
        (∀ kv ∈ post, kv.1 ≠ k) → (∀ seg ∈ split '/' p, seg ≠ ':' :: k) →
        r.get k = some v := by
  obtain ⟨r, hr⟩ := reduceFrom_paramStep_total u (split '/' p) 0
    (spread [("on".toList, beforeQuery u)] (fromEntries (URLSearchParams dec (queryOf u))))
    (by omega)
  refine ⟨r, hr, fun hseg hq => ?_, fun k v pre post hsplit hpost hseg => ?_⟩
  · rw [reduceFrom_paramStep_frame u _ 0 _ r _ hr hseg]
    have hnone : (fromEntries (URLSearchParams dec (queryOf u))).get "on".toList = none := by
      unfold fromEntries
      rw [get_foldl_define_absent _ _ _ hq]
      rfl
    unfold spread
    rw [get_foldl_define_absent]
    · simp [Obj.get]
    · intro kv hkv hk
      have hmem : kv.1 ∈ (fromEntries (URLSearchParams dec (queryOf u))).map Prod.fst :=
        List.mem_map_of_mem _ hkv
      have hnd : ((fromEntries (URLSearchParams dec (queryOf u))).map Prod.fst).Nodup :=
        nodup_foldl_define _ [] (by simp)
      rw [hk] at hmem
      have := Obj.get_isSome_of_mem _ _ hmem
      rw [hnone] at this
      simp at this
  · rw [reduceFrom_paramStep_frame u _ 0 _ r _ hr hseg]
    apply get_spread_of_get
    · exact nodup_foldl_define _ [] (by simp)
    · exact get_foldl_define_last _ pre post [] k v hsplit hpost

/-- Witness for the amended C4: the pattern `/users/:id` on `/users/42?tab=1&tab=2`. -/
theorem onPARAMS_on_and_query_witness :
    (split '/' "/users/:id".toList).length ≤ (split '/' "/users/42?tab=1&tab=2".toList).length ∧
    ∃ r, onPARAMS id "/users/:id".toList "/users/42?tab=1&tab=2".toList = some r ∧
      ((∀ seg ∈ split '/' "/users/:id".toList, seg ≠ ':' :: "on".toList) →
        (∀ kv ∈ URLSearchParams id (queryOf "/users/42?tab=1&tab=2".toList),
          kv.1 ≠ "on".toList) →
        r.get "on".toList = some (beforeQuery "/users/42?tab=1&tab=2".toList)) ∧
      ∀ k v pre post,
        URLSearchParams id (queryOf "/users/42?tab=1&tab=2".toList) = pre ++ (k, v) :: post →
        (∀ kv ∈ post, kv.1 ≠ k) → (∀ seg ∈ split '/' "/users/:id".toList, seg ≠ ':' :: k) →
        r.get k = some v :=
  ⟨by decide, onPARAMS_on_and_query id _ _ (by decide)⟩

/-! ## The document tree: lemmas -/

/-- Induction over a tree, with the property available for every child of an element. -/
theorem Node.induct {P : Node → Prop} (htext : ∀ i d, P (.text i d))
    (hcomment : ∀ i d, P (.comment i d))
    (helement : ∀ i tag attrs props kids, (∀ k ∈ kids, P k) → P (.element i tag attrs props kids)) :
    ∀ n, P n := by
  intro n
  refine Node.rec (motive_1 := P) (motive_2 := fun ks => ∀ k ∈ ks, P k)
    htext hcomment (fun i tag attrs props kids ih => helement i tag attrs props kids ih)
    (by simp) (fun k ks hk hks x hx => ?_) n
  rcases List.mem_cons.1 hx with h | h
  · exact h ▸ hk
  · exact hks x h

theorem getAttribute_setAttribute (attrs : List (String × String)) (name value name1 : String) :
    getAttribute (setAttribute attrs name value) name1 =
      if name = name1 then some value else getAttribute attrs name1 := by
  induction attrs with
  | nil => simp [setAttribute, getAttribute]
  | cons kv rest ih =>
    obtain ⟨k, v⟩ := kv
    by_cases hk : k = name
    · subst hk
      by_cases h1 : k = name1 <;> simp [setAttribute, getAttribute, h1]
    · by_cases h1 : k = name1
      · subst h1
        simp [setAttribute, getAttribute, hk, Ne.symm hk]
      · simp [setAttribute, getAttribute, hk, h1, ih]

theorem getAttribute_eq_none_iff (attrs : List (String × String)) (name : String) :
    getAttribute attrs name = none ↔ name ∉ attrs.map Prod.fst := by
  induction attrs with
  | nil => simp [getAttribute]
  | cons kv rest ih =>
    obtain ⟨k, v⟩ := kv
    by_cases hk : k = name
    · simp [getAttribute, hk]
    · simp [getAttribute, hk, ih, Ne.symm hk]

theorem hasAttribute_iff (attrs : List (String × String)) (name : String) :
    hasAttribute attrs name = true ↔ name ∈ attrs.map Prod.fst := by
  unfold hasAttribute
  rw [← not_iff_not, Bool.not_eq_true, Option.not_isSome, Option.isNone_iff_eq_none,
    getAttribute_eq_none_iff]

/-- With pairwise different names, every entry of the list is what a lookup finds. -/
theorem getAttribute_of_mem (attrs : List (String × String)) (name value : String)
    (hnd : (attrs.map Prod.fst).Nodup) (hmem : (name, value) ∈ attrs) :
    getAttribute attrs name = some value := by
  induction attrs with
  | nil => simp at hmem
  | cons kv rest ih =>
    obtain ⟨k, v⟩ := kv
    simp only [List.map_cons, List.nodup_cons] at hnd
    rcases List.mem_cons.1 hmem with h | h
    · cases h
      simp [getAttribute]
    · have hk : k ≠ name := by
        intro hk
        exact hnd.1 (hk ▸ List.mem_map_of_mem Prod.fst h)
      simp [getAttribute, hk, ih hnd.2 h]

/-- After the first attribute loop the old node has every attribute of the new node,
and keeps its own attributes under the other names. -/
theorem getAttribute_setNewAttrs (node : Nat) (newAttrs oldAttrs : List (String × String))
    (hnd : (newAttrs.map Prod.fst).Nodup) (name : String) :
    getAttribute (setNewAttrs node newAttrs oldAttrs).1 name =
      if hasAttribute newAttrs name then getAttribute newAttrs name
      else getAttribute oldAttrs name := by
  induction newAttrs generalizing oldAttrs with
  | nil => simp [setNewAttrs, hasAttribute, getAttribute]
  | cons kv rest ih =>
    obtain ⟨k, v⟩ := kv
    simp only [List.map_cons, List.nodup_cons] at hnd
    have hrest : hasAttribute rest k = false := by
      rw [← Bool.not_eq_true, hasAttribute_iff]
      exact hnd.1
    by_cases hk : k = name
    · subst hk
      have hhas : hasAttribute ((k, v) :: rest) k = true := by simp [hasAttribute, getAttribute]
      have hget : getAttribute ((k, v) :: rest) k = some v := by simp [getAttribute]
      rw [hhas, hget]
      by_cases hset : getAttribute oldAttrs k = some v
      · simp only [setNewAttrs, hset, bne_self_eq_false, Bool.false_eq_true, if_false]
        rw [ih _ hnd.2, hrest]
        simpa using hset
      · have hne : (getAttribute oldAttrs k != some v) = true := by simpa using hset
        simp only [setNewAttrs, hne, if_true]
        rw [ih _ hnd.2, hrest, getAttribute_setAttribute]
        simp
    · have hh : hasAttribute ((k, v) :: rest) name = hasAttribute rest name := by
        simp [hasAttribute, getAttribute, hk]
      have hg : getAttribute ((k, v) :: rest) name = getAttribute rest name := by
        simp [getAttribute, hk]
      rw [hh, hg]
      by_cases hset : getAttribute oldAttrs k = some v
      · simp only [setNewAttrs, hset, bne_self_eq_false, Bool.false_eq_true, if_false]
        exact ih _ hnd.2
      · have hne : (getAttribute oldAttrs k != some v) = true := by simpa using hset
        simp only [setNewAttrs, hne, if_true]
        rw [ih _ hnd.2, getAttribute_setAttribute]
        simp [hk]

theorem removeAttribute_append_of_not_mem (front rest : List (String × String))
    (name value : String) (h : name ∉ front.map Prod.fst) :
    removeAttribute (front ++ (name, value) :: rest) name = front ++ rest := by
  induction front with
  | nil => simp [removeAttribute]
  | cons kv fs ih =>
    obtain ⟨k, v⟩ := kv
    simp only [List.map_cons, List.mem_cons, not_or] at h
    simp [removeAttribute, Ne.symm h.1, ih h.2]

/-- The second attribute loop keeps exactly the attributes whose name the new node has. -/
theorem removeStaleAttrs_eq_filter (node : Nat) (newAttrs front snapshot : List (String × String))
    (hfront : ∀ kv ∈ front, hasAttribute newAttrs kv.1 = true) :
    (removeStaleAttrs node newAttrs snapshot (front ++ snapshot)).1 =
      front ++ snapshot.filter (fun kv => hasAttribute newAttrs kv.1) := by
  induction snapshot generalizing front with
  | nil => simp [removeStaleAttrs]
  | cons kv rest ih =>
    obtain ⟨k, v⟩ := kv
    by_cases hk : hasAttribute newAttrs k = true
    · simp only [removeStaleAttrs, hk, Bool.not_true, Bool.false_eq_true, if_false,
        List.filter_cons, if_true]
      have := ih (front ++ [(k, v)]) (by
        intro x hx
        rcases List.mem_append.1 hx with h | h
        · exact hfront x h
        · simp at h
          rw [h]
          exact hk)
      simpa using this
    · have hnot : k ∉ front.map Prod.fst := by
        intro hmem
        obtain ⟨x, hx, hxk⟩ := List.mem_map.1 hmem
        exact hk (hxk ▸ hfront x hx)
      simp only [removeStaleAttrs, hk, Bool.not_false, if_true, List.filter_cons]
      rw [removeAttribute_append_of_not_mem front rest k v hnot]
      simpa [hk] using ih front hfront

theorem getAttribute_filter (attrs newAttrs : List (String × String)) (name : String) :
    getAttribute (attrs.filter (fun kv => hasAttribute newAttrs kv.1)) name =
      if hasAttribute newAttrs name then getAttribute attrs name else none := by
  induction attrs with
  | nil => simp [getAttribute]
  | cons kv rest ih =>
    obtain ⟨k, v⟩ := kv
    by_cases hk : k = name
    · subst hk
      by_cases hh : hasAttribute newAttrs k = true
      · simp [List.filter_cons, hh, getAttribute]
      · simp [List.filter_cons, hh, ih]
    · by_cases hh : hasAttribute newAttrs k = true
      · simp [List.filter_cons, hh, getAttribute, hk, ih]
      · simp [List.filter_cons, hh, getAttribute, hk, ih]

/-- After both attribute loops the old node binds every name as the new node does. -/
theorem getAttribute_patchAttrs (node : Nat) (oldAttrs newAttrs : List (String × String))
    (hnd : (newAttrs.map Prod.fst).Nodup) (name : String) :
    getAttribute (patchAttrs node oldAttrs newAttrs).1 name = getAttribute newAttrs name := by
  unfold patchAttrs
  have h := removeStaleAttrs_eq_filter node newAttrs [] (setNewAttrs node newAttrs oldAttrs).1
    (by simp)
  simp only [List.nil_append] at h
  simp only [h, getAttribute_filter, getAttribute_setNewAttrs node newAttrs oldAttrs hnd]
  by_cases hh : hasAttribute newAttrs name = true
  · simp [hh]
  · simp only [hh, if_false]
    rw [Bool.not_eq_true] at hh
    unfold hasAttribute at hh
    cases hg : getAttribute newAttrs name with
    | none => rfl
    | some v => simp [hg] at hh

/-- A name that the list does not bind: removing it leaves the list as it is. -/
theorem removeAttribute_of_none (attrs : List (String × String)) (name : String)
    (h : getAttribute attrs name = none) : removeAttribute attrs name = attrs := by
  induction attrs with
  | nil => rfl
  | cons kv rest ih =>
    obtain ⟨k, v⟩ := kv
    by_cases hk : k = name
    · simp [getAttribute, hk] at h
    · simp only [getAttribute, hk, if_false] at h
      simp [removeAttribute, hk, ih h]

/-- A name that the list binds to the value: setting it leaves the list as it is. -/
theorem setAttribute_of_some (attrs : List (String × String)) (name value : String)
    (h : getAttribute attrs name = some value) : setAttribute attrs name value = attrs := by
  induction attrs with
  | nil => simp [getAttribute] at h
  | cons kv rest ih =>
    obtain ⟨k, v⟩ := kv
    by_cases hk : k = name
    · simp only [getAttribute, hk, if_true, Option.some.injEq] at h
      simp [setAttribute, hk, h]
    · simp only [getAttribute, hk, if_false] at h
      simp [setAttribute, hk, ih h]

theorem getAttribute_removeAttribute_of_none (attrs : List (String × String))
    (name name1 : String) (h : getAttribute attrs name = none) :
    getAttribute (removeAttribute attrs name) name1 = getAttribute attrs name1 := by
  rw [removeAttribute_of_none attrs name h]

/-- After the two loops and the property writes, the old element binds every name as
`boundAfter` says. -/
theorem getAttribute_updatedAttrs (rf : String → Bool) (node j : Nat) (tag : String)
    (oldAttrs newAttrs : List (String × String)) (newProps : Props) (newKids : List Node)
    (hnd : (newAttrs.map Prod.fst).Nodup) (name : String) :
    getAttribute (updatedAttrs rf node tag oldAttrs newAttrs) name =
      boundAfter rf (.element j tag newAttrs newProps newKids) name := by
  unfold updatedAttrs reflectDisabled boundAfter
  simp only [Node.nodeName, Node.attributes]
  cases hr : rf tag
  · simp [getAttribute_patchAttrs node oldAttrs newAttrs hnd]
  · cases hh : hasAttribute newAttrs "disabled"
    · have hnone : getAttribute (patchAttrs node oldAttrs newAttrs).1 "disabled" = none := by
        rw [getAttribute_patchAttrs node oldAttrs newAttrs hnd]
        unfold hasAttribute at hh
        cases hg : getAttribute newAttrs "disabled" with
        | none => rfl
        | some v => simp [hg] at hh
      simp [removeAttribute_of_none _ _ hnone, getAttribute_patchAttrs node oldAttrs newAttrs hnd]
    · simp only [if_true, Bool.true_and, Bool.and_true, getAttribute_setAttribute,
        getAttribute_patchAttrs node oldAttrs newAttrs hnd]
      by_cases hn : name = "disabled"
      · subst hn
        simp
      · have hn1 : ("disabled" = name) = False := by
          simp [eq_comm, hn]
        simp [hn, hn1]

/-- Where nothing reflects, or the new node binds `disabled` to the empty string or not
at all, the old element ends with the bindings of the new node. -/
theorem boundAfter_of_disabledEmpty (rf : String → Bool) (j : Nat) (tag : String)
    (newAttrs : List (String × String)) (newProps : Props) (newKids : List Node)
    (h : (!rf tag || getAttribute newAttrs "disabled" == none
      || getAttribute newAttrs "disabled" == some "") = true) (name : String) :
    boundAfter rf (.element j tag newAttrs newProps newKids) name =
      getAttribute newAttrs name := by
  unfold boundAfter
  simp only [Node.nodeName, Node.attributes]
  split
  · rename_i hc
    simp only [Bool.and_eq_true, beq_iff_eq] at hc
    obtain ⟨⟨hr, hn⟩, hh⟩ := hc
    subst hn
    simp only [hr, Bool.not_true, Bool.false_or, Bool.or_eq_true, beq_iff_eq] at h
    rcases h with h | h
    · unfold hasAttribute at hh
      rw [h] at hh
      simp at hh
    · exact h.symm
  · rfl

theorem preserved_nil (m : Node → String → Bool) (node : Node) : preserved m [] node = false := rfl

/-- An element that is not preserved, against an element of the same tag, is updated in
place: attributes patched, properties synchronised, children reconciled. -/
theorem diffNode_element_same_tag (rf : String → Bool) (m : Node → String → Bool) (preserve : List String)
    (parent i j : Nat) (tag : String) (attrs newAttrs : List (String × String))
    (props newProps : Props) (kids newKids : List Node)
    (hpres : preserved m preserve (.element i tag attrs props kids) = false) :
    diffNode rf m preserve parent (.element i tag attrs props kids)
        (some (.element j tag newAttrs newProps newKids)) =
      (.update (.element i tag (updatedAttrs rf i tag attrs newAttrs) (syncProps newAttrs)
          (diffChildren rf m preserve i kids newKids).1),
        (patchAttrs i attrs newAttrs).2 ++ (diffChildren rf m preserve i kids newKids).2) := by
  rw [diffNode]
  simp [hpres, Node.nodeType, Node.nodeName, Node.attributes, Node.childNodes]

/-! ## The reconciler: lemmas -/

theorem preserved_text (m : Node → String → Bool) (preserve : List String) (i : Nat)
    (d : String) : preserved m preserve (.text i d) = false := by
  unfold preserved
  induction preserve with
  | nil => rfl
  | cons s rest ih => simp [List.any_cons]

theorem preserved_comment (m : Node → String → Bool) (preserve : List String) (i : Nat)
    (d : String) : preserved m preserve (.comment i d) = false := by
  unfold preserved
  induction preserve with
  | nil => rfl
  | cons s rest ih => simp [List.any_cons]

theorem Node.self_mem_nodes (n : Node) : n ∈ n.nodes := by
  cases n <;> simp [Node.nodes]

theorem mem_nodesList (ks : List Node) (x : Node) :
    x ∈ Node.nodes.nodesList ks ↔ ∃ k ∈ ks, x ∈ k.nodes := by
  induction ks with
  | nil => simp [Node.nodes.nodesList]
  | cons k rest ih => simp [Node.nodes.nodesList, ih]

theorem Node.mem_nodes_of_child (i : Nat) (tag : String) (attrs : List (String × String))
    (props : Props) (kids : List Node) (k x : Node) (hk : k ∈ kids) (hx : x ∈ k.nodes) :
    x ∈ (Node.element i tag attrs props kids).nodes := by
  simp only [Node.nodes, List.mem_cons]
  exact Or.inr ((mem_nodesList kids x).2 ⟨k, hk, hx⟩)

theorem attrsUniqueList_iff (ks : List Node) :
    Node.attrsUnique.attrsUniqueList ks = true ↔ ∀ k ∈ ks, k.attrsUnique = true := by
  induction ks with
  | nil => simp [Node.attrsUnique.attrsUniqueList]
  | cons k rest ih => simp [Node.attrsUnique.attrsUniqueList, ih]

theorem elementsAndTextList_iff (ks : List Node) :
    Node.elementsAndText.elementsAndTextList ks = true ↔
      ∀ k ∈ ks, k.elementsAndText = true := by
  induction ks with
  | nil => simp [Node.elementsAndText.elementsAndTextList]
  | cons k rest ih => simp [Node.elementsAndText.elementsAndTextList, ih]

theorem disabledEmptyList_iff (rf : String → Bool) (ks : List Node) :
    Node.disabledEmpty.disabledEmptyList rf ks = true ↔
      ∀ k ∈ ks, k.disabledEmpty rf = true := by
  induction ks with
  | nil => simp [Node.disabledEmpty.disabledEmptyList]
  | cons k rest ih => simp [Node.disabledEmpty.disabledEmptyList, ih]

theorem attrsEq_iff (a b : List (String × String)) :
    attrsEq a b = true ↔ ∀ name, getAttribute a name = getAttribute b name := by
  unfold attrsEq
  simp only [Bool.and_eq_true, List.all_eq_true, beq_iff_eq]
  constructor
  · rintro ⟨ha, hb⟩ name
    by_cases h1 : name ∈ a.map Prod.fst
    · obtain ⟨kv, hkv, hk⟩ := List.mem_map.1 h1
      exact hk ▸ (ha kv hkv).symm
    · by_cases h2 : name ∈ b.map Prod.fst
      · obtain ⟨kv, hkv, hk⟩ := List.mem_map.1 h2
        exact hk ▸ hb kv hkv
      · rw [(getAttribute_eq_none_iff a name).2 h1, (getAttribute_eq_none_iff b name).2 h2]
  · intro h
    exact ⟨fun kv _ => (h kv.1).symm, fun kv _ => h kv.1⟩

theorem structEq_refl : ∀ n : Node, structEq n n = true := by
  intro n
  induction n using Node.induct with
  | htext i d => simp [structEq]
  | hcomment i d => simp [structEq]
  | helement i tag attrs props kids ih =>
    have hk : structEq.structEqList kids kids = true := by
      induction kids with
      | nil => rfl
      | cons k rest ihr =>
        simp only [structEq.structEqList, Bool.and_eq_true]
        exact ⟨ih k (List.mem_cons_self _ _),
          ihr (fun x hx => ih x (List.mem_cons_of_mem _ hx))⟩
    simp only [structEq, Bool.and_eq_true, beq_self_eq_true, true_and]
    exact ⟨(attrsEq_iff attrs attrs).2 (fun _ => rfl), hk⟩

theorem structEqList_refl (ks : List Node) : structEq.structEqList ks ks = true := by
  induction ks with
  | nil => rfl
  | cons k rest ih => simp [structEq.structEqList, structEq_refl, ih]

/-- Structurally equal nodes have the same category and name. -/
theorem sameKind_of_structEq (o n : Node) (h : structEq o n = true) :
    (o.nodeType == n.nodeType && o.nodeName == n.nodeName) = true := by
  cases o <;> cases n <;> simp [structEq, Node.nodeType, Node.nodeName] at h ⊢
  exact h.1.1

/-- The shape of the result for a node that is not preserved, against a new node of the
same category and name: an in-place update that keeps the identity, binds every
attribute name as `boundAfter` says, carries the new text on a text node and its own
text on a comment. -/
theorem diffNode_same_kind (rf : String → Bool) (m : Node → String → Bool) (preserve : List String) (parent : Nat)
    (o n : Node) (hpres : preserved m preserve o = false)
    (hkind : (o.nodeType == n.nodeType && o.nodeName == n.nodeName) = true)
    (hattrs : n.attrsUnique = true) :
    ∃ o1, (diffNode rf m preserve parent o (some n)).1 = .update o1 ∧ o1.id = o.id ∧
      o1.nodeType = o.nodeType ∧ o1.nodeName = o.nodeName ∧
      (∀ name, getAttribute o1.attributes name = boundAfter rf n name) ∧
      ((o.nodeType = 3 → o1.data = n.data) ∧ (o.nodeType = 8 → o1.data = o.data)) ∧
      o1.childNodes = (diffChildren rf m preserve o.id o.childNodes n.childNodes).1 := by
  cases o with
  | text i d =>
    cases n with
    | text j d1 =>
      by_cases hd : d = d1
      · refine ⟨.text i d, ?_, rfl, rfl, rfl, fun _ => by
            simp [boundAfter, Node.attributes, hasAttribute, getAttribute],
          ⟨fun _ => by simp [Node.data, hd], fun h => by simp [Node.nodeType] at h⟩, ?_⟩
        · rw [diffNode]
          simp [preserved_text, Node.nodeType, Node.nodeName, Node.data, hd]
        · simp [Node.childNodes, diffChildren]
      · refine ⟨.text i d1, ?_, rfl, rfl, rfl, fun _ => by
            simp [boundAfter, Node.attributes, hasAttribute, getAttribute],
          ⟨fun _ => by simp [Node.data], fun h => by simp [Node.nodeType] at h⟩, ?_⟩
        · rw [diffNode]
          simp [preserved_text, Node.nodeType, Node.nodeName, Node.data, hd]
        · simp [Node.childNodes, diffChildren]
    | comment j d1 => simp [Node.nodeType] at hkind
    | element j tag1 a1 p1 k1 => simp [Node.nodeType] at hkind
  | comment i d =>
    cases n with
    | text j d1 => simp [Node.nodeType] at hkind
    | comment j d1 =>
      refine ⟨.comment i d, ?_, rfl, rfl, rfl, fun _ => by
          simp [boundAfter, Node.attributes, hasAttribute, getAttribute],
        ⟨fun h => by simp [Node.nodeType] at h, fun _ => rfl⟩, ?_⟩
      · rw [diffNode]
        simp [hpres, Node.nodeType, Node.nodeName]
      · simp [Node.childNodes, diffChildren]
    | element j tag1 a1 p1 k1 => simp [Node.nodeType] at hkind
  | element i tag attrs props kids =>
    cases n with
    | text j d1 => simp [Node.nodeType] at hkind
    | comment j d1 => simp [Node.nodeType] at hkind
    | element j tag1 a1 p1 k1 =>
      simp [Node.nodeType, Node.nodeName] at hkind
      subst hkind
      simp only [Node.attrsUnique, Bool.and_eq_true, decide_eq_true_eq] at hattrs
      refine ⟨.element i tag (updatedAttrs rf i tag attrs a1) (syncProps a1)
          (diffChildren rf m preserve i kids k1).1,
        by rw [diffNode_element_same_tag rf m preserve parent i j tag attrs a1 props p1
          kids k1 hpres], rfl, rfl, rfl, fun name => ?_,
        ⟨fun h => by simp [Node.nodeType] at h, fun h => by simp [Node.nodeType] at h⟩, rfl⟩
      exact getAttribute_updatedAttrs rf i j tag attrs a1 p1 k1 hattrs.1 name

/-- Without preserved children, the child loop leaves a list structurally equal to the
new child list, given that each pair it recurses on ends structurally equal. -/
theorem structEqList_diffChildren (rf : String → Bool) (m : Node → String → Bool) (preserve : List String)
    (parent : Nat) (olds : List Node)
    (hrec : ∀ k ∈ olds, ∀ n pid,
      (k.nodeType == n.nodeType && k.nodeName == n.nodeName) = true →
      n.attrsUnique = true → n.elementsAndText = true → n.disabledEmpty rf = true →
      ∃ k1, (diffNode rf m preserve pid k (some n)).1 = .update k1 ∧ structEq k1 n = true)
    (hpres : ∀ k ∈ olds, preserved m preserve k = false) :
    ∀ news : List Node, (∀ n ∈ news, n.attrsUnique = true) →
      (∀ n ∈ news, n.elementsAndText = true) → (∀ n ∈ news, n.disabledEmpty rf = true) →
      structEq.structEqList (diffChildren rf m preserve parent olds news).1 news = true := by
  induction olds with
  | nil =>
    intro news _ _ _
    simp [diffChildren, structEqList_refl]
  | cons o os ih =>
    have hpo : preserved m preserve o = false := hpres o (List.mem_cons_self _ _)
    have ih1 := ih (fun k hk => hrec k (List.mem_cons_of_mem _ hk))
      (fun k hk => hpres k (List.mem_cons_of_mem _ hk))
    intro news hu he hde
    cases news with
    | nil =>
      have := ih1 [] (by simp) (by simp) (by simp)
      simpa [diffChildren, hpo] using this
    | cons n ns =>
      have hrest := ih1 ns (fun x hx => hu x (List.mem_cons_of_mem _ hx))
        (fun x hx => he x (List.mem_cons_of_mem _ hx))
        (fun x hx => hde x (List.mem_cons_of_mem _ hx))
      by_cases hkind : (o.nodeType == n.nodeType && o.nodeName == n.nodeName) = true
      · obtain ⟨k1, hk1, hs⟩ := hrec o (List.mem_cons_self _ _) n parent hkind
          (hu n (List.mem_cons_self _ _)) (he n (List.mem_cons_self _ _))
          (hde n (List.mem_cons_self _ _))
        rw [diffChildren]
        simp only [hpo, Bool.false_eq_true, if_false, hkind, if_true, hk1, Effect.slot,
          List.singleton_append, structEq.structEqList, Bool.and_eq_true]
        exact ⟨hs, hrest⟩
      · rw [diffChildren]
        simp only [hpo, Bool.false_eq_true, if_false, hkind, structEq.structEqList,
          Bool.and_eq_true]
        exact ⟨structEq_refl n, hrest⟩

/-- A tree without preserved nodes, reconciled against a new tree of element and text
nodes with the same category and name at the root, in which no reflecting element has a
non-empty `disabled`, is updated in place and ends structurally equal to the new tree. -/
theorem structEq_diffNode (rf : String → Bool) (m : Node → String → Bool) (preserve : List String) :
    ∀ (o n : Node) (parent : Nat), (∀ x ∈ o.nodes, preserved m preserve x = false) →
      (o.nodeType == n.nodeType && o.nodeName == n.nodeName) = true →
      n.attrsUnique = true → n.elementsAndText = true → n.disabledEmpty rf = true →
      ∃ o1, (diffNode rf m preserve parent o (some n)).1 = .update o1 ∧ structEq o1 n = true := by
  intro o
  induction o using Node.induct with
  | htext i d =>
    intro n parent hpres hkind hu he _
    obtain ⟨o1, h1, -, ht, -, -, hdata, -⟩ := diffNode_same_kind rf m preserve parent _ n
      (hpres _ (Node.self_mem_nodes _)) hkind hu
    refine ⟨o1, h1, ?_⟩
    have hd := hdata.1 rfl
    cases n with
    | text j d1 =>
      cases o1 with
      | text i1 d2 => simpa [structEq, Node.data] using hd
      | comment i1 d2 => simp [Node.nodeType] at ht
      | element i1 t1 a1 p1 k1 => simp [Node.nodeType] at ht
    | comment j d1 => simp [Node.nodeType] at hkind
    | element j tag1 a1 p1 k1 => simp [Node.nodeType] at hkind
  | hcomment i d =>
    intro n parent hpres hkind hu he _
    cases n with
    | text j d1 => simp [Node.nodeType] at hkind
    | comment j d1 => simp [Node.elementsAndText] at he
    | element j tag1 a1 p1 k1 => simp [Node.nodeType] at hkind
  | helement i tag attrs props kids ih =>
    intro n parent hpres hkind hu he hde
    cases n with
    | text j d1 => simp [Node.nodeType] at hkind
    | comment j d1 => simp [Node.nodeType] at hkind
    | element j tag1 a1 p1 k1 =>
      simp [Node.nodeType, Node.nodeName] at hkind
      subst hkind
      have hp0 := hpres _ (Node.self_mem_nodes _)
      simp only [Node.attrsUnique, Bool.and_eq_true, decide_eq_true_eq, attrsUniqueList_iff]
        at hu
      simp only [Node.elementsAndText, elementsAndTextList_iff] at he
      simp only [Node.disabledEmpty, Bool.and_eq_true, disabledEmptyList_iff] at hde
      refine ⟨_, by rw [diffNode_element_same_tag rf m preserve parent i j tag attrs a1 props p1
        kids k1 hp0], ?_⟩
      simp only [structEq, Bool.and_eq_true, beq_self_eq_true, true_and]
      refine ⟨(attrsEq_iff _ _).2 (fun name => ?_), ?_⟩
      · rw [getAttribute_updatedAttrs rf i j tag attrs a1 p1 k1 hu.1 name]
        exact boundAfter_of_disabledEmpty rf j tag a1 p1 k1 hde.1 name
      apply structEqList_diffChildren rf m preserve i kids _ _ k1 hu.2 he hde.2
      · intro k hk n pid hkind1 hu1 he1 hde1
        exact ih k hk n pid
          (fun x hx => hpres x (Node.mem_nodes_of_child i tag attrs props kids k x hk hx))
          hkind1 hu1 he1 hde1
      · intro k hk
        exact hpres k (Node.mem_nodes_of_child i tag attrs props kids k k hk
          (Node.self_mem_nodes k))

/-! ### The old node as a child of the parent -/

theorem idsList_append (a b : List Node) :
    Node.ids.idsList (a ++ b) = Node.ids.idsList a ++ Node.ids.idsList b := by
  induction a with
  | nil => rfl
  | cons k rest ih => simp [Node.ids.idsList, ih]

theorem Node.id_element (i : Nat) (tag : String) (attrs : List (String × String))
    (props : Props) (kids : List Node) : (Node.element i tag attrs props kids).id = i := rfl

theorem Node.id_mem_ids (n : Node) : n.id ∈ n.ids := by
  cases n <;> simp [Node.ids, Node.id]

theorem id_mem_idsList (ks : List Node) (k : Node) (hk : k ∈ ks) :
    k.id ∈ Node.ids.idsList ks := by
  induction ks with
  | nil => simp at hk
  | cons x rest ih =>
    simp only [Node.ids.idsList, List.mem_append]
    rcases List.mem_cons.1 hk with h | h
    · exact Or.inl (h ▸ Node.id_mem_ids k)
    · exact Or.inr (ih h)

theorem subst_of_not_mem (target : Nat) (repl : Node) :
    ∀ n : Node, target ∉ n.ids → Node.subst target repl n = n := by
  intro n
  induction n using Node.induct with
  | htext i d =>
    intro h
    have : i ≠ target := by
      intro hi
      exact h (by simp [Node.ids, hi])
    simp [Node.subst, this]
  | hcomment i d =>
    intro h
    have : i ≠ target := by
      intro hi
      exact h (by simp [Node.ids, hi])
    simp [Node.subst, this]
  | helement i tag attrs props kids ih =>
    intro h
    simp only [Node.ids, List.mem_cons, not_or] at h
    have hi : i ≠ target := fun hi => h.1 hi.symm
    have hk : Node.subst.substList target repl kids = kids := by
      have hmem := h.2
      clear h
      induction kids with
      | nil => rfl
      | cons k rest ihr =>
        simp only [Node.ids.idsList, List.mem_append, not_or] at hmem
        simp only [Node.subst.substList]
        rw [ih k (List.mem_cons_self _ _) hmem.1,
          ihr (fun x hx => ih x (List.mem_cons_of_mem _ hx)) hmem.2]
    simp [Node.subst, hi, hk]

theorem substList_of_not_mem (target : Nat) (repl : Node) (ks : List Node)
    (h : target ∉ Node.ids.idsList ks) : Node.subst.substList target repl ks = ks := by
  induction ks with
  | nil => rfl
  | cons k rest ih =>
    simp only [Node.ids.idsList, List.mem_append, not_or] at h
    simp only [Node.subst.substList]
    rw [subst_of_not_mem target repl k h.1, ih h.2]

theorem subst_root (repl n : Node) : Node.subst n.id repl n = repl := by
  cases n <;> simp [Node.subst, Node.id]

theorem substList_append (target : Nat) (repl : Node) (a b : List Node) :
    Node.subst.substList target repl (a ++ b) =
      Node.subst.substList target repl a ++ Node.subst.substList target repl b := by
  induction a with
  | nil => rfl
  | cons k rest ih => simp [Node.subst.substList, ih]

/-- In a parent whose nodes have pairwise different identities, the identity of a child
occurs neither at the parent, nor before the child, nor after it. -/
theorem ids_of_child (pid : Nat) (ptag : String) (pattrs : List (String × String))
    (pprops : Props) (pre post : List Node) (old : Node)
    (hids : (Node.element pid ptag pattrs pprops (pre ++ old :: post)).ids.Nodup) :
    pid ≠ old.id ∧ old.id ∉ Node.ids.idsList pre ∧ old.id ∉ Node.ids.idsList post := by
  simp only [Node.ids, idsList_append, Node.ids.idsList, List.nodup_cons, List.mem_append,
    not_or] at hids
  obtain ⟨⟨-, hp, -⟩, hnd⟩ := hids
  have hself := Node.id_mem_ids old
  rw [List.nodup_append] at hnd
  obtain ⟨-, hnd2, hdis⟩ := hnd
  rw [List.nodup_append] at hnd2
  refine ⟨fun h => hp (h ▸ hself), fun h => ?_, fun h => hnd2.2.2 hself h⟩
  exact hdis h (List.mem_append_left _ hself)

theorem substList_child (pre post : List Node) (old repl : Node)
    (hpre : old.id ∉ Node.ids.idsList pre) (hpost : old.id ∉ Node.ids.idsList post) :
    Node.subst.substList old.id repl (pre ++ old :: post) = pre ++ repl :: post := by
  rw [substList_append, substList_of_not_mem _ _ pre hpre]
  simp only [Node.subst.substList]
  rw [subst_root, substList_of_not_mem _ _ post hpost]

theorem replaceById_child (pre post : List Node) (old repl : Node)
    (hpre : old.id ∉ Node.ids.idsList pre) :
    replaceById old.id repl (pre ++ old :: post) = pre ++ repl :: post := by
  induction pre with
  | nil => simp [replaceById]
  | cons k rest ih =>
    simp only [Node.ids.idsList, List.mem_append, not_or] at hpre
    have hk : k.id ≠ old.id := fun h => hpre.1 (h ▸ Node.id_mem_ids k)
    simp [replaceById, hk, ih hpre.2]

theorem removeById_child (pre post : List Node) (old : Node)
    (hpre : old.id ∉ Node.ids.idsList pre) :
    removeById old.id (pre ++ old :: post) = pre ++ post := by
  induction pre with
  | nil => simp [removeById]
  | cons k rest ih =>
    simp only [Node.ids.idsList, List.mem_append, not_or] at hpre
    have hk : k.id ≠ old.id := fun h => hpre.1 (h ▸ Node.id_mem_ids k)
    simp [removeById, hk, ih hpre.2]

theorem hasChild_child (pid : Nat) (ptag : String) (pattrs : List (String × String))
    (pprops : Props) (pre post : List Node) (old : Node) :
    (Node.element pid ptag pattrs pprops (pre ++ old :: post)).hasChild old = true := by
  simp [Node.hasChild, Node.childNodes]

theorem contains_child (pid : Nat) (ptag : String) (pattrs : List (String × String))
    (pprops : Props) (pre post : List Node) (old : Node) :
    (Node.element pid ptag pattrs pprops (pre ++ old :: post)).contains old = true := by
  unfold Node.contains
  rw [List.contains_iff_exists_mem_beq]
  refine ⟨old.id, ?_, by simp⟩
  simp only [Node.ids, List.mem_cons]
  exact Or.inr (id_mem_idsList _ old (by simp))

/-- The call on a child of the parent, when the old node is updated in place. -/
theorem diffAndPatch_of_update (rf : String → Bool) (m : Node → String → Bool) (preserve : List String)
    (pid : Nat) (ptag : String) (pattrs : List (String × String)) (pprops : Props)
    (pre post : List Node) (old : Node) (newNode : Option Node) (o1 : Node)
    (hids : (Node.element pid ptag pattrs pprops (pre ++ old :: post)).ids.Nodup)
    (h : (diffNode rf m preserve pid old newNode).1 = .update o1) :
    diffAndPatch rf m (.element pid ptag pattrs pprops (pre ++ old :: post)) (some old) newNode
        preserve =
      .ok { parent := .element pid ptag pattrs pprops (pre ++ o1 :: post)
            oldNode := some o1
            log := (diffNode rf m preserve pid old newNode).2 } := by
  obtain ⟨hp, hpre, hpost⟩ := ids_of_child pid ptag pattrs pprops pre post old hids
  unfold diffAndPatch
  simp only [Node.id_element]
  cases hd : diffNode rf m preserve pid old newNode with
  | mk eff log =>
    rw [hd] at h
    simp only at h
    subst h
    simp only [Node.subst, hp, if_false, substList_child pre post old o1 hpre hpost]

/-- The call on a child of the parent, when the new node replaces the old one. -/
theorem diffAndPatch_of_replace (rf : String → Bool) (m : Node → String → Bool) (preserve : List String)
    (pid : Nat) (ptag : String) (pattrs : List (String × String)) (pprops : Props)
    (pre post : List Node) (old : Node) (newNode : Option Node) (n : Node)
    (hids : (Node.element pid ptag pattrs pprops (pre ++ old :: post)).ids.Nodup)
    (h : (diffNode rf m preserve pid old newNode).1 = .replace n) :
    diffAndPatch rf m (.element pid ptag pattrs pprops (pre ++ old :: post)) (some old) newNode
        preserve =
      .ok { parent := .element pid ptag pattrs pprops (pre ++ n :: post)
            oldNode := some old
            log := (diffNode rf m preserve pid old newNode).2 } := by
  obtain ⟨-, hpre, -⟩ := ids_of_child pid ptag pattrs pprops pre post old hids
  unfold diffAndPatch
  simp only [Node.id_element]
  cases hd : diffNode rf m preserve pid old newNode with
  | mk eff log =>
    rw [hd] at h
    simp only at h
    subst h
    simp only [hasChild_child, if_true, Node.childNodes, replaceById_child pre post old n hpre,
      Node.setChildNodes]

/-- The call with an old node that the parent contains and that is left as it is. -/
theorem diffAndPatch_of_kept (rf : String → Bool) (m : Node → String → Bool) (preserve : List String)
    (parent old : Node) (newNode : Option Node) (hcontains : parent.contains old = true)
    (h : (diffNode rf m preserve parent.id old newNode).1 = .keep ∨
      (diffNode rf m preserve parent.id old newNode).1 = .untouched) :
    diffAndPatch rf m parent (some old) newNode preserve =
      .ok { parent := parent, oldNode := some old
            log := (diffNode rf m preserve parent.id old newNode).2 } := by
  unfold diffAndPatch
  cases hd : diffNode rf m preserve parent.id old newNode with
  | mk eff log =>
    rw [hd] at h
    simp only at h
    rcases h with h | h <;> subst h <;> simp [hd, hcontains]


/-- The call with an old node that is updated in place, whatever the parent. -/
theorem diffAndPatch_of_update_anywhere (rf : String → Bool) (m : Node → String → Bool) (preserve : List String)
    (parent old : Node) (newNode : Option Node) (o1 : Node)
    (h : (diffNode rf m preserve parent.id old newNode).1 = .update o1) :
    diffAndPatch rf m parent (some old) newNode preserve =
      .ok { parent := Node.subst old.id o1 parent, oldNode := some o1
            log := (diffNode rf m preserve parent.id old newNode).2 } := by
  unfold diffAndPatch
  cases hd : diffNode rf m preserve parent.id old newNode with
  | mk eff log =>
    rw [hd] at h
    simp only at h
    subst h
    simp [hd]

theorem diffNode_of_preserved (rf : String → Bool) (m : Node → String → Bool) (preserve : List String)
    (parent : Nat) (old : Node) (newNode : Option Node)
    (hpres : preserved m preserve old = true) :
    diffNode rf m preserve parent old newNode = (.keep, []) ∨
      diffNode rf m preserve parent old newNode = (.untouched, []) := by
  cases newNode with
  | none =>
    right
    rw [diffNode]
    simp [hpres]
  | some n =>
    left
    cases old with
    | text i d => simp [preserved_text] at hpres
    | comment i d => simp [preserved_comment] at hpres
    | element i tag attrs props kids =>
      rw [diffNode]
      simp [hpres]

/-! ### Mutation logs -/

theorem setNewAttrs_noop (node : Nat) (newAttrs oldAttrs : List (String × String))
    (h : ∀ kv ∈ newAttrs, getAttribute oldAttrs kv.1 = some kv.2) :
    setNewAttrs node newAttrs oldAttrs = (oldAttrs, []) := by
  induction newAttrs with
  | nil => rfl
  | cons kv rest ih =>
    obtain ⟨k, v⟩ := kv
    have hk : getAttribute oldAttrs k = some v := h (k, v) (List.mem_cons_self _ _)
    simp only [setNewAttrs, hk, bne_self_eq_false, Bool.false_eq_true, if_false]
    exact ih (fun x hx => h x (List.mem_cons_of_mem _ hx))

theorem removeStaleAttrs_noop (node : Nat) (newAttrs snapshot oldAttrs : List (String × String))
    (h : ∀ kv ∈ snapshot, hasAttribute newAttrs kv.1 = true) :
    removeStaleAttrs node newAttrs snapshot oldAttrs = (oldAttrs, []) := by
  induction snapshot with
  | nil => rfl
  | cons kv rest ih =>
    obtain ⟨k, v⟩ := kv
    have hk : hasAttribute newAttrs k = true := h (k, v) (List.mem_cons_self _ _)
    simp only [removeStaleAttrs, hk, Bool.not_true, Bool.false_eq_true, if_false]
    exact ih (fun x hx => h x (List.mem_cons_of_mem _ hx))

/-- Against an attribute list with the same bindings, the two loops change nothing. -/
theorem patchAttrs_noop (node : Nat) (oldAttrs newAttrs : List (String × String))
    (heq : attrsEq oldAttrs newAttrs = true) (hnd : (newAttrs.map Prod.fst).Nodup) :
    patchAttrs node oldAttrs newAttrs = (oldAttrs, []) := by
  rw [attrsEq_iff] at heq
  have h1 : setNewAttrs node newAttrs oldAttrs = (oldAttrs, []) := by
    apply setNewAttrs_noop
    intro kv hkv
    rw [heq]
    exact getAttribute_of_mem newAttrs kv.1 kv.2 hnd hkv
  have h2 : removeStaleAttrs node newAttrs oldAttrs oldAttrs = (oldAttrs, []) := by
    apply removeStaleAttrs_noop
    intro kv hkv
    unfold hasAttribute
    rw [← heq]
    have : kv.1 ∈ oldAttrs.map Prod.fst := List.mem_map_of_mem _ hkv
    have hh := (hasAttribute_iff oldAttrs kv.1).2 this
    exact hh
  unfold patchAttrs
  simp [h1, h2]

/-- Structurally equal child lists without preserved old children: the loop makes no
mutating call, given that the recursion on each pair makes none. -/
theorem log_diffChildren_nil (rf : String → Bool) (m : Node → String → Bool) (preserve : List String)
    (parent : Nat) (olds : List Node)
    (hrec : ∀ k ∈ olds, ∀ n pid, structEq k n = true → n.attrsUnique = true →
      (diffNode rf m preserve pid k (some n)).2 = [])
    (hpres : ∀ k ∈ olds, preserved m preserve k = false) :
    ∀ news : List Node, structEq.structEqList olds news = true →
      (∀ n ∈ news, n.attrsUnique = true) →
      (diffChildren rf m preserve parent olds news).2 = [] := by
  induction olds with
  | nil =>
    intro news hs _
    cases news with
    | nil => rfl
    | cons n ns => simp [structEq.structEqList] at hs
  | cons o os ih =>
    intro news hs hu
    cases news with
    | nil => simp [structEq.structEqList] at hs
    | cons n ns =>
      simp only [structEq.structEqList, Bool.and_eq_true] at hs
      have hpo : preserved m preserve o = false := hpres o (List.mem_cons_self _ _)
      have hkind := sameKind_of_structEq o n hs.1
      have hlog := hrec o (List.mem_cons_self _ _) n parent hs.1 (hu n (List.mem_cons_self _ _))
      have hrest := ih (fun k hk => hrec k (List.mem_cons_of_mem _ hk))
        (fun k hk => hpres k (List.mem_cons_of_mem _ hk)) ns hs.2
        (fun x hx => hu x (List.mem_cons_of_mem _ hx))
      rw [diffChildren]
      simp only [hpo, Bool.false_eq_true, if_false, hkind, if_true, hlog, hrest,
        List.append_nil]

/-- A tree reconciled against a structurally equal one, no node below its root being
preserved: no mutating call is made. -/
theorem log_diffNode_nil (rf : String → Bool) (m : Node → String → Bool) (preserve : List String) :
    ∀ (o n : Node) (parent : Nat), structEq o n = true → n.attrsUnique = true →
      (∀ k ∈ o.childNodes, ∀ x ∈ k.nodes, preserved m preserve x = false) →
      (diffNode rf m preserve parent o (some n)).2 = [] := by
  intro o
  induction o using Node.induct with
  | htext i d =>
    intro n parent hs _ _
    cases n with
    | text j d1 =>
      simp only [structEq, beq_iff_eq] at hs
      subst hs
      rw [diffNode]
      simp [preserved_text, Node.nodeType, Node.nodeName, Node.data]
    | comment j d1 => simp [structEq] at hs
    | element j tag1 a1 p1 k1 => simp [structEq] at hs
  | hcomment i d =>
    intro n parent hs _ _
    cases n with
    | text j d1 => simp [structEq] at hs
    | comment j d1 =>
      rw [diffNode]
      simp [preserved_comment, Node.nodeType, Node.nodeName]
    | element j tag1 a1 p1 k1 => simp [structEq] at hs
  | helement i tag attrs props kids ih =>
    intro n parent hs hu hpres
    cases n with
    | text j d1 => simp [structEq] at hs
    | comment j d1 => simp [structEq] at hs
    | element j tag1 a1 p1 k1 =>
      simp only [structEq, Bool.and_eq_true, beq_iff_eq] at hs
      obtain ⟨⟨htag, hattrs⟩, hkids⟩ := hs
      subst htag
      simp only [Node.attrsUnique, Bool.and_eq_true, decide_eq_true_eq, attrsUniqueList_iff]
        at hu
      by_cases hp : preserved m preserve (.element i tag attrs props kids) = true
      · rw [diffNode]
        simp [hp]
      · rw [Bool.not_eq_true] at hp
        rw [diffNode_element_same_tag rf m preserve parent i j tag attrs a1 props p1 kids k1 hp]
        simp only [patchAttrs_noop i attrs a1 hattrs hu.1, List.nil_append]
        apply log_diffChildren_nil rf m preserve i kids _ _ k1 hkids hu.2
        · intro k hk n pid hs1 hu1
          apply ih k hk n pid hs1 hu1
          intro c hc x hx
          apply hpres k hk x
          cases k with
          | text a b => simp [Node.childNodes] at hc
          | comment a b => simp [Node.childNodes] at hc
          | element a b c1 d1 e1 =>
            exact Node.mem_nodes_of_child a b c1 d1 e1 c x hc hx
        · intro k hk
          exact hpres k hk k (Node.self_mem_nodes k)

/-- The property writes leave the attributes of an element as they are when it binds
`disabled` as the new node does, and to the empty string or not at all where the
property reflects. -/
theorem reflectDisabled_noop (rf : String → Bool) (tag : String)
    (attrs newAttrs : List (String × String))
    (heq : getAttribute attrs "disabled" = getAttribute newAttrs "disabled")
    (hde : (!rf tag || getAttribute attrs "disabled" == none
      || getAttribute attrs "disabled" == some "") = true) :
    reflectDisabled (rf tag) (hasAttribute newAttrs "disabled") attrs = attrs := by
  unfold reflectDisabled
  cases hr : rf tag
  · rfl
  · simp only [hr, Bool.not_true, Bool.false_or, Bool.or_eq_true, beq_iff_eq] at hde
    simp only [if_true]
    unfold hasAttribute
    rw [← heq]
    rcases hde with h | h
    · simp [h, removeAttribute_of_none attrs "disabled" h]
    · simp [h, setAttribute_of_some attrs "disabled" "" h]

theorem erasePropsList_append (a b : List Node) :
    Node.eraseProps.erasePropsList (a ++ b) =
      Node.eraseProps.erasePropsList a ++ Node.eraseProps.erasePropsList b := by
  induction a with
  | nil => rfl
  | cons k rest ih => simp [Node.eraseProps.erasePropsList, ih]

/-- Structurally equal child lists without preserved old children: the loop leaves the
old children in place, given that the recursion on each pair leaves its old node as it
was, properties apart. -/
theorem eraseProps_diffChildren_identical (rf : String → Bool) (m : Node → String → Bool)
    (preserve : List String) (parent : Nat) (olds : List Node)
    (hrec : ∀ k ∈ olds, ∀ n pid, structEq k n = true → n.attrsUnique = true →
      ∃ k1, (diffNode rf m preserve pid k (some n)).1 = .update k1 ∧
        k1.eraseProps = k.eraseProps)
    (hpres : ∀ k ∈ olds, preserved m preserve k = false) :
    ∀ news : List Node, structEq.structEqList olds news = true →
      (∀ n ∈ news, n.attrsUnique = true) →
      Node.eraseProps.erasePropsList (diffChildren rf m preserve parent olds news).1 =
        Node.eraseProps.erasePropsList olds := by
  induction olds with
  | nil =>
    intro news hs _
    cases news with
    | nil => rfl
    | cons n ns => simp [structEq.structEqList] at hs
  | cons o os ih =>
    intro news hs hu
    cases news with
    | nil => simp [structEq.structEqList] at hs
    | cons n ns =>
      simp only [structEq.structEqList, Bool.and_eq_true] at hs
      have hpo : preserved m preserve o = false := hpres o (List.mem_cons_self _ _)
      have hkind := sameKind_of_structEq o n hs.1
      obtain ⟨k1, hk1, he1⟩ := hrec o (List.mem_cons_self _ _) n parent hs.1
        (hu n (List.mem_cons_self _ _))
      have hrest := ih (fun k hk => hrec k (List.mem_cons_of_mem _ hk))
        (fun k hk => hpres k (List.mem_cons_of_mem _ hk)) ns hs.2
        (fun x hx => hu x (List.mem_cons_of_mem _ hx))
      rw [diffChildren]
      simp only [hpo, Bool.false_eq_true, if_false, hkind, if_true, hk1, Effect.slot,
        List.singleton_append, Node.eraseProps.erasePropsList, he1, hrest]

/-- A tree without preserved nodes, reconciled against a structurally equal one, no
reflecting element of it having a non-empty `disabled`: every node stays in place with
its identity, attributes, text and children. -/
theorem eraseProps_diffNode_identical (rf : String → Bool) (m : Node → String → Bool)
    (preserve : List String) :
    ∀ (o n : Node) (parent : Nat), structEq o n = true → n.attrsUnique = true →
      o.disabledEmpty rf = true → (∀ x ∈ o.nodes, preserved m preserve x = false) →
      ∃ o1, (diffNode rf m preserve parent o (some n)).1 = .update o1 ∧
        o1.eraseProps = o.eraseProps := by
  intro o
  induction o using Node.induct with
  | htext i d =>
    intro n parent hs _ _ _
    cases n with
    | text j d1 =>
      simp only [structEq, beq_iff_eq] at hs
      subst hs
      refine ⟨.text i d, ?_, rfl⟩
      rw [diffNode]
      simp [preserved_text, Node.nodeType, Node.nodeName, Node.data]
    | comment j d1 => simp [structEq] at hs
    | element j tag1 a1 p1 k1 => simp [structEq] at hs
  | hcomment i d =>
    intro n parent hs _ _ _
    cases n with
    | text j d1 => simp [structEq] at hs
    | comment j d1 =>
      refine ⟨.comment i d, ?_, rfl⟩
      rw [diffNode]
      simp [preserved_comment, Node.nodeType, Node.nodeName]
    | element j tag1 a1 p1 k1 => simp [structEq] at hs
  | helement i tag attrs props kids ih =>
    intro n parent hs hu hde hpres
    cases n with
    | text j d1 => simp [structEq] at hs
    | comment j d1 => simp [structEq] at hs
    | element j tag1 a1 p1 k1 =>
      simp only [structEq, Bool.and_eq_true, beq_iff_eq] at hs
      obtain ⟨⟨htag, hattrs⟩, hkids⟩ := hs
      subst htag
      simp only [Node.attrsUnique, Bool.and_eq_true, decide_eq_true_eq, attrsUniqueList_iff]
        at hu
      simp only [Node.disabledEmpty, Bool.and_eq_true, disabledEmptyList_iff] at hde
      have hp := hpres _ (Node.self_mem_nodes _)
      refine ⟨_, by rw [diffNode_element_same_tag rf m preserve parent i j tag attrs a1 props
        p1 kids k1 hp], ?_⟩
      have hA : updatedAttrs rf i tag attrs a1 = attrs := by
        unfold updatedAttrs
        rw [patchAttrs_noop i attrs a1 hattrs hu.1]
        exact reflectDisabled_noop rf tag attrs a1 ((attrsEq_iff attrs a1).1 hattrs _) hde.1
      have hK : Node.eraseProps.erasePropsList (diffChildren rf m preserve i kids k1).1 =
          Node.eraseProps.erasePropsList kids := by
        apply eraseProps_diffChildren_identical rf m preserve i kids _ _ k1 hkids hu.2
        · intro k hk n pid hs1 hu1
          exact ih k hk n pid hs1 hu1 (hde.2 k hk)
            (fun x hx => hpres x (Node.mem_nodes_of_child i tag attrs props kids k x hk hx))
        · intro k hk
          exact hpres k (Node.mem_nodes_of_child i tag attrs props kids k k hk
            (Node.self_mem_nodes k))
      simp only [Node.eraseProps, hA, hK]

theorem detached_setNewAttrs (node : Nat) (newAttrs oldAttrs : List (String × String)) :
    ∀ μ ∈ (setNewAttrs node newAttrs oldAttrs).2, μ.detached = none := by
  induction newAttrs generalizing oldAttrs with
  | nil => simp [setNewAttrs]
  | cons kv rest ih =>
    obtain ⟨k, v⟩ := kv
    intro μ hμ
    simp only [setNewAttrs] at hμ
    split at hμ
    · rcases List.mem_cons.1 hμ with h | h
      · rw [h]; rfl
      · exact ih _ μ h
    · exact ih _ μ hμ

theorem detached_removeStaleAttrs (node : Nat)
    (newAttrs snapshot oldAttrs : List (String × String)) :
    ∀ μ ∈ (removeStaleAttrs node newAttrs snapshot oldAttrs).2, μ.detached = none := by
  induction snapshot generalizing oldAttrs with
  | nil => simp [removeStaleAttrs]
  | cons kv rest ih =>
    obtain ⟨k, v⟩ := kv
    intro μ hμ
    simp only [removeStaleAttrs] at hμ
    split at hμ
    · rcases List.mem_cons.1 hμ with h | h
      · rw [h]; rfl
      · exact ih _ μ h
    · exact ih _ μ hμ

theorem detached_patchAttrs (node : Nat) (oldAttrs newAttrs : List (String × String)) :
    ∀ μ ∈ (patchAttrs node oldAttrs newAttrs).2, μ.detached = none := by
  intro μ hμ
  unfold patchAttrs at hμ
  rcases List.mem_append.1 hμ with h | h
  · exact detached_setNewAttrs node newAttrs oldAttrs μ h
  · exact detached_removeStaleAttrs node newAttrs _ _ μ h

/-- The child loop detaches no preserved node, given that the recursion detaches none. -/
theorem detached_diffChildren (rf : String → Bool) (m : Node → String → Bool) (preserve : List String)
    (parent : Nat) (olds : List Node)
    (hrec : ∀ k ∈ olds, ∀ (n : Option Node) (pid : Nat) (μ : Mutation) (c : Node),
      μ ∈ (diffNode rf m preserve pid k n).2 → μ.detached = some c →
      preserved m preserve c = false) :
    ∀ (news : List Node) (μ : Mutation) (c : Node),
      μ ∈ (diffChildren rf m preserve parent olds news).2 → μ.detached = some c →
      preserved m preserve c = false := by
  induction olds with
  | nil =>
    intro news μ c hμ hd
    simp only [diffChildren, List.mem_map] at hμ
    obtain ⟨x, -, hx⟩ := hμ
    rw [← hx] at hd
    simp [Mutation.detached] at hd
  | cons o os ih =>
    have ih1 := ih (fun k hk => hrec k (List.mem_cons_of_mem _ hk))
    intro news μ c hμ hd
    cases news with
    | nil =>
      rw [diffChildren] at hμ
      by_cases hpo : preserved m preserve o = true
      · simp only [hpo, Bool.not_true, Bool.false_eq_true, if_false] at hμ
        exact ih1 [] μ c hμ hd
      · rw [Bool.not_eq_true] at hpo
        simp only [hpo, Bool.not_false, if_true] at hμ
        rcases List.mem_cons.1 hμ with h | h
        · rw [h] at hd
          simp only [Mutation.detached, Option.some.injEq] at hd
          exact hd ▸ hpo
        · exact ih1 [] μ c h hd
    | cons n ns =>
      rw [diffChildren] at hμ
      by_cases hpo : preserved m preserve o = true
      · simp only [hpo, if_true] at hμ
        exact ih1 (n :: ns) μ c hμ hd
      · rw [Bool.not_eq_true] at hpo
        simp only [hpo, Bool.false_eq_true, if_false] at hμ
        split at hμ
        · rcases List.mem_append.1 hμ with h | h
          · exact hrec o (List.mem_cons_self _ _) (some n) parent μ c h hd
          · exact ih1 ns μ c h hd
        · rcases List.mem_cons.1 hμ with h | h
          · rw [h] at hd
            simp only [Mutation.detached, Option.some.injEq] at hd
            exact hd ▸ hpo
          · exact ih1 ns μ c h hd

/-- No call of `removeChild` or `replaceChild` made while reconciling a node, at any
depth, detaches a preserved node. -/
theorem detached_diffNode (rf : String → Bool) (m : Node → String → Bool) (preserve : List String) :
    ∀ (o : Node) (n : Option Node) (parent : Nat) (μ : Mutation) (c : Node),
      μ ∈ (diffNode rf m preserve parent o n).2 → μ.detached = some c →
      preserved m preserve c = false := by
  intro o
  induction o using Node.induct with
  | htext i d =>
    intro n parent μ c hμ hd
    cases n with
    | none =>
      rw [diffNode] at hμ
      simp [preserved_text] at hμ
      rw [hμ] at hd
      simp only [Mutation.detached, Option.some.injEq] at hd
      exact hd ▸ preserved_text m preserve i d
    | some n =>
      rw [diffNode] at hμ
      simp only [preserved_text, Bool.false_eq_true, if_false] at hμ
      split at hμ
      · simp only [List.mem_singleton] at hμ
        rw [hμ] at hd
        simp only [Mutation.detached, Option.some.injEq] at hd
        exact hd ▸ preserved_text m preserve i d
      · split at hμ
        · simp only [List.mem_singleton] at hμ
          rw [hμ] at hd
          simp [Mutation.detached] at hd
        · simp at hμ
  | hcomment i d =>
    intro n parent μ c hμ hd
    cases n with
    | none =>
      rw [diffNode] at hμ
      simp [preserved_comment] at hμ
      rw [hμ] at hd
      simp only [Mutation.detached, Option.some.injEq] at hd
      exact hd ▸ preserved_comment m preserve i d
    | some n =>
      rw [diffNode] at hμ
      simp only [preserved_comment, Bool.false_eq_true, if_false] at hμ
      split at hμ
      · simp only [List.mem_singleton] at hμ
        rw [hμ] at hd
        simp only [Mutation.detached, Option.some.injEq] at hd
        exact hd ▸ preserved_comment m preserve i d
      · simp at hμ
  | helement i tag attrs props kids ih =>
    intro n parent μ c hμ hd
    by_cases hp : preserved m preserve (.element i tag attrs props kids) = true
    · cases n with
      | none =>
        rw [diffNode] at hμ
        simp [hp] at hμ
      | some n =>
        rw [diffNode] at hμ
        simp [hp] at hμ
    · rw [Bool.not_eq_true] at hp
      cases n with
      | none =>
        rw [diffNode] at hμ
        simp only [hp, Bool.not_false, if_true, List.mem_singleton] at hμ
        rw [hμ] at hd
        simp only [Mutation.detached, Option.some.injEq] at hd
        exact hd ▸ hp
      | some n =>
        rw [diffNode] at hμ
        simp only [hp, Bool.false_eq_true, if_false] at hμ
        split at hμ
        · simp only [List.mem_singleton] at hμ
          rw [hμ] at hd
          simp only [Mutation.detached, Option.some.injEq] at hd
          exact hd ▸ hp
        · rcases List.mem_append.1 hμ with h | h
          · have := detached_patchAttrs i attrs n.attributes μ h
            rw [this] at hd
            simp at hd
          · exact detached_diffChildren rf m preserve i kids
              (fun k hk n1 pid μ1 c1 h1 h2 => ih k hk n1 pid μ1 c1 h1 h2)
              n.childNodes μ c h hd

/-- A preserved old child is still a child after the loop, the same node unchanged. -/
theorem mem_diffChildren_of_preserved (rf : String → Bool) (m : Node → String → Bool) (preserve : List String)
    (parent : Nat) (olds : List Node) (c : Node) (hc : c ∈ olds)
    (hpres : preserved m preserve c = true) :
    ∀ news : List Node, c ∈ (diffChildren rf m preserve parent olds news).1 := by
  induction olds with
  | nil => simp at hc
  | cons o os ih =>
    intro news
    rcases List.mem_cons.1 hc with h | h
    · subst h
      cases news with
      | nil =>
        rw [diffChildren]
        simp [hpres]
      | cons n ns =>
        rw [diffChildren]
        simp [hpres]
    · have ih1 := ih h
      cases news with
      | nil =>
        rw [diffChildren]
        by_cases hpo : preserved m preserve o = true
        · simp [hpo, ih1 []]
        · simp [hpo, ih1 []]
      | cons n ns =>
        rw [diffChildren]
        by_cases hpo : preserved m preserve o = true
        · simp [hpo, ih1 (n :: ns)]
        · simp only [hpo, Bool.false_eq_true, if_false]
          split
          · exact List.mem_append_right _ (ih1 ns)
          · exact List.mem_cons_of_mem _ (ih1 ns)

/-! ### Positional pairing -/

theorem Node.mem_nodes_of_mem_childNodes (o k x : Node) (hk : k ∈ o.childNodes)
    (hx : x ∈ k.nodes) : x ∈ o.nodes := by
  cases o with
  | text i d => simp [Node.childNodes] at hk
  | comment i d => simp [Node.childNodes] at hk
  | element i tag attrs props kids => exact Node.mem_nodes_of_child i tag attrs props kids k x hk hx

theorem Node.attrsUnique_of_mem_childNodes (n k : Node) (hk : k ∈ n.childNodes)
    (hn : n.attrsUnique = true) : k.attrsUnique = true := by
  cases n with
  | text i d => simp [Node.childNodes] at hk
  | comment i d => simp [Node.childNodes] at hk
  | element i tag attrs props kids =>
    simp only [Node.attrsUnique, Bool.and_eq_true, attrsUniqueList_iff] at hn
    exact hn.2 k hk

theorem sameKind_of_pairedAt (o n a b : Node) (path : List Nat)
    (h : pairedAt o n path = some (a, b)) :
    (o.nodeType == n.nodeType && o.nodeName == n.nodeName) = true := by
  cases path with
  | nil =>
    unfold pairedAt at h
    split at h
    · assumption
    · simp at h
  | cons i rest =>
    unfold pairedAt at h
    split at h
    · assumption
    · simp at h

/-- Without preserved old children, the child at an index that both lists have, when the
two children there have the same category and name, is the old child updated in place. -/
theorem getElem?_diffChildren (rf : String → Bool) (m : Node → String → Bool) (preserve : List String)
    (parent : Nat) (olds : List Node) (hpres : ∀ k ∈ olds, preserved m preserve k = false) :
    ∀ (news : List Node) (i : Nat) (ok nk : Node), olds[i]? = some ok → news[i]? = some nk →
      (ok.nodeType == nk.nodeType && ok.nodeName == nk.nodeName) = true →
      (∀ n ∈ news, n.attrsUnique = true) →
      ∃ ok1, (diffNode rf m preserve parent ok (some nk)).1 = .update ok1 ∧
        (diffChildren rf m preserve parent olds news).1[i]? = some ok1 := by
  induction olds with
  | nil =>
    intro news i ok nk ho
    simp at ho
  | cons o os ih =>
    intro news i ok nk ho hn hkind hu
    have hpo : preserved m preserve o = false := hpres o (List.mem_cons_self _ _)
    cases news with
    | nil => simp at hn
    | cons n ns =>
      cases i with
      | zero =>
        simp only [List.getElem?_cons_zero, Option.some.injEq] at ho hn
        subst ho
        subst hn
        obtain ⟨o1, h1, -⟩ := diffNode_same_kind rf m preserve parent o n hpo hkind
          (hu n (List.mem_cons_self _ _))
        refine ⟨o1, h1, ?_⟩
        rw [diffChildren]
        simp [hpo, hkind, h1, Effect.slot]
      | succ j =>
        simp only [List.getElem?_cons_succ] at ho hn
        obtain ⟨ok1, h1, h2⟩ := ih (fun k hk => hpres k (List.mem_cons_of_mem _ hk)) ns j ok nk
          ho hn hkind (fun x hx => hu x (List.mem_cons_of_mem _ hx))
        refine ⟨ok1, h1, ?_⟩
        rw [diffChildren]
        by_cases hk0 : (o.nodeType == n.nodeType && o.nodeName == n.nodeName) = true
        · obtain ⟨o1, ho1, -⟩ := diffNode_same_kind rf m preserve parent o n hpo hk0
            (hu n (List.mem_cons_self _ _))
          simp [hpo, hk0, ho1, Effect.slot, h2]
        · simp only [hpo, Bool.false_eq_true, if_false, hk0, List.getElem?_cons_succ, h2]

/-- Every old node paired positionally with a new node of the same category and name
keeps its identity, binds its attributes as `boundAfter` says, carries the new text when
it is a text node and its own text when it is a comment; over element and text nodes
without a non-empty reflecting `disabled` it ends structurally equal to the new node. -/
theorem at_diffNode_of_pairedAt (rf : String → Bool) (m : Node → String → Bool) (preserve : List String) :
    ∀ (path : List Nat) (o n a b : Node) (parent : Nat), pairedAt o n path = some (a, b) →
      (∀ x ∈ o.nodes, preserved m preserve x = false) → n.attrsUnique = true →
      ∃ o1 x, (diffNode rf m preserve parent o (some n)).1 = .update o1 ∧
        o1.at? path = some x ∧ x.id = a.id ∧
        (∀ name, getAttribute x.attributes name = boundAfter rf b name) ∧
        ((a.nodeType = 3 → x.data = b.data) ∧ (a.nodeType = 8 → x.data = a.data)) ∧
        (b.elementsAndText = true → b.disabledEmpty rf = true → structEq x b = true) := by
  intro path
  induction path with
  | nil =>
    intro o n a b parent hp hpres hu
    have hkind := sameKind_of_pairedAt o n a b [] hp
    simp only [pairedAt, hkind, if_true, Option.some.injEq, Prod.mk.injEq] at hp
    obtain ⟨rfl, rfl⟩ := hp
    obtain ⟨o1, h1, hid, -, -, hattrs, hdata, -⟩ := diffNode_same_kind rf m preserve parent o n
      (hpres o (Node.self_mem_nodes o)) hkind hu
    refine ⟨o1, o1, h1, rfl, hid, hattrs, hdata, fun he hde => ?_⟩
    obtain ⟨o2, h2, hs⟩ := structEq_diffNode rf m preserve o n parent hpres hkind hu he hde
    rw [h1] at h2
    cases h2
    exact hs
  | cons i rest ih =>
    intro o n a b parent hp hpres hu
    have hkind := sameKind_of_pairedAt o n a b (i :: rest) hp
    simp only [pairedAt, hkind, if_true] at hp
    cases hok : o.childNodes[i]? with
    | none => simp [hok] at hp
    | some ok =>
      cases hnk : n.childNodes[i]? with
      | none => simp [hok, hnk] at hp
      | some nk =>
        simp only [hok, hnk] at hp
        have hokmem : ok ∈ o.childNodes := List.getElem?_mem hok
        have hnkmem : nk ∈ n.childNodes := List.getElem?_mem hnk
        obtain ⟨o1, h1, -, -, -, -, -, hkids⟩ := diffNode_same_kind rf m preserve parent o n
          (hpres o (Node.self_mem_nodes o)) hkind hu
        obtain ⟨ok1, hk1, hget⟩ := getElem?_diffChildren rf m preserve o.id o.childNodes
          (fun k hk => hpres k (Node.mem_nodes_of_mem_childNodes o k k hk (Node.self_mem_nodes k)))
          n.childNodes i ok nk hok hnk (sameKind_of_pairedAt ok nk a b rest hp)
          (fun x hx => Node.attrsUnique_of_mem_childNodes n x hx hu)
        obtain ⟨ok2, x, hk2, hat, hrest⟩ := ih ok nk a b o.id hp
          (fun x hx => hpres x (Node.mem_nodes_of_mem_childNodes o ok x hokmem hx))
          (Node.attrsUnique_of_mem_childNodes n nk hnkmem hu)
        rw [hk1] at hk2
        cases hk2
        refine ⟨o1, x, h1, ?_, hrest⟩
        simp only [Node.at?, hkids, hget, hat]

/-! ### Identities after an update -/

theorem nodup_four (a b c d : List Nat) (h : ((a ++ b) ++ (c ++ d)).Nodup) :
    (a ++ c).Nodup ∧ (b ++ d).Nodup ∧
      ∀ x, (x ∈ a ∨ x ∈ c) → (x ∈ b ∨ x ∈ d) → False := by
  rw [List.nodup_append] at h
  obtain ⟨hab, hcd, hdis⟩ := h
  rw [List.nodup_append] at hab hcd
  obtain ⟨ha, hb, hab⟩ := hab
  obtain ⟨hc, hd, hcd⟩ := hcd
  refine ⟨List.nodup_append.2 ⟨ha, hc, fun x hx hy => hdis (List.mem_append_left _ hx)
      (List.mem_append_left _ hy)⟩,
    List.nodup_append.2 ⟨hb, hd, fun x hx hy => hdis (List.mem_append_right _ hx)
      (List.mem_append_right _ hy)⟩, ?_⟩
  rintro x (hx | hx) (hy | hy)
  · exact hab hx hy
  · exact hdis (List.mem_append_left _ hx) (List.mem_append_right _ hy)
  · exact hdis (List.mem_append_right _ hy) (List.mem_append_left _ hx)
  · exact hcd hx hy

theorem nodup_append_of_subset (l1 l2 : List Nat) (P1 P2 : Nat → Prop)
    (h1 : l1.Nodup) (h2 : l2.Nodup) (hs1 : ∀ x ∈ l1, P1 x) (hs2 : ∀ x ∈ l2, P2 x)
    (hd : ∀ x, P1 x → P2 x → False) : (l1 ++ l2).Nodup :=
  List.nodup_append.2 ⟨h1, h2, fun x hx hy => hd x (hs1 x hx) (hs2 x hy)⟩

theorem Node.ids_eq (n : Node) : n.ids = n.id :: Node.ids.idsList n.childNodes := by
  cases n <;> simp [Node.ids, Node.id, Node.childNodes, Node.ids.idsList]

/-- A node that is not preserved, against a new node of the same category and name, is
updated in place: it keeps its identity, and its children are what the child loop
leaves. -/
theorem diffNode_update_ids (rf : String → Bool) (m : Node → String → Bool)
    (preserve : List String) (parent : Nat) (o n : Node)
    (hpres : preserved m preserve o = false)
    (hkind : (o.nodeType == n.nodeType && o.nodeName == n.nodeName) = true) :
    ∃ o1, (diffNode rf m preserve parent o (some n)).1 = .update o1 ∧
      o1.ids = o.id ::
        Node.ids.idsList (diffChildren rf m preserve o.id o.childNodes n.childNodes).1 := by
  cases o with
  | text i d =>
    cases n with
    | text j d1 =>
      by_cases hd : d = d1
      · refine ⟨.text i d, ?_, ?_⟩
        · rw [diffNode]
          simp [preserved_text, Node.nodeType, Node.nodeName, Node.data, hd]
        · simp [Node.ids, Node.id, Node.childNodes, diffChildren, Node.ids.idsList]
      · refine ⟨.text i d1, ?_, ?_⟩
        · rw [diffNode]
          simp [preserved_text, Node.nodeType, Node.nodeName, Node.data, hd]
        · simp [Node.ids, Node.id, Node.childNodes, diffChildren, Node.ids.idsList]
    | comment j d1 => simp [Node.nodeType] at hkind
    | element j tag1 a1 p1 k1 => simp [Node.nodeType] at hkind
  | comment i d =>
    cases n with
    | text j d1 => simp [Node.nodeType] at hkind
    | comment j d1 =>
      refine ⟨.comment i d, ?_, ?_⟩
      · rw [diffNode]
        simp [hpres, Node.nodeType, Node.nodeName]
      · simp [Node.ids, Node.id, Node.childNodes, diffChildren, Node.ids.idsList]
    | element j tag1 a1 p1 k1 => simp [Node.nodeType] at hkind
  | element i tag attrs props kids =>
    cases n with
    | text j d1 => simp [Node.nodeType] at hkind
    | comment j d1 => simp [Node.nodeType] at hkind
    | element j tag1 a1 p1 k1 =>
      simp [Node.nodeType, Node.nodeName] at hkind
      subst hkind
      exact ⟨.element i tag (updatedAttrs rf i tag attrs a1) (syncProps a1)
          (diffChildren rf m preserve i kids k1).1,
        by rw [diffNode_element_same_tag rf m preserve parent i j tag attrs a1 props p1
          kids k1 hpres], rfl⟩

/-- The identities in the child list that the loop leaves are pairwise different and
come from the old and the new children, given the same for every node it updates. -/
theorem ids_diffChildren (rf : String → Bool) (m : Node → String → Bool)
    (preserve : List String) (parent : Nat) (olds : List Node)
    (hrec : ∀ k ∈ olds, ∀ n pid k1, (diffNode rf m preserve pid k (some n)).1 = .update k1 →
      (k.ids ++ n.ids).Nodup → k1.ids.Nodup ∧ ∀ x ∈ k1.ids, x ∈ k.ids ∨ x ∈ n.ids) :
    ∀ news : List Node, (Node.ids.idsList olds ++ Node.ids.idsList news).Nodup →
      (Node.ids.idsList (diffChildren rf m preserve parent olds news).1).Nodup ∧
      ∀ x ∈ Node.ids.idsList (diffChildren rf m preserve parent olds news).1,
        x ∈ Node.ids.idsList olds ∨ x ∈ Node.ids.idsList news := by
  induction olds with
  | nil =>
    intro news h
    simp only [Node.ids.idsList, List.nil_append] at h
    simp only [diffChildren]
    exact ⟨h, fun x hx => Or.inr hx⟩
  | cons o os ih =>
    have ih1 := ih (fun k hk => hrec k (List.mem_cons_of_mem _ hk))
    intro news h
    cases news with
    | nil =>
      simp only [Node.ids.idsList, List.append_nil] at h
      have hos : (Node.ids.idsList os ++ Node.ids.idsList []).Nodup := by
        simp only [Node.ids.idsList, List.append_nil]
        exact (List.nodup_append.1 h).2.1
      obtain ⟨hn, hsub⟩ := ih1 [] hos
      have hsub1 : ∀ x ∈ Node.ids.idsList (diffChildren rf m preserve parent os []).1,
          x ∈ Node.ids.idsList os := by
        intro x hx
        rcases hsub x hx with h1 | h1
        · exact h1
        · simp [Node.ids.idsList] at h1
      rw [diffChildren]
      by_cases hpo : preserved m preserve o = true
      · simp only [hpo, Bool.not_true, Bool.false_eq_true, if_false, Node.ids.idsList]
        refine ⟨nodup_append_of_subset _ _ (fun x => x ∈ o.ids)
          (fun x => x ∈ Node.ids.idsList os) (List.nodup_append.1 h).1 hn (fun x hx => hx)
          hsub1 (fun x hx hy => (List.nodup_append.1 h).2.2 hx hy), fun x hx => ?_⟩
        rcases List.mem_append.1 hx with h1 | h1
        · exact Or.inl (List.mem_append_left _ h1)
        · exact Or.inl (List.mem_append_right _ (hsub1 x h1))
      · simp only [hpo, Bool.not_false, if_true]
        exact ⟨hn, fun x hx => Or.inl (List.mem_append_right _ (hsub1 x hx))⟩
    | cons n ns =>
      simp only [Node.ids.idsList] at h
      obtain ⟨hon, hosns, hdis⟩ := nodup_four o.ids (Node.ids.idsList os) n.ids
        (Node.ids.idsList ns) h
      have hall := List.nodup_append.1 h
      rw [diffChildren]
      by_cases hpo : preserved m preserve o = true
      · simp only [hpo, if_true, Node.ids.idsList]
        obtain ⟨hn, hsub⟩ := ih1 (n :: ns) (by
          simp only [Node.ids.idsList]
          exact List.nodup_append.2 ⟨(List.nodup_append.1 hall.1).2.1, hall.2.1,
            fun x hx hy => hall.2.2 (List.mem_append_right _ hx) hy⟩)
        simp only [Node.ids.idsList] at hsub
        refine ⟨nodup_append_of_subset _ _ (fun x => x ∈ o.ids)
          (fun x => x ∈ Node.ids.idsList os ∨ x ∈ n.ids ++ Node.ids.idsList ns)
          (List.nodup_append.1 hall.1).1 hn (fun x hx => hx) hsub ?_, fun x hx => ?_⟩
        · rintro x hx (hy | hy)
          · exact (List.nodup_append.1 hall.1).2.2 hx hy
          · exact hall.2.2 (List.mem_append_left _ hx) hy
        · rcases List.mem_append.1 hx with h1 | h1
          · exact Or.inl (List.mem_append_left _ h1)
          · rcases hsub x h1 with h2 | h2
            · exact Or.inl (List.mem_append_right _ h2)
            · exact Or.inr h2
      · rw [Bool.not_eq_true] at hpo
        obtain ⟨hn, hsub⟩ := ih1 ns hosns
        simp only [hpo, Bool.false_eq_true, if_false]
        by_cases hkind : (o.nodeType == n.nodeType && o.nodeName == n.nodeName) = true
        · obtain ⟨k1, hk1, -⟩ := diffNode_update_ids rf m preserve parent o n hpo hkind
          obtain ⟨hk1n, hk1s⟩ := hrec o (List.mem_cons_self _ _) n parent k1 hk1 hon
          simp only [hkind, if_true, hk1, Effect.slot, List.singleton_append,
            Node.ids.idsList]
          refine ⟨nodup_append_of_subset _ _ (fun x => x ∈ o.ids ∨ x ∈ n.ids)
            (fun x => x ∈ Node.ids.idsList os ∨ x ∈ Node.ids.idsList ns) hk1n hn hk1s hsub
            hdis, fun x hx => ?_⟩
          rcases List.mem_append.1 hx with h1 | h1
          · rcases hk1s x h1 with h2 | h2
            · exact Or.inl (List.mem_append_left _ h2)
            · exact Or.inr (List.mem_append_left _ h2)
          · rcases hsub x h1 with h2 | h2
            · exact Or.inl (List.mem_append_right _ h2)
            · exact Or.inr (List.mem_append_right _ h2)
        · simp only [hkind, Bool.false_eq_true, if_false, Node.ids.idsList]
          refine ⟨nodup_append_of_subset _ _ (fun x => x ∈ n.ids)
            (fun x => x ∈ Node.ids.idsList os ∨ x ∈ Node.ids.idsList ns)
            (List.nodup_append.1 hon).2.1 hn (fun x hx => hx) hsub
            (fun x hx hy => hdis x (Or.inr hx) hy), fun x hx => ?_⟩
          rcases List.mem_append.1 hx with h1 | h1
          · exact Or.inr (List.mem_append_left _ h1)
          · rcases hsub x h1 with h2 | h2
            · exact Or.inl (List.mem_append_right _ h2)
            · exact Or.inr (List.mem_append_right _ h2)

/-- A node updated in place against a new tree built apart from it: its identities
afterwards are pairwise different and come from the old and the new tree. -/
theorem ids_diffNode (rf : String → Bool) (m : Node → String → Bool)
    (preserve : List String) :
    ∀ (o n : Node) (parent : Nat) (o1 : Node),
      (diffNode rf m preserve parent o (some n)).1 = .update o1 → (o.ids ++ n.ids).Nodup →
      o1.ids.Nodup ∧ ∀ x ∈ o1.ids, x ∈ o.ids ∨ x ∈ n.ids := by
  intro o
  induction o using Node.induct with
  | htext i d =>
    intro n parent o1 h hnd
    rw [diffNode] at h
    simp only [preserved_text, Bool.false_eq_true, if_false] at h
    split at h
    · simp at h
    · split at h
      · simp only [Effect.update.injEq] at h
        subst h
        simp [Node.ids]
      · simp only [Effect.update.injEq] at h
        subst h
        simp [Node.ids]
  | hcomment i d =>
    intro n parent o1 h hnd
    rw [diffNode] at h
    simp only [preserved_comment, Bool.false_eq_true, if_false] at h
    split at h
    · simp at h
    · simp only [Effect.update.injEq] at h
      subst h
      simp [Node.ids]
  | helement i tag attrs props kids ih =>
    intro n parent o1 h hnd
    rw [diffNode] at h
    split at h
    · simp at h
    · split at h
      · simp at h
      · simp only [Effect.update.injEq] at h
        subst h
        rw [Node.ids_eq n] at hnd
        simp only [Node.ids, List.cons_append, List.nodup_cons, List.mem_append, List.mem_cons,
          not_or] at hnd ⊢
        obtain ⟨⟨hik, hin, hikn⟩, hnd1⟩ := hnd
        have hnd2 : (Node.ids.idsList kids ++ Node.ids.idsList n.childNodes).Nodup := by
          rw [List.nodup_append] at hnd1 ⊢
          obtain ⟨h1, h2, h3⟩ := hnd1
          exact ⟨h1, (List.nodup_cons.1 h2).2, fun x hx hy => h3 hx (List.mem_cons_of_mem _ hy)⟩
        obtain ⟨hn, hsub⟩ := ids_diffChildren rf m preserve i kids
          (fun k hk n1 pid k1 h1 h2 => ih k hk n1 pid k1 h1 h2) n.childNodes hnd2
        refine ⟨⟨fun hmem => ?_, hn⟩, fun x hx => ?_⟩
        · rcases hsub i hmem with h1 | h1
          · exact hik h1
          · exact hikn h1
        · rcases hx with h1 | h1
          · exact Or.inl (Or.inl h1)
          · rcases hsub x h1 with h2 | h2
            · exact Or.inl (Or.inr h2)
            · right
              rw [Node.ids_eq n]
              exact List.mem_cons_of_mem _ h2

/-- A child of the parent gives its place to a node whose identities are pairwise
different and come from the child and from a tree built apart from the parent: the
identities of the parent stay pairwise different. -/
theorem nodup_ids_child (pid : Nat) (ptag : String) (pattrs : List (String × String))
    (pprops : Props) (pre post : List Node) (old x new : Node)
    (hids : (Node.element pid ptag pattrs pprops (pre ++ old :: post)).ids.Nodup)
    (hapart : ∀ y ∈ new.ids,
      y ∉ (Node.element pid ptag pattrs pprops (pre ++ old :: post)).ids)
    (hx : x.ids.Nodup) (hsub : ∀ y ∈ x.ids, y ∈ old.ids ∨ y ∈ new.ids) :
    (Node.element pid ptag pattrs pprops (pre ++ x :: post)).ids.Nodup := by
  simp only [Node.ids, idsList_append, Node.ids.idsList, List.nodup_cons, List.mem_append,
    List.mem_cons, not_or] at hids hapart ⊢
  obtain ⟨⟨hp1, hp2, hp3⟩, hnd⟩ := hids
  rw [List.nodup_append] at hnd
  obtain ⟨hpre, hrest, hdis⟩ := hnd
  rw [List.nodup_append] at hrest
  obtain ⟨-, hpost, hdis2⟩ := hrest
  refine ⟨⟨hp1, fun h => ?_, hp3⟩, ?_⟩
  · rcases hsub pid h with h1 | h1
    · exact hp2 h1
    · exact (hapart pid h1).1 rfl
  · rw [List.nodup_append]
    refine ⟨hpre, ?_, fun y hy hy1 => ?_⟩
    · rw [List.nodup_append]
      refine ⟨hx, hpost, fun y hy hy1 => ?_⟩
      rcases hsub y hy with h1 | h1
      · exact hdis2 h1 hy1
      · exact (hapart y h1).2.2.2 hy1
    · rcases List.mem_append.1 hy1 with h1 | h1
      · rcases hsub y h1 with h2 | h2
        · exact hdis hy (List.mem_append_left _ h2)
        · exact (hapart y h2).2.1 hy
      · exact hdis hy (List.mem_append_right _ h1)

/-- The identities of a child of the parent are pairwise different, and with a tree
built apart from the parent they stay so. -/
theorem nodup_old_new (pid : Nat) (ptag : String) (pattrs : List (String × String))
    (pprops : Props) (pre post : List Node) (old new : Node)
    (hids : (Node.element pid ptag pattrs pprops (pre ++ old :: post)).ids.Nodup)
    (hapart : ∀ y ∈ new.ids,
      y ∉ (Node.element pid ptag pattrs pprops (pre ++ old :: post)).ids)
    (hnew : new.ids.Nodup) : (old.ids ++ new.ids).Nodup := by
  simp only [Node.ids, idsList_append, Node.ids.idsList, List.nodup_cons, List.mem_append,
    List.mem_cons, not_or] at hids hapart
  obtain ⟨-, hnd⟩ := hids
  rw [List.nodup_append] at hnd
  obtain ⟨-, hrest, -⟩ := hnd
  rw [List.nodup_append] at hrest
  exact List.nodup_append.2 ⟨hrest.1, hnew, fun y hy hy1 => (hapart y hy1).2.2.1 hy⟩

/-! ## The reconciler: the specification's properties -/

/-- C5 as stated fails: on the platform of HTML, `<input>` reconciled against
`<input disabled="disabled">` ends with `disabled` bound to the empty string, not to
`disabled`: the loop sets the attribute, and the write `oldNode.disabled = true` that
follows sets it again, to the empty string. -/
theorem diffAndPatch_disabled_attribute_emptied :
    preserved tagSelector [] liveInput = false ∧
    diffAndPatch formControl tagSelector (bodyOf [liveInput]) (some liveInput)
        (some freshDisabledInput) [] =
      .ok { parent := bodyOf [.element 1 "INPUT" [("disabled", "")]
              { checked := false, disabled := true, selected := false } []]
            oldNode := some (.element 1 "INPUT" [("disabled", "")]
              { checked := false, disabled := true, selected := false } [])
            log := [.setAttribute 1 "disabled" "disabled"] } ∧
    getAttribute [("disabled", "")] "disabled" ≠
      getAttribute freshDisabledInput.attributes "disabled" :=
  ⟨rfl, rfl, by decide⟩

/-- C5, amended: for two elements of the same tag, the old one not preserved, and a new
attribute list with pairwise different names, the old node after `diffAndPatch` binds
every attribute name other than `disabled` exactly as the new node does, and `disabled`
too, except on an element whose `disabled` property reflects the attribute when the new
node has it: there the old node binds `disabled` to the empty string. -/
theorem diffAndPatch_attributes_equal_new (rf : String → Bool) (m : Node → String → Bool)
    (preserve : List String)
    (parent : Node) (i j : Nat) (tag : String) (A B : List (String × String))
    (props newProps : Props) (kids newKids : List Node)
    (hB : (B.map Prod.fst).Nodup)
    (hpres : preserved m preserve (.element i tag A props kids) = false) :
    ∃ out old1,
      diffAndPatch rf m parent (some (.element i tag A props kids))
        (some (.element j tag B newProps newKids)) preserve = .ok out ∧
      out.oldNode = some old1 ∧ old1.id = i ∧
      (∀ name, name ≠ "disabled" →
        getAttribute old1.attributes name = getAttribute B name) ∧
      getAttribute old1.attributes "disabled" =
        if rf tag && hasAttribute B "disabled" then some "" else getAttribute B "disabled" := by
  have h := diffNode_element_same_tag rf m preserve parent.id i j tag A B props newProps kids
    newKids hpres
  have hb := getAttribute_updatedAttrs rf i j tag A B newProps newKids hB
  refine ⟨_, .element i tag (updatedAttrs rf i tag A B) (syncProps B)
      (diffChildren rf m preserve i kids newKids).1,
    diffAndPatch_of_update_anywhere rf m preserve parent _ _ _ (by rw [h]), rfl, rfl,
    fun name hn => ?_, ?_⟩
  · simp only [Node.attributes, hb, boundAfter, Node.nodeName]
    have : (name == "disabled") = false := by simpa using hn
    simp [this]
  · simp only [Node.attributes, hb, boundAfter, Node.nodeName]
    simp

/-- Witness for the amended C5: `<div id="a" class="x">` against
`<div id="b" title="t">`. -/
theorem diffAndPatch_attributes_equal_new_witness :
    ([("id", "b"), ("title", "t")].map Prod.fst).Nodup ∧
    preserved tagSelector ["SCRIPT"]
      (.element 1 "DIV" [("id", "a"), ("class", "x")] noProps []) = false ∧
    ∃ out old1,
      diffAndPatch formControl tagSelector
        (bodyOf [.element 1 "DIV" [("id", "a"), ("class", "x")] noProps []])
        (some (.element 1 "DIV" [("id", "a"), ("class", "x")] noProps []))
        (some (.element 11 "DIV" [("id", "b"), ("title", "t")] noProps [])) ["SCRIPT"] = .ok out ∧
      out.oldNode = some old1 ∧ old1.id = 1 ∧
      (∀ name, name ≠ "disabled" → getAttribute old1.attributes name =
        getAttribute [("id", "b"), ("title", "t")] name) ∧
      getAttribute old1.attributes "disabled" =
        if formControl "DIV" && hasAttribute [("id", "b"), ("title", "t")] "disabled"
        then some "" else getAttribute [("id", "b"), ("title", "t")] "disabled" :=
  ⟨by decide, by decide,
    diffAndPatch_attributes_equal_new formControl tagSelector ["SCRIPT"] _ 1 11 "DIV" _ _
      noProps noProps [] [] (by decide) (by decide)⟩

/-- C6 as stated fails: with the preserve list `['P']`, the live tree
`<div><p></p><span></span></div>` reconciled against a structurally identical new tree
has its `span` replaced by the new `p` and the new `span` appended. And on the platform
of HTML, `<button disabled="disabled">` reconciled against a copy of itself has its
attribute changed to the empty string by the write `oldNode.disabled = true`, without a
call of `setAttribute`. -/
theorem diffAndPatch_identical_preserved_child_mutates :
    (structEq livePair freshPair = true ∧
      diffAndPatch formControl tagSelector (bodyOf [livePair]) (some livePair)
          (some freshPair) ["P"] =
        .ok { parent := bodyOf [.element 1 "DIV" [] noProps
                [.element 2 "P" [] noProps [], .element 12 "P" [] noProps [],
                  .element 13 "SPAN" [] noProps []]]
              oldNode := some (.element 1 "DIV" [] noProps
                [.element 2 "P" [] noProps [], .element 12 "P" [] noProps [],
                  .element 13 "SPAN" [] noProps []])
              log := [.replaceChild 1 (.element 12 "P" [] noProps [])
                        (.element 3 "SPAN" [] noProps []),
                      .appendChild 1 (.element 13 "SPAN" [] noProps [])] }) ∧
    (structEq liveButton freshButton = true ∧
      diffAndPatch formControl tagSelector (bodyOf [liveButton]) (some liveButton)
          (some freshButton) [] =
        .ok { parent := bodyOf [.element 1 "BUTTON" [("disabled", "")]
                { checked := false, disabled := true, selected := false } []]
              oldNode := some (.element 1 "BUTTON" [("disabled", "")]
                { checked := false, disabled := true, selected := false } [])
              log := [] }) :=
  ⟨⟨by decide, rfl⟩, by decide, rfl⟩

/-- C6, amended: for a live tree that is a child of the parent, a new tree structurally
identical to it, a preserve list that matches no node below the root of the live tree,
and no element of the live tree that reflects `disabled` and carries it with a non-empty
value, `diffAndPatch` makes no call of `setAttribute`, `removeAttribute`, `appendChild`,
`removeChild` or `replaceChild` and no text update, and the live tree is afterwards what
it was: every node in its place with its identity, attributes, text and children. -/
theorem diffAndPatch_identical_no_mutation (rf : String → Bool) (m : Node → String → Bool)
    (preserve : List String) (pid : Nat) (ptag : String) (pattrs : List (String × String))
    (pprops : Props) (pre post : List Node) (old new : Node)
    (hids : (Node.element pid ptag pattrs pprops (pre ++ old :: post)).ids.Nodup)
    (hs : structEq old new = true) (hu : new.attrsUnique = true)
    (hde : old.disabledEmpty rf = true)
    (hpres : ∀ k ∈ old.childNodes, ∀ x ∈ k.nodes, preserved m preserve x = false) :
    ∃ out x,
      diffAndPatch rf m (.element pid ptag pattrs pprops (pre ++ old :: post)) (some old)
        (some new) preserve = .ok out ∧
      out.log = [] ∧
      out.parent = .element pid ptag pattrs pprops (pre ++ x :: post) ∧
      out.oldNode = some x ∧ x.eraseProps = old.eraseProps := by
  have hlog := log_diffNode_nil rf m preserve old new pid hs hu hpres
  by_cases hp : preserved m preserve old = true
  · have hk : (diffNode rf m preserve pid old (some new)).1 = .keep ∨
        (diffNode rf m preserve pid old (some new)).1 = .untouched := by
      rcases diffNode_of_preserved rf m preserve pid old (some new) hp with h | h
      · exact Or.inl (by rw [h])
      · exact Or.inr (by rw [h])
    exact ⟨_, old, diffAndPatch_of_kept rf m preserve _ old (some new)
      (contains_child pid ptag pattrs pprops pre post old) hk, hlog, rfl, rfl, rfl⟩
  · rw [Bool.not_eq_true] at hp
    have hall : ∀ x ∈ old.nodes, preserved m preserve x = false := by
      intro x hx
      cases old with
      | text i d =>
        simp only [Node.nodes, List.mem_singleton] at hx
        exact hx ▸ hp
      | comment i d =>
        simp only [Node.nodes, List.mem_singleton] at hx
        exact hx ▸ hp
      | element i tag attrs props kids =>
        simp only [Node.nodes, List.mem_cons] at hx
        rcases hx with h | h
        · exact h ▸ hp
        · obtain ⟨k, hk, hxk⟩ := (mem_nodesList kids x).1 h
          exact hpres k hk x hxk
    obtain ⟨o1, h1, he⟩ := eraseProps_diffNode_identical rf m preserve old new pid hs hu hde hall
    exact ⟨_, o1, diffAndPatch_of_update rf m preserve pid ptag pattrs pprops pre post old
      (some new) o1 hids h1, hlog, rfl, rfl, he⟩

/-- Witness for the amended C6: the `div`/`span` tree against a copy of itself, with the
preserve list `['SCRIPT']`. -/
theorem diffAndPatch_identical_no_mutation_witness :
    (Node.element 0 "BODY" [] noProps ([] ++ liveDiv :: [])).ids.Nodup ∧
    structEq liveDiv (.element 21 "DIV" [("id", "a")] noProps
      [.element 22 "SPAN" [] noProps [.text 23 "old"]]) = true ∧
    liveDiv.disabledEmpty formControl = true ∧
    ∃ out x, diffAndPatch formControl tagSelector
        (.element 0 "BODY" [] noProps ([] ++ liveDiv :: [])) (some liveDiv)
        (some (.element 21 "DIV" [("id", "a")] noProps
          [.element 22 "SPAN" [] noProps [.text 23 "old"]])) ["SCRIPT"] = .ok out ∧
      out.log = [] ∧
      out.parent = .element 0 "BODY" [] noProps ([] ++ x :: []) ∧
      out.oldNode = some x ∧ x.eraseProps = liveDiv.eraseProps :=
  ⟨by decide, by decide, by decide,
    diffAndPatch_identical_no_mutation formControl tagSelector ["SCRIPT"] 0 "BODY" [] noProps
      [] [] liveDiv _ (by decide) (by decide) (by decide) (by decide) (by
        intro k hk x hx
        simp only [liveDiv, Node.childNodes, List.mem_singleton] at hk
        subst hk
        simp only [Node.nodes, Node.nodes.nodesList, List.append_nil, List.mem_cons,
          List.mem_singleton, List.not_mem_nil, or_false] at hx
        rcases hx with h | h <;> subst h <;> decide)⟩

/-- C7 as stated fails: with the preserve list `['P']`, reconciling
`<div><span><p></p></span></div>` against `<div><a></a></div>` replaces the `span`, and
the `p` below it, which matches the preserve list, leaves the live tree with it. -/
theorem diffAndPatch_preserved_descendant_detached :
    preserved tagSelector ["P"] (.element 3 "P" [] noProps []) = true ∧
    3 ∈ (bodyOf [liveNested]).ids ∧
    ∃ out, diffAndPatch formControl tagSelector (bodyOf [liveNested]) (some liveNested) (some freshLink)
        ["P"] = .ok out ∧
      out.parent = bodyOf [.element 1 "DIV" [] noProps [.element 12 "A" [] noProps []]] ∧
      3 ∉ out.parent.ids :=
  ⟨by decide, by decide, _, rfl, rfl, by decide⟩

/-- C7, amended: a node that matches a preserve selector is never itself the node that a
`removeChild` or `replaceChild` of `diffAndPatch` detaches, at any depth and with or
without a new node; an old node that matches and is held by the parent is left in place
and unchanged by any sequence of reconciliations; and a matching child of an element
that is updated in place is still a child of it afterwards. Nothing is promised for a
matching node below a node that is removed or replaced. -/
theorem diffAndPatch_preserved_never_detached :
    (∀ (rf : String → Bool) (m : Node → String → Bool) (preserve : List String) (parent : Node)
        (oldNode newNode : Option Node) (out : Outcome) (μ : Mutation) (c : Node),
      diffAndPatch rf m parent oldNode newNode preserve = .ok out → μ ∈ out.log →
      μ.detached = some c → preserved m preserve c = false) ∧
    (∀ (rf : String → Bool) (m : Node → String → Bool) (preserve : List String) (parent old : Node)
        (news : List (Option Node)),
      preserved m preserve old = true → parent.contains old = true →
      diffAndPatchAll rf m preserve parent old news =
        .ok { parent := parent, oldNode := some old, log := [] }) ∧
    (∀ (rf : String → Bool) (m : Node → String → Bool) (preserve : List String) (parent : Node) (i j : Nat)
        (tag : String) (A B : List (String × String)) (props newProps : Props)
        (kids newKids : List Node) (c : Node),
      preserved m preserve (.element i tag A props kids) = false → c ∈ kids →
      preserved m preserve c = true →
      ∃ out old1, diffAndPatch rf m parent (some (.element i tag A props kids))
          (some (.element j tag B newProps newKids)) preserve = .ok out ∧
        out.oldNode = some old1 ∧ old1.id = i ∧ c ∈ old1.childNodes) := by
  refine ⟨?_, ?_, ?_⟩
  · intro rf m preserve parent oldNode newNode out μ c hout hμ hd
    cases oldNode with
    | none =>
      cases newNode with
      | none => simp [diffAndPatch] at hout
      | some n =>
        simp only [diffAndPatch] at hout
        split at hout
        · simp only [Except.ok.injEq] at hout
          rw [← hout] at hμ
          simp only [List.mem_singleton] at hμ
          rw [hμ] at hd
          simp [Mutation.detached] at hd
        · simp at hout
    | some o =>
      have hlog : ∀ μ1 ∈ out.log, μ1 ∈ (diffNode rf m preserve parent.id o newNode).2 ∨
          μ1 = Mutation.appendChild parent.id o := by
        intro μ1 hμ1
        simp only [diffAndPatch] at hout
        split at hout
        · rename_i log heq
          split at hout
          · split at hout
            · simp only [Except.ok.injEq] at hout
              rw [← hout] at hμ1
              exact Or.inl (by rw [heq]; exact hμ1)
            · simp at hout
          · simp at hout
        · rename_i log heq
          simp only [Except.ok.injEq] at hout
          rw [← hout] at hμ1
          exact Or.inl (by rw [heq]; exact hμ1)
        · rename_i log heq
          split at hout
          · split at hout
            · simp only [Except.ok.injEq] at hout
              rw [← hout] at hμ1
              simp only [List.mem_append, List.mem_singleton] at hμ1
              rcases hμ1 with h | h
              · exact Or.inl (by rw [heq]; exact h)
              · exact Or.inr h
            · simp at hout
          · simp only [Except.ok.injEq] at hout
            rw [← hout] at hμ1
            exact Or.inl (by rw [heq]; exact hμ1)
        · rename_i n log heq
          split at hout
          · split at hout
            · simp only [Except.ok.injEq] at hout
              rw [← hout] at hμ1
              exact Or.inl (by rw [heq]; exact hμ1)
            · simp at hout
          · simp at hout
        · rename_i o1 log heq
          simp only [Except.ok.injEq] at hout
          rw [← hout] at hμ1
          exact Or.inl (by rw [heq]; exact hμ1)
      rcases hlog μ hμ with h | h
      · exact detached_diffNode rf m preserve o newNode parent.id μ c h hd
      · rw [h] at hd
        simp [Mutation.detached] at hd
  · intro rf m preserve parent old news hp hc
    induction news with
    | nil => rfl
    | cons n rest ih =>
      have hk : (diffNode rf m preserve parent.id old n).1 = .keep ∨
          (diffNode rf m preserve parent.id old n).1 = .untouched := by
        rcases diffNode_of_preserved rf m preserve parent.id old n hp with h | h
        · exact Or.inl (by rw [h])
        · exact Or.inr (by rw [h])
      have hlog : (diffNode rf m preserve parent.id old n).2 = [] := by
        rcases diffNode_of_preserved rf m preserve parent.id old n hp with h | h <;> rw [h]
      simp only [diffAndPatchAll, diffAndPatch_of_kept rf m preserve parent old n hc hk,
        Option.getD_some, ih, hlog, List.append_nil]
  · intro rf m preserve parent i j tag A B props newProps kids newKids c hp hc hpc
    have h := diffNode_element_same_tag rf m preserve parent.id i j tag A B props newProps kids
      newKids hp
    refine ⟨_, .element i tag (updatedAttrs rf i tag A B) (syncProps B)
        (diffChildren rf m preserve i kids newKids).1,
      diffAndPatch_of_update_anywhere rf m preserve parent _ _ _ (by rw [h]), rfl, rfl, ?_⟩
    exact mem_diffChildren_of_preserved rf m preserve i kids c hc hpc newKids

/-- Witness for the amended C7: a preserved `p` under `BODY` stays in place through a
reconciliation against a new tree and one against no new node. -/
theorem diffAndPatch_preserved_never_detached_witness :
    preserved tagSelector ["P"] (.element 3 "P" [] noProps []) = true ∧
    (bodyOf [.element 3 "P" [] noProps []]).contains (.element 3 "P" [] noProps []) = true ∧
    diffAndPatchAll formControl tagSelector ["P"] (bodyOf [.element 3 "P" [] noProps []])
      (.element 3 "P" [] noProps []) [some freshLink, none] =
      .ok { parent := bodyOf [.element 3 "P" [] noProps []]
            oldNode := some (.element 3 "P" [] noProps []), log := [] } :=
  ⟨by decide, by decide,
    diffAndPatch_preserved_never_detached.2.1 formControl tagSelector ["P"] _ _ _ (by decide) (by decide)⟩

/-- C8 as stated fails: reconciling `<div><!--old--></div>` against
`<div><!--new--></div>` pairs the two comments, which have the same category and name,
and the old comment keeps its own text: `diffAndPatch` has no branch for a comment. -/
theorem diffAndPatch_comment_keeps_text :
    pairedAt liveNote freshNote [0] = some (.comment 2 "old", .comment 12 "new") ∧
    diffAndPatch formControl tagSelector (bodyOf [liveNote]) (some liveNote) (some freshNote)
        [] =
      .ok { parent := bodyOf [.element 1 "DIV" [] noProps [.comment 2 "old"]]
            oldNode := some (.element 1 "DIV" [] noProps [.comment 2 "old"])
            log := [] } ∧
    (Node.comment 2 "old").data ≠ (Node.comment 12 "new").data :=
  ⟨rfl, rfl, by decide⟩

/-- C8, amended: for an old element that is a child of the parent and a new element of
the same tag, built apart from the parent (its nodes have pairwise different identities,
none of them in the parent), no node of the old tree being preserved, `diffAndPatch`
leaves at the old node's place in the parent a node of the same identity, every node is
in the parent once afterwards, and every old node paired positionally with a new node of the same category and name
along a path keeps its identity; an element of them binds every attribute name as the
new node does, except that `disabled` is bound to the empty string where the property
reflects and the new node has it; a text node carries the new text; a comment keeps its
own text. Over element and text nodes without a non-empty reflecting `disabled`, the
node ends structurally equal to the new node. -/
theorem diffAndPatch_in_place_keeps_identity (rf : String → Bool) (m : Node → String → Bool)
    (preserve : List String) (pid : Nat) (ptag : String) (pattrs : List (String × String))
    (pprops : Props) (pre post : List Node) (i j : Nat) (tag : String)
    (A B : List (String × String)) (props newProps : Props) (kids newKids : List Node)
    (hids : (Node.element pid ptag pattrs pprops
      (pre ++ Node.element i tag A props kids :: post)).ids.Nodup)
    (hapart : ∀ x ∈ (Node.element j tag B newProps newKids).ids,
      x ∉ (Node.element pid ptag pattrs pprops
        (pre ++ Node.element i tag A props kids :: post)).ids)
    (hnew : (Node.element j tag B newProps newKids).ids.Nodup)
    (hpres : ∀ x ∈ (Node.element i tag A props kids).nodes, preserved m preserve x = false)
    (hu : (Node.element j tag B newProps newKids).attrsUnique = true) :
    ∃ out old1,
      diffAndPatch rf m
        (.element pid ptag pattrs pprops (pre ++ .element i tag A props kids :: post))
        (some (.element i tag A props kids)) (some (.element j tag B newProps newKids))
        preserve = .ok out ∧
      out.oldNode = some old1 ∧
      out.parent = .element pid ptag pattrs pprops (pre ++ old1 :: post) ∧
      old1.id = i ∧ out.parent.ids.Nodup ∧
      ∀ (path : List Nat) (a b : Node),
        pairedAt (.element i tag A props kids) (.element j tag B newProps newKids) path
          = some (a, b) →
        ∃ x, old1.at? path = some x ∧ x.id = a.id ∧
          (∀ name, getAttribute x.attributes name =
            if rf b.nodeName && name == "disabled" && hasAttribute b.attributes "disabled"
            then some "" else getAttribute b.attributes name) ∧
          ((a.nodeType = 3 → x.data = b.data) ∧ (a.nodeType = 8 → x.data = a.data)) ∧
          (b.elementsAndText = true → b.disabledEmpty rf = true → structEq x b = true) := by
  have hp0 := hpres _ (Node.self_mem_nodes _)
  have h := diffNode_element_same_tag rf m preserve pid i j tag A B props newProps kids
    newKids hp0
  have h1 : (diffNode rf m preserve pid (.element i tag A props kids)
      (some (.element j tag B newProps newKids))).1 =
      .update (.element i tag (updatedAttrs rf i tag A B) (syncProps B)
        (diffChildren rf m preserve i kids newKids).1) := by rw [h]
  obtain ⟨hn1, hsub⟩ := ids_diffNode rf m preserve _ _ pid _ h1
    (nodup_old_new pid ptag pattrs pprops pre post _ _ hids hapart hnew)
  refine ⟨_, _, diffAndPatch_of_update rf m preserve pid ptag pattrs pprops pre post _ _ _ hids h1,
    rfl, rfl, rfl,
    nodup_ids_child pid ptag pattrs pprops pre post _ _ _ hids hapart hn1 hsub,
    fun path a b hpair => ?_⟩
  obtain ⟨o1, x, ho1, hat, hrest⟩ := at_diffNode_of_pairedAt rf m preserve path _ _ a b pid hpair
    hpres hu
  rw [h1] at ho1
  cases ho1
  exact ⟨x, hat, hrest⟩

/-- Witness for the amended C8: `<div id="a"><span>old</span></div>` against
`<div id="b"><span>new</span></div>` keeps the `div`, the `span` and the text node, with
`id` now `b` and the text now `new`. -/
theorem diffAndPatch_in_place_keeps_identity_witness :
    (bodyOf [liveDiv]).ids.Nodup ∧ (∀ x ∈ freshDiv.ids, x ∉ (bodyOf [liveDiv]).ids) ∧
    freshDiv.ids.Nodup ∧ freshDiv.attrsUnique = true ∧
    diffAndPatch formControl tagSelector (bodyOf [liveDiv]) (some liveDiv) (some freshDiv) [] =
      .ok { parent := bodyOf [.element 1 "DIV" [("id", "b")] noProps
              [.element 2 "SPAN" [] noProps [.text 3 "new"]]]
            oldNode := some (.element 1 "DIV" [("id", "b")] noProps
              [.element 2 "SPAN" [] noProps [.text 3 "new"]])
            log := [.setAttribute 1 "id" "b", .setText 3 "new"] } ∧
    ∃ out old1,
      diffAndPatch formControl tagSelector (bodyOf [liveDiv]) (some liveDiv) (some freshDiv) []
        = .ok out ∧
      out.oldNode = some old1 ∧
      out.parent = bodyOf ([] ++ old1 :: []) ∧
      old1.id = 1 ∧ out.parent.ids.Nodup ∧
      ∀ (path : List Nat) (a b : Node), pairedAt liveDiv freshDiv path = some (a, b) →
        ∃ x, old1.at? path = some x ∧ x.id = a.id ∧
          (∀ name, getAttribute x.attributes name =
            if formControl b.nodeName && name == "disabled" &&
              hasAttribute b.attributes "disabled"
            then some "" else getAttribute b.attributes name) ∧
          ((a.nodeType = 3 → x.data = b.data) ∧ (a.nodeType = 8 → x.data = a.data)) ∧
          (b.elementsAndText = true → b.disabledEmpty formControl = true →
            structEq x b = true) :=
  ⟨by decide, by decide, by decide, by decide, rfl,
    diffAndPatch_in_place_keeps_identity formControl tagSelector [] 0 "BODY" [] noProps [] []
      1 11 "DIV" [("id", "a")] [("id", "b")] noProps noProps
      [.element 2 "SPAN" [] noProps [.text 3 "old"]]
      [.element 12 "SPAN" [] noProps [.text 13 "new"]]
      (by decide) (by decide) (by decide) (fun x _ => preserved_nil tagSelector x)
      (by decide)⟩

/-- C9 as stated fails: reconciling `<div><a/><b/><c/></div>` against `<div><a/><c/></div>`
leaves the children of identities 2 and 14, the old `a` and the new `c`; the old `c`, of
identity 4, is removed and the old `b` is replaced. -/
theorem diffAndPatch_ABC_AC_keeps_new_C :
    ∃ out old1,
      diffAndPatch formControl tagSelector (bodyOf [liveABC]) (some liveABC) (some freshAC) [] = .ok out ∧
      out.oldNode = some old1 ∧
      old1.childNodes.map Node.id = [2, 14] ∧
      old1.childNodes.map Node.id ≠ [2, 4] ∧
      out.log = [.replaceChild 1 (.element 14 "C" [] noProps []) (.element 3 "B" [] noProps []),
        .removeChild 1 (.element 4 "C" [] noProps [])] :=
  ⟨_, _, rfl, rfl, by decide, by decide, rfl⟩

/-- C9, amended: for element children of tags A, B, C with B different from C and no
preserve selectors, reconciling an old element with children `[A, B, C]` against a new
element with children `[A, C]` replaces the old B node by the new C node and removes the
old C node: two children remain, the original old A node, updated in place, and the new
tree's C node. -/
theorem diffAndPatch_ABC_AC_positional (rf : String → Bool) (m : Node → String → Bool) (parent : Node)
    (i j : Nat) (tag : String) (attrs newAttrs : List (String × String))
    (props newProps : Props)
    (ia ib ic ja jc : Nat) (ta tb tc : String)
    (aa ab ac na nc : List (String × String)) (pa pb pc qa qc : Props)
    (ka kb kc la lc : List Node) (hbc : tb ≠ tc) :
    ∃ out old1 a1,
      diffAndPatch rf m parent
        (some (.element i tag attrs props
          [.element ia ta aa pa ka, .element ib tb ab pb kb, .element ic tc ac pc kc]))
        (some (.element j tag newAttrs newProps
          [.element ja ta na qa la, .element jc tc nc qc lc])) [] = .ok out ∧
      out.oldNode = some old1 ∧ old1.id = i ∧
      old1.childNodes = [a1, .element jc tc nc qc lc] ∧ a1.id = ia ∧
      Mutation.replaceChild i (.element jc tc nc qc lc) (.element ib tb ab pb kb) ∈ out.log ∧
      Mutation.removeChild i (.element ic tc ac pc kc) ∈ out.log := by
  have h := diffNode_element_same_tag rf m [] parent.id i j tag attrs newAttrs props newProps
    [.element ia ta aa pa ka, .element ib tb ab pb kb, .element ic tc ac pc kc]
    [.element ja ta na qa la, .element jc tc nc qc lc] (preserved_nil m _)
  have ha := diffNode_element_same_tag rf m [] i ia ja ta aa na pa qa ka la (preserved_nil m _)
  have hkids : diffChildren rf m [] i
      [.element ia ta aa pa ka, .element ib tb ab pb kb, .element ic tc ac pc kc]
      [.element ja ta na qa la, .element jc tc nc qc lc] =
      ([.element ia ta (updatedAttrs rf ia ta aa na) (syncProps na) (diffChildren rf m [] ia ka la).1,
          .element jc tc nc qc lc],
        ((patchAttrs ia aa na).2 ++ (diffChildren rf m [] ia ka la).2) ++
          [.replaceChild i (.element jc tc nc qc lc) (.element ib tb ab pb kb),
            .removeChild i (.element ic tc ac pc kc)]) := by
    simp [diffChildren, preserved_nil, Node.nodeType, Node.nodeName, ha, Effect.slot, hbc]
  refine ⟨_, .element i tag (updatedAttrs rf i tag attrs newAttrs) (syncProps newAttrs)
      (diffChildren rf m [] i _ _).1,
    .element ia ta (updatedAttrs rf ia ta aa na) (syncProps na) (diffChildren rf m [] ia ka la).1,
    diffAndPatch_of_update_anywhere rf m [] parent _ _ _ (by rw [h]), rfl, rfl, ?_, ?_, ?_, ?_⟩
  · simp only [Node.childNodes, hkids]
  · rfl
  · rw [h, hkids]
    simp
  · rw [h, hkids]
    simp

/-- Witness for the amended C9: tags `A`, `B`, `C` with empty children. -/
theorem diffAndPatch_ABC_AC_positional_witness :
    ("B" : String) ≠ "C" ∧
    ∃ out old1 a1,
      diffAndPatch formControl tagSelector (bodyOf [liveABC]) (some liveABC) (some freshAC) [] = .ok out ∧
      out.oldNode = some old1 ∧ old1.id = 1 ∧
      old1.childNodes = [a1, .element 14 "C" [] noProps []] ∧ a1.id = 2 ∧
      Mutation.replaceChild 1 (.element 14 "C" [] noProps []) (.element 3 "B" [] noProps [])
        ∈ out.log ∧
      Mutation.removeChild 1 (.element 4 "C" [] noProps []) ∈ out.log :=
  ⟨by decide,
    diffAndPatch_ABC_AC_positional formControl tagSelector (bodyOf [liveABC]) 1 11 "DIV" [] [] noProps
      noProps 2 3 4 12 14 "A" "B" "C" [] [] [] [] [] noProps noProps noProps noProps noProps
      [] [] [] [] [] (by decide)⟩

/-- C10 as stated fails: on the platform of HTML, `<input>` under `BODY` reconciled
against `<input disabled="disabled">` ends with `disabled` bound to the empty string, so
the node at the old node's place is not structurally equal to the new node. -/
theorem diffAndPatch_postcondition_fails_on_disabled :
    (bodyOf [liveInput]).ids.Nodup ∧
    freshDisabledInput.attrsUnique = true ∧ freshDisabledInput.elementsAndText = true ∧
    diffAndPatch formControl tagSelector (bodyOf [liveInput]) (some liveInput)
        (some freshDisabledInput) [] =
      .ok { parent := bodyOf [.element 1 "INPUT" [("disabled", "")]
              { checked := false, disabled := true, selected := false } []]
            oldNode := some (.element 1 "INPUT" [("disabled", "")]
              { checked := false, disabled := true, selected := false } [])
            log := [.setAttribute 1 "disabled" "disabled"] } ∧
    structEq (.element 1 "INPUT" [("disabled", "")]
      { checked := false, disabled := true, selected := false } []) freshDisabledInput
      = false :=
  ⟨by decide, by decide, by decide, rfl, by decide⟩

/-- C10, amended: for a parent whose nodes have pairwise different identities, an old
node that is a child of it, a new tree built apart from the parent (its nodes have
pairwise different identities, none of them in the parent), of element and text
nodes with pairwise different attribute names on each element and no non-empty
`disabled` on an element that reflects it, and an empty preserve list, `diffAndPatch`
returns, the node at the old node's place in the parent is structurally equal to the new
tree, the other children of the parent are as before, and the nodes of the parent still
have pairwise different identities: each node is in the tree once. -/
theorem diffAndPatch_postcondition (rf : String → Bool) (m : Node → String → Bool) (pid : Nat)
    (ptag : String)
    (pattrs : List (String × String)) (pprops : Props) (pre post : List Node)
    (old new : Node)
    (hids : (Node.element pid ptag pattrs pprops (pre ++ old :: post)).ids.Nodup)
    (hapart : ∀ x ∈ new.ids,
      x ∉ (Node.element pid ptag pattrs pprops (pre ++ old :: post)).ids)
    (hnew : new.ids.Nodup)
    (hu : new.attrsUnique = true) (he : new.elementsAndText = true)
    (hde : new.disabledEmpty rf = true) :
    ∃ out x,
      diffAndPatch rf m (.element pid ptag pattrs pprops (pre ++ old :: post)) (some old)
        (some new) [] = .ok out ∧
      out.parent = .element pid ptag pattrs pprops (pre ++ x :: post) ∧
      structEq x new = true ∧ out.parent.ids.Nodup := by
  by_cases hkind : (old.nodeType == new.nodeType && old.nodeName == new.nodeName) = true
  · obtain ⟨o1, h1, hs⟩ := structEq_diffNode rf m [] old new pid
      (fun x _ => preserved_nil m x) hkind hu he hde
    obtain ⟨hn1, hsub⟩ := ids_diffNode rf m [] old new pid o1 h1
      (nodup_old_new pid ptag pattrs pprops pre post old new hids hapart hnew)
    exact ⟨_, o1, diffAndPatch_of_update rf m [] pid ptag pattrs pprops pre post old (some new) o1
      hids h1, rfl, hs,
      nodup_ids_child pid ptag pattrs pprops pre post old o1 new hids hapart hn1 hsub⟩
  · have hr : (diffNode rf m [] pid old (some new)).1 = .replace new := by
      have hk : (old.nodeType != new.nodeType || old.nodeName != new.nodeName) = true := by
        cases h1 : (old.nodeType == new.nodeType) <;> cases h2 : (old.nodeName == new.nodeName)
          <;> simp_all [bne]
      cases old with
      | text a b =>
        rw [diffNode]
        simp only [preserved_nil, Bool.false_eq_true, if_false, hk, if_true]
      | comment a b =>
        rw [diffNode]
        simp only [preserved_nil, Bool.false_eq_true, if_false, hk, if_true]
      | element a b c d e =>
        rw [diffNode]
        simp only [preserved_nil, Bool.false_eq_true, if_false, hk, if_true]
    exact ⟨_, new, diffAndPatch_of_replace rf m [] pid ptag pattrs pprops pre post old (some new)
      new hids hr, rfl, structEq_refl new,
      nodup_ids_child pid ptag pattrs pprops pre post old new new hids hapart hnew
        (fun y hy => Or.inr hy)⟩

/-- Witness for the amended C10: the `div`/`span` trees under a `BODY` with a sibling
before and one after the old node. -/
theorem diffAndPatch_postcondition_witness :
    (Node.element 0 "BODY" [] noProps
      ([Node.text 7 "before"] ++ liveDiv :: [Node.text 8 "after"])).ids.Nodup ∧
    (∀ x ∈ freshDiv.ids, x ∉ (Node.element 0 "BODY" [] noProps
      ([Node.text 7 "before"] ++ liveDiv :: [Node.text 8 "after"])).ids) ∧
    freshDiv.ids.Nodup ∧
    freshDiv.attrsUnique = true ∧ freshDiv.elementsAndText = true ∧
    freshDiv.disabledEmpty formControl = true ∧
    ∃ out x,
      diffAndPatch formControl tagSelector (.element 0 "BODY" [] noProps
        ([Node.text 7 "before"] ++ liveDiv :: [Node.text 8 "after"])) (some liveDiv)
        (some freshDiv) [] = .ok out ∧
      out.parent = .element 0 "BODY" [] noProps
        ([Node.text 7 "before"] ++ x :: [Node.text 8 "after"]) ∧
      structEq x freshDiv = true ∧ out.parent.ids.Nodup :=
  ⟨by decide, by decide, by decide, by decide, by decide, by decide,
    diffAndPatch_postcondition formControl tagSelector 0 "BODY" [] noProps
      [Node.text 7 "before"]
      [Node.text 8 "after"] liveDiv freshDiv (by decide) (by decide) (by decide) (by decide)
      (by decide) (by decide)⟩

/-! ## Query strings and the matcher -/

theorem split_ne_nil (sep : Char) (s : Str) : split sep s ≠ [] := by
  cases s with
  | nil => simp [split]
  | cons c cs =>
    unfold split
    split
    · simp
    · split <;> simp

/-- Splitting a concatenation: the last piece of the left text and the first piece of
the right text join, the other pieces stay. -/
theorem split_append (sep : Char) (a b : Str) :
    split sep (a ++ b) =
      (split sep a).dropLast ++
        (((split sep a).getLastD [] ++ (split sep b).headD []) :: (split sep b).tail) := by
  induction a with
  | nil =>
    have hb := split_ne_nil sep b
    cases hsb : split sep b with
    | nil => exact absurd hsb hb
    | cons h t => simp [split, hsb]
  | cons c cs ih =>
    have hcs := split_ne_nil sep cs
    cases hs : split sep cs with
    | nil => exact absurd hs hcs
    | cons seg rest =>
      rw [hs] at ih
      by_cases hc : c = sep
      · have h1 : split sep (c :: cs) = [] :: seg :: rest := by simp [split, hc, hs]
        have h2 : split sep (c :: cs ++ b) = [] :: split sep (cs ++ b) := by
          simp [split, hc]
        rw [h1, h2, ih]
        cases rest with
        | nil => simp
        | cons r rs => simp [List.getLastD_cons]
      · have h1 : split sep (c :: cs) = (c :: seg) :: rest := by simp [split, hc, hs]
        rw [h1]
        cases rest with
        | nil =>
          have h2 : split sep (c :: cs ++ b) =
              (c :: (seg ++ (split sep b).headD [])) :: (split sep b).tail := by
            have h3 : split sep (c :: (cs ++ b)) =
                (match split sep (cs ++ b) with
                  | [] => [[c]]
                  | seg :: rest => (c :: seg) :: rest) := by simp [split, hc]
            rw [List.cons_append, h3, ih]
            simp
          rw [h2]
          simp
        | cons r rs =>
          have h2 : split sep (c :: cs ++ b) =
              (c :: seg) :: ((r :: rs).dropLast ++
                (((r :: rs).getLastD [] ++ (split sep b).headD []) :: (split sep b).tail)) := by
            have h3 : split sep (c :: (cs ++ b)) =
                (match split sep (cs ++ b) with
                  | [] => [[c]]
                  | seg :: rest => (c :: seg) :: rest) := by simp [split, hc]
            rw [List.cons_append, h3, ih]
            simp [List.getLastD_cons]
          rw [h2]
          simp [List.getLastD_cons]

theorem routeTest_eq_true_iff (p u : Str) :
    routeTest p u = true ↔
      (split '/' p).length = (split '/' u).length ∧
      ∀ (i : Nat) (seg : Str), (split '/' p)[i]? = some seg → startsWith seg ':' = false →
        (split '/' u)[i]? = some seg := by
  unfold routeTest every
  rw [Bool.and_eq_true, everyFrom_iff, beq_iff_eq]
  constructor
  · rintro ⟨hlen, hall⟩
    refine ⟨hlen, fun i seg hseg hlit => ?_⟩
    have := hall i seg hseg
    simpa [hlit] using this
  · rintro ⟨hlen, hall⟩
    refine ⟨hlen, fun i seg hseg => ?_⟩
    cases hlit : startsWith seg ':' with
    | true => simp
    | false => simpa using hall i seg hseg hlit

theorem split_query_head (q : Str) :
    ∃ h t, split '/' ('?' :: q) = ('?' :: h) :: t := by
  have hq := split_ne_nil '/' q
  cases hs : split '/' q with
  | nil => exact absurd hs hq
  | cons h t => exact ⟨h, t, by simp [split, hs]⟩

theorem beforeQuery_append (s q : Str) (hs : '?' ∉ s) :
    beforeQuery (s ++ '?' :: q) = s := by
  unfold beforeQuery
  induction s with
  | nil => simp [split]
  | cons c cs ih =>
    simp only [List.mem_cons, not_or] at hs
    have hc : c ≠ '?' := fun h => hs.1 h.symm
    have hne := split_ne_nil '?' (cs ++ '?' :: q)
    cases hsp : split '?' (cs ++ '?' :: q) with
    | nil => exact absurd hsp hne
    | cons h t =>
      have := ih hs.2
      rw [hsp] at this
      simp only [List.headD_cons] at this
      simp [split, hc, hsp, this]

/-- C19: for a pattern whose last segment does not start with `:` and a path that the
pattern matches, the per-route test of `onMATCH` rejects the pattern for the path
followed by `?` and any query text, the URL being split on `/` with the query still on
it; this although `onPARAMS` cuts a segment at its `?`, and `onURL` in history mode
hands over the path with `location.search` appended. -/
theorem routeTest_rejects_query (p w q : Str)
    (hlit : ∀ seg, (split '/' p).getLast? = some seg → startsWith seg ':' = false)
    (hmatch : routeTest p w = true) :
    routeTest p (w ++ '?' :: q) = false ∧
    (∀ seg : Str, '?' ∉ seg → beforeQuery (seg ++ '?' :: q) = seg) ∧
    (∀ pathname search hash : Str,
      onURL "history".toList pathname search hash = pathname ++ search) := by
  refine ⟨?_, fun seg hseg => beforeQuery_append seg q hseg, fun _ _ _ => by simp [onURL]⟩
  rw [← Bool.not_eq_true]
  intro hu
  rw [routeTest_eq_true_iff] at hmatch hu
  obtain ⟨hlenW, hallW⟩ := hmatch
  obtain ⟨hlenU, hallU⟩ := hu
  have hP := split_ne_nil '/' p
  have hPlen : 0 < (split '/' p).length := List.length_pos.2 hP
  obtain ⟨hq, tq, hsq⟩ := split_query_head q
  obtain ⟨plast, hplast⟩ : ∃ s, (split '/' p).getLast? = some s := by
    cases h : (split '/' p).getLast? with
    | none => exact absurd (List.getLast?_eq_none_iff.1 h) hP
    | some s => exact ⟨s, rfl⟩
  have hlit1 := hlit plast hplast
  rw [List.getLast?_eq_getElem?] at hplast
  have hW := hallW _ _ hplast hlit1
  have hU := hallU _ _ hplast hlit1
  have hWlast : (split '/' w).getLastD [] = plast := by
    rw [List.getLastD_eq_getLast?, List.getLast?_eq_getElem?, ← hlenW, hW]
    rfl
  rw [split_append, hsq, hWlast] at hU
  simp only [List.headD_cons, List.tail_cons] at hU
  have hdl : (split '/' w).dropLast.length = (split '/' p).length - 1 := by
    rw [List.length_dropLast, hlenW]
  rw [← hdl, List.getElem?_append_right (Nat.le_refl _)] at hU
  simp at hU

/-- Witness for C19: the pattern `/users/new` matches `/users/new` and is rejected for
`/users/new?tab=1`. -/
theorem routeTest_rejects_query_witness :
    routeTest "/users/new".toList "/users/new".toList = true ∧
    routeTest "/users/new".toList ("/users/new".toList ++ '?' :: "tab=1".toList) = false ∧
    (∀ seg : Str, '?' ∉ seg → beforeQuery (seg ++ '?' :: "tab=1".toList) = seg) ∧
    (∀ pathname search hash : Str,
      onURL "history".toList pathname search hash = pathname ++ search) :=
  ⟨by decide, routeTest_rejects_query "/users/new".toList "/users/new".toList "tab=1".toList
    (by decide) (by decide)⟩

/-! ## The resolver: lemmas -/

mutual
/-- The promise returned by `onAFFIX` is never rejected. -/
theorem onAFFIX_normal : ∀ (value : Affix) (PARAMS : Obj),
    ∃ v, (onAFFIX value PARAMS).1 = .normal v
  | .undefined, _ => ⟨.undefined, by simp [onAFFIX]⟩
  | .null, _ => ⟨.null, by simp [onAFFIX]⟩
  | .bool b, _ => ⟨.bool b, by simp [onAFFIX]⟩
  | .num n, _ => ⟨.num n, by simp [onAFFIX]⟩
  | .str s, _ => ⟨.str s, by simp [onAFFIX]⟩
  | .element i, _ => ⟨.element i, by simp [onAFFIX]⟩
  | .callable call, PARAMS => by
    rw [onAFFIX]
    exact afterAwait_normal (call PARAMS) PARAMS
  | .promise settled, PARAMS => by
    rw [onAFFIX]
    exact afterAwait_normal settled PARAMS
  | .array items, PARAMS => by
    rw [onAFFIX]
    split <;> exact ⟨_, rfl⟩
  | .object props, PARAMS => by
    rw [onAFFIX]
    split <;> exact ⟨_, rfl⟩
theorem afterAwait_normal : ∀ (settled : Completion) (PARAMS : Obj),
    ∃ v, (afterAwait settled PARAMS).1 = .normal v
  | .abrupt _, _ => ⟨_, by rw [afterAwait]⟩
  | .normal value, PARAMS => by
    rw [afterAwait]
    exact onAFFIX_normal value PARAMS
end

theorem onAFFIX_fst_eq (value : Affix) (PARAMS : Obj) :
    (onAFFIX value PARAMS).1 = .normal (resolution value PARAMS) := by
  obtain ⟨v, hv⟩ := onAFFIX_normal value PARAMS
  simp [resolution, hv]

/-- The array loop ends normally, with every element replaced by its resolution. -/
theorem resolveItems_fst (items : List Affix) (PARAMS : Obj) :
    (resolveItems items PARAMS).1 = .ok (items.map (fun x => resolution x PARAMS)) := by
  induction items with
  | nil => simp [resolveItems]
  | cons x rest ih =>
    have hx := onAFFIX_fst_eq x PARAMS
    rw [resolveItems]
    cases hr : onAFFIX x PARAMS with
    | mk c log =>
      rw [hr] at hx
      simp only at hx
      subst hx
      cases hrest : resolveItems rest PARAMS with
      | mk r log2 =>
        rw [hrest] at ih
        simp only at ih
        subst ih
        simp

/-- The errors logged while resolving an element are logged by the array loop. -/
theorem resolveItems_log (items : List Affix) (PARAMS : Obj) (x : Affix) (e : Err)
    (hx : x ∈ items) (he : e ∈ (onAFFIX x PARAMS).2) : e ∈ (resolveItems items PARAMS).2 := by
  induction items with
  | nil => simp at hx
  | cons y rest ih =>
    have hy := onAFFIX_fst_eq y PARAMS
    have hrest := resolveItems_fst rest PARAMS
    rw [resolveItems]
    cases hr : onAFFIX y PARAMS with
    | mk c log =>
      rw [hr] at hy
      simp only at hy
      subst hy
      cases hrs : resolveItems rest PARAMS with
      | mk r log2 =>
        rw [hrs] at hrest
        simp only at hrest
        subst hrest
        simp only [List.mem_append]
        rcases List.mem_cons.1 hx with h | h
        · subst h
          rw [hr] at he
          exact Or.inl he
        · have := ih h
          rw [hrs] at this
          exact Or.inr this

/-- The object loop ends normally, with `RESULT` assigned key by key. -/
theorem resolveProps_fst (props : List (String × Affix)) (PARAMS : Obj)
    (result : List (String × Affix)) :
    (resolveProps props PARAMS result).1 =
      .ok (props.foldl (fun r kv => setProp r kv.1 (resolution kv.2 PARAMS)) result) := by
  induction props generalizing result with
  | nil => simp [resolveProps]
  | cons kv rest ih =>
    obtain ⟨k, x⟩ := kv
    have hx := onAFFIX_fst_eq x PARAMS
    rw [resolveProps]
    cases hr : onAFFIX x PARAMS with
    | mk c log =>
      rw [hr] at hx
      simp only at hx
      subst hx
      simp only [List.foldl_cons]
      exact ih _

theorem resolveProps_log (props : List (String × Affix)) (PARAMS : Obj)
    (result : List (String × Affix)) (k : String) (x : Affix) (e : Err)
    (hx : (k, x) ∈ props) (he : e ∈ (onAFFIX x PARAMS).2) :
    e ∈ (resolveProps props PARAMS result).2 := by
  induction props generalizing result with
  | nil => simp at hx
  | cons kv rest ih =>
    obtain ⟨k1, y⟩ := kv
    have hy := onAFFIX_fst_eq y PARAMS
    rw [resolveProps]
    cases hr : onAFFIX y PARAMS with
    | mk c log =>
      rw [hr] at hy
      simp only at hy
      subst hy
      simp only [List.mem_append]
      rcases List.mem_cons.1 hx with h | h
      · cases h
        rw [hr] at he
        exact Or.inl he
      · exact Or.inr (ih _ h)

theorem setProp_append (result : List (String × Affix)) (key : String) (value : Affix)
    (hproto : key ≠ "__proto__") (hnew : key ∉ result.map Prod.fst) :
    setProp result key value = result ++ [(key, value)] := by
  induction result with
  | nil => simp [setProp, hproto]
  | cons kv rest ih =>
    obtain ⟨k, v⟩ := kv
    simp only [List.map_cons, List.mem_cons, not_or] at hnew
    have hk : k ≠ key := fun h => hnew.1 h.symm
    simp [setProp, hproto, hk, ih hnew.2]

/-- With pairwise different keys, none of them `__proto__`, the assignments of the
object loop rebuild the property list key by key, in order. -/
theorem foldl_setProp_eq_map (props result : List (String × Affix)) (f : Affix → Affix)
    (hnd : ((result ++ props).map Prod.fst).Nodup)
    (hproto : ∀ kv ∈ props, kv.1 ≠ "__proto__") :
    props.foldl (fun r kv => setProp r kv.1 (f kv.2)) result =
      result ++ props.map (fun kv => (kv.1, f kv.2)) := by
  induction props generalizing result with
  | nil => simp
  | cons kv rest ih =>
    obtain ⟨k, x⟩ := kv
    have hk : k ∉ result.map Prod.fst := by
      intro hmem
      rw [List.map_append, List.nodup_append] at hnd
      exact hnd.2.2 hmem (by simp)
    rw [List.foldl_cons, setProp_append result k (f x) (hproto (k, x) (List.mem_cons_self _ _)) hk]
    rw [ih (result ++ [(k, f x)]) (by simpa [List.map_append] using hnd)
      (fun kv hkv => hproto kv (List.mem_cons_of_mem _ hkv))]
    simp

theorem onAFFIX_array (items : List Affix) (PARAMS : Obj) :
    (onAFFIX (.array items) PARAMS).1 =
      .normal (.array (items.map (fun x => resolution x PARAMS))) := by
  have h := resolveItems_fst items PARAMS
  rw [onAFFIX]
  cases hr : resolveItems items PARAMS with
  | mk r log =>
    rw [hr] at h
    simp only at h
    subst h
    rfl

theorem onAFFIX_object (props : List (String × Affix)) (PARAMS : Obj) :
    (onAFFIX (.object props) PARAMS).1 =
      .normal (.object (props.foldl
        (fun r kv => setProp r kv.1 (resolution kv.2 PARAMS)) [])) := by
  have h := resolveProps_fst props PARAMS []
  rw [onAFFIX]
  cases hr : resolveProps props PARAMS [] with
  | mk r log =>
    rw [hr] at h
    simp only at h
    subst h
    rfl

theorem onAFFIX_of_failsWith (x : Affix) (PARAMS : Obj) (e : Err)
    (h : failsWith x PARAMS e) : onAFFIX x PARAMS = (.normal .undefined, [e]) := by
  rcases h with h | ⟨call, h, hc⟩
  · subst h
    rw [onAFFIX, afterAwait]
  · subst h
    rw [onAFFIX, hc, afterAwait]

/-! ## The resolver: the specification's properties -/

/-- C15 fails on the code at a mapping with an own key `__proto__`: the resolved mapping
has the key `a` only, where the claim has both keys, `__proto__` bound to `x`. -/
theorem onAFFIX_drops_proto_key :
    onAFFIX (.object [("__proto__", .str "x"), ("a", .num 1)]) [] =
      (.normal (.object [("a", .num 1)]), []) ∧
    Affix.object [("a", .num 1)] ≠
      Affix.object ([("__proto__", Affix.str "x"), ("a", Affix.num 1)].map
        (fun kv => (kv.1, resolution kv.2 []))) := by
  refine ⟨rfl, ?_⟩
  intro h
  simp at h

/-- C16: the promise returned by `onAFFIX` is never rejected, whatever the value and
the parameters; a promise that rejects, a callable that throws and a callable that
returns a rejecting promise all make the call log the error and resolve to `undefined`. -/
theorem onAFFIX_contains_failures :
    (∀ (value : Affix) (PARAMS : Obj), ∃ v, (onAFFIX value PARAMS).1 = .normal v) ∧
    (∀ (e : Err) (PARAMS : Obj),
      onAFFIX (.promise (.abrupt e)) PARAMS = (.normal .undefined, [e])) ∧
    (∀ (call : Obj → Completion) (e : Err) (PARAMS : Obj), call PARAMS = .abrupt e →
      onAFFIX (.callable call) PARAMS = (.normal .undefined, [e])) ∧
    (∀ (call : Obj → Completion) (e : Err) (PARAMS : Obj),
      call PARAMS = .normal (.promise (.abrupt e)) →
      onAFFIX (.callable call) PARAMS = (.normal .undefined, [e])) := by
  refine ⟨onAFFIX_normal, fun e PARAMS => ?_, fun call e PARAMS h => ?_,
    fun call e PARAMS h => ?_⟩
  · rw [onAFFIX, afterAwait]
  · rw [onAFFIX, h, afterAwait]
  · rw [onAFFIX, h, afterAwait, onAFFIX, afterAwait]

/-- C17 as stated fails: an array whose first element is a callable that throws and
whose second is a callable that returns `x` resolves to the array `[undefined, 'x']`,
not to `undefined`, and the second element is resolved. -/
theorem onAFFIX_failing_element_not_fatal :
    failsWith (.callable (fun _ => .abrupt "boom")) [] "boom" ∧
    onAFFIX (.array [.callable (fun _ => .abrupt "boom"),
        .callable (fun _ => .normal (.str "x"))]) [] =
      (.normal (.array [.undefined, .str "x"]), ["boom"]) :=
  ⟨Or.inr ⟨_, rfl, rfl⟩, rfl⟩

/-- C17, amended: a failure of one element of a composite is caught by the recursive
call on that element, which logs it and resolves to `undefined`: the composite resolves
to a composite of the same kind in which the failing element's place holds `undefined`
and every other element, those after it included, holds its resolution (for a mapping:
with pairwise different keys, none of them `__proto__`). -/
theorem onAFFIX_composite_keeps_shape_on_failure (x : Affix) (PARAMS : Obj) (e : Err)
    (hfail : failsWith x PARAMS e) :
    (∀ pre post : List Affix,
      (onAFFIX (.array (pre ++ x :: post)) PARAMS).1 =
        .normal (.array (pre.map (fun y => resolution y PARAMS) ++
          .undefined :: post.map (fun y => resolution y PARAMS))) ∧
      e ∈ (onAFFIX (.array (pre ++ x :: post)) PARAMS).2) ∧
    (∀ (pre post : List (String × Affix)) (key : String),
      ((pre ++ (key, x) :: post).map Prod.fst).Nodup →
      (∀ kv ∈ pre ++ (key, x) :: post, kv.1 ≠ "__proto__") →
      (onAFFIX (.object (pre ++ (key, x) :: post)) PARAMS).1 =
        .normal (.object (pre.map (fun kv => (kv.1, resolution kv.2 PARAMS)) ++
          (key, .undefined) :: post.map (fun kv => (kv.1, resolution kv.2 PARAMS)))) ∧
      e ∈ (onAFFIX (.object (pre ++ (key, x) :: post)) PARAMS).2) := by
  have hx := onAFFIX_of_failsWith x PARAMS e hfail
  have hres : resolution x PARAMS = .undefined := by simp [resolution, hx]
  have hlog : e ∈ (onAFFIX x PARAMS).2 := by simp [hx]
  refine ⟨fun pre post => ⟨?_, ?_⟩, fun pre post key hnd hproto => ⟨?_, ?_⟩⟩
  · rw [onAFFIX_array]
    simp [hres]
  · have h := resolveItems_log (pre ++ x :: post) PARAMS x e (by simp) hlog
    rw [onAFFIX]
    split
    · rename_i heq
      rw [heq] at h
      exact h
    · rename_i heq
      rw [heq] at h
      exact List.mem_append_left _ h
  · rw [onAFFIX_object, foldl_setProp_eq_map _ [] (fun y => resolution y PARAMS)
      (by simpa using hnd) hproto]
    simp [hres]
  · have h := resolveProps_log (pre ++ (key, x) :: post) PARAMS [] key x e (by simp) hlog
    rw [onAFFIX]
    split
    · rename_i heq
      rw [heq] at h
      exact h
    · rename_i heq
      rw [heq] at h
      exact List.mem_append_left _ h

/-- Witness for the amended C17: a mapping whose `b` is a rejecting promise, between a
literal and a callable. -/
theorem onAFFIX_composite_keeps_shape_on_failure_witness :
    failsWith (.promise (.abrupt "gone")) [] "gone" ∧
    (onAFFIX (.object ([("a", .num 1)] ++ ("b", .promise (.abrupt "gone")) ::
        [("c", .callable (fun _ => .normal (.str "x")))])) []).1 =
      .normal (.object ([("a", Affix.num 1)].map (fun kv => (kv.1, resolution kv.2 [])) ++
        ("b", .undefined) ::
          [("c", Affix.callable (fun _ => .normal (.str "x")))].map
            (fun kv => (kv.1, resolution kv.2 [])))) ∧
    resolution (.callable (fun _ => .normal (.str "x"))) [] = .str "x" :=
  ⟨Or.inl rfl,
    ((onAFFIX_composite_keeps_shape_on_failure (.promise (.abrupt "gone")) [] "gone"
      (Or.inl rfl)).2 [("a", .num 1)] [("c", .callable (fun _ => .normal (.str "x")))] "b"
      (by decide) (by decide)).1,
    rfl⟩

/-! ## The navigation pipeline: lemmas -/

theorem filterMap_step?_log (l : List Err) :
    (l.map Event.log).filterMap Event.step? = [] := by
  induction l with
  | nil => rfl
  | cons e rest ih => simp [Event.step?]

theorem filter_isNav_log (l : List Err) : (l.map Event.log).filter Event.isNav = [] := by
  induction l with
  | nil => rfl
  | cons e rest ih => simp [Event.isNav]

theorem caught_not_mem_log (l : List Err) : Event.caught ∉ l.map Event.log := by
  simp

theorem step_not_mem_log (s : Step) (l : List Err) : Event.step s ∉ l.map Event.log := by
  simp

/-- A hook step always returns: `onAFFIX` contains what the hook throws. -/
theorem runHook_fst (hook : Affix) (PARAMS : Obj) : (runHook hook PARAMS).1 = true := by
  unfold runHook
  split
  · obtain ⟨v, hv⟩ := onAFFIX_normal hook PARAMS
    cases h : onAFFIX hook PARAMS with
    | mk c log =>
      rw [h] at hv
      simp only at hv
      subst hv
      rfl
  · rfl

theorem runHook_snd (hook : Affix) (PARAMS : Obj) :
    ∃ l : List Err, (runHook hook PARAMS).2 = l.map Event.log := by
  unfold runHook
  split
  · split
    · exact ⟨_, rfl⟩
    · exact ⟨_, rfl⟩
  · exact ⟨[], rfl⟩

/-- The events of `onREDIRECT`: logged errors, then at most one navigation. -/
theorem onREDIRECT_snd (R : Router) (plat : Platform) (hook : Affix) (PARAMS : Obj) :
    ∃ (l : List Err) (navs : List Event),
      (onREDIRECT R plat hook PARAMS).2 = l.map Event.log ++ navs ∧
      (navs = [] ∨ ∃ target, navs = [.pushState (navURL R target), .process (navURL R target)]) := by
  unfold onREDIRECT
  by_cases ht : hook.truthy = true
  · simp only [ht, if_true]
    cases h : onAFFIX hook PARAMS with
    | mk c log =>
      cases c with
      | abrupt e => exact ⟨log, [], by simp, Or.inl rfl⟩
      | normal info =>
        simp only
        cases hr : redirectTarget info with
        | none => exact ⟨log, [], by simp, Or.inl rfl⟩
        | some ON =>
          cases ON with
          | str target =>
            simp only [navigateTo]
            split
            · exact ⟨log, _, rfl, Or.inr ⟨_, rfl⟩⟩
            · exact ⟨log, [], rfl, Or.inl rfl⟩
          | _ => exact ⟨log, [], by simp, Or.inl rfl⟩
  · simp only [ht]
    exact ⟨[], [], rfl, Or.inl rfl⟩

theorem filterMap_step?_navigateTo (R : Router) (plat : Platform) (url : Str)
    (replace : Bool) :
    (navigateTo R plat url replace).2.filterMap Event.step? = [] := by
  unfold navigateTo
  split <;> cases replace <;> simp [Event.step?]

theorem filterMap_step?_runHook (hook : Affix) (PARAMS : Obj) :
    (runHook hook PARAMS).2.filterMap Event.step? = [] := by
  obtain ⟨l, hl⟩ := runHook_snd hook PARAMS
  rw [hl, filterMap_step?_log]

theorem filterMap_step?_onREDIRECT (R : Router) (plat : Platform) (hook : Affix) (PARAMS : Obj) :
    (onREDIRECT R plat hook PARAMS).2.filterMap Event.step? = [] := by
  obtain ⟨l, navs, hl, hn⟩ := onREDIRECT_snd R plat hook PARAMS
  rw [hl, List.filterMap_append, filterMap_step?_log]
  rcases hn with h | ⟨t, h⟩
  · simp [h]
  · simp [h, Event.step?]

theorem caught_not_mem_runHook (hook : Affix) (PARAMS : Obj) :
    Event.caught ∉ (runHook hook PARAMS).2 := by
  obtain ⟨l, hl⟩ := runHook_snd hook PARAMS
  rw [hl]
  simp

theorem caught_not_mem_onREDIRECT (R : Router) (plat : Platform) (hook : Affix) (PARAMS : Obj) :
    Event.caught ∉ (onREDIRECT R plat hook PARAMS).2 := by
  obtain ⟨l, navs, hl, hn⟩ := onREDIRECT_snd R plat hook PARAMS
  rw [hl]
  rcases hn with h | ⟨t, h⟩
  · simp [h]
  · simp [h]

theorem onSCROLLstore_onPREVIOUS (plat : Platform) (st : RouterState) :
    (onSCROLLstore plat st).onPREVIOUS = st.onPREVIOUS := by
  unfold onSCROLLstore
  split
  · rename_i h
    simp [h]
  · rfl

theorem leaveStep_fst (R : Router) (st : RouterState) : (leaveStep R st).1 = true := by
  unfold leaveStep
  split
  · exact runHook_fst _ _
  · rfl

theorem leaveStep_snd (R : Router) (st : RouterState) :
    ∃ l : List Err, (leaveStep R st).2 = l.map Event.log := by
  unfold leaveStep
  split
  · exact runHook_snd _ _
  · exact ⟨[], rfl⟩

theorem filterMap_step?_leaveStep (R : Router) (st : RouterState) :
    (leaveStep R st).2.filterMap Event.step? = [] := by
  obtain ⟨l, hl⟩ := leaveStep_snd R st
  rw [hl, filterMap_step?_log]

theorem caught_not_mem_leaveStep (R : Router) (st : RouterState) :
    Event.caught ∉ (leaveStep R st).2 := by
  obtain ⟨l, hl⟩ := leaveStep_snd R st
  rw [hl]
  simp

theorem mem_of_filterMap_step? (s : Step) (l : List Event) (h : Event.step s ∈ l) :
    s ∈ l.filterMap Event.step? :=
  List.mem_filterMap.2 ⟨_, h, rfl⟩

/-- The two ways the `try` block ends: with the commit, every step started in order
and nothing caught; or in the `catch`, with `onPREVIOUS` as it was, no commit, and the
steps started so far in order. -/
theorem tryBlock_cases (R : Router) (plat : Platform) (st : RouterState) (AFFIXES : Route)
    (PARAMS : Obj) :
    ((tryBlock R plat st AFFIXES PARAMS).1.onPREVIOUS = some (AFFIXES, PARAMS) ∧
      (tryBlock R plat st AFFIXES PARAMS).2.filterMap Event.step? = allSteps ∧
      Event.caught ∉ (tryBlock R plat st AFFIXES PARAMS).2) ∨
    ((tryBlock R plat st AFFIXES PARAMS).1.onPREVIOUS = st.onPREVIOUS ∧
      Event.caught ∈ (tryBlock R plat st AFFIXES PARAMS).2 ∧
      Step.commit ∉ (tryBlock R plat st AFFIXES PARAMS).2.filterMap Event.step? ∧
      (tryBlock R plat st AFFIXES PARAMS).2.filterMap Event.step? <+: allSteps) := by
  unfold tryBlock
  simp only [runHook_fst, leaveStep_fst, Bool.not_true, Bool.false_eq_true, if_false]
  cases hv : (onAFFIX (R.hooks AFFIXES.onVIEW).onVIEW PARAMS).1 with
  | abrupt e =>
    simp only
    right
    refine ⟨by simp only [onSCROLLstore_onPREVIOUS], by simp, ?_, ?_⟩
    · simp only [List.filterMap_append, List.filterMap_cons, List.filterMap_nil, Event.step?,
        filterMap_step?_log, filterMap_step?_runHook, filterMap_step?_onREDIRECT,
        filterMap_step?_leaveStep, List.append_nil, List.nil_append, List.cons_append,
        List.append_assoc, allSteps]
      decide
    · simp only [List.filterMap_append, List.filterMap_cons, List.filterMap_nil, Event.step?,
        filterMap_step?_log, filterMap_step?_runHook, filterMap_step?_onREDIRECT,
        filterMap_step?_leaveStep, List.append_nil, List.nil_append, List.cons_append,
        List.append_assoc, allSteps]
      decide
  | normal onVIEW =>
    simp only
    cases h0 : plat.progressStart
    · simp only [Bool.not_false, if_true]
      right
      refine ⟨by simp only [onSCROLLstore_onPREVIOUS], by simp, ?_, ?_⟩
      · simp only [List.filterMap_append, List.filterMap_cons, List.filterMap_nil, Event.step?,
          filterMap_step?_log, filterMap_step?_runHook, filterMap_step?_onREDIRECT,
          filterMap_step?_leaveStep, List.append_nil, List.nil_append, List.cons_append,
          List.append_assoc, allSteps]
        decide
      · simp only [List.filterMap_append, List.filterMap_cons, List.filterMap_nil, Event.step?,
          filterMap_step?_log, filterMap_step?_runHook, filterMap_step?_onREDIRECT,
          filterMap_step?_leaveStep, List.append_nil, List.nil_append, List.cons_append,
          List.append_assoc, allSteps]
        decide
    simp only [Bool.not_true, Bool.false_eq_true, if_false]
    cases h1 : (onREDIRECT R plat (R.hooks AFFIXES.onVIEW).onREDIRECT PARAMS).1
    · simp only [Bool.not_false, if_true]
      right
      refine ⟨by simp only [onSCROLLstore_onPREVIOUS], by simp, ?_, ?_⟩
      · simp only [List.filterMap_append, List.filterMap_cons, List.filterMap_nil, Event.step?,
          filterMap_step?_log, filterMap_step?_runHook, filterMap_step?_onREDIRECT,
          filterMap_step?_leaveStep, List.append_nil, List.nil_append, List.cons_append,
          List.append_assoc, allSteps]
        decide
      · simp only [List.filterMap_append, List.filterMap_cons, List.filterMap_nil, Event.step?,
          filterMap_step?_log, filterMap_step?_runHook, filterMap_step?_onREDIRECT,
          filterMap_step?_leaveStep, List.append_nil, List.nil_append, List.cons_append,
          List.append_assoc, allSteps]
        decide
    simp only [Bool.not_true, Bool.false_eq_true, if_false]
    cases h2 : (st.onPREVIOUS.isSome && !plat.transitionOut)
    swap
    · simp only [if_true]
      right
      refine ⟨by simp only [onSCROLLstore_onPREVIOUS], by simp, ?_, ?_⟩
      · simp only [List.filterMap_append, List.filterMap_cons, List.filterMap_nil, Event.step?,
          filterMap_step?_log, filterMap_step?_runHook, filterMap_step?_onREDIRECT,
          filterMap_step?_leaveStep, List.append_nil, List.nil_append, List.cons_append,
          List.append_assoc, allSteps]
        decide
      · simp only [List.filterMap_append, List.filterMap_cons, List.filterMap_nil, Event.step?,
          filterMap_step?_log, filterMap_step?_runHook, filterMap_step?_onREDIRECT,
          filterMap_step?_leaveStep, List.append_nil, List.nil_append, List.cons_append,
          List.append_assoc, allSteps]
        decide
    simp only [Bool.false_eq_true, if_false]
    cases h3 : plat.renderHead
    · simp only [Bool.not_false, if_true]
      right
      refine ⟨by simp only [onSCROLLstore_onPREVIOUS], by simp, ?_, ?_⟩
      · simp only [List.filterMap_append, List.filterMap_cons, List.filterMap_nil, Event.step?,
          filterMap_step?_log, filterMap_step?_runHook, filterMap_step?_onREDIRECT,
          filterMap_step?_leaveStep, List.append_nil, List.nil_append, List.cons_append,
          List.append_assoc, allSteps]
        decide
      · simp only [List.filterMap_append, List.filterMap_cons, List.filterMap_nil, Event.step?,
          filterMap_step?_log, filterMap_step?_runHook, filterMap_step?_onREDIRECT,
          filterMap_step?_leaveStep, List.append_nil, List.nil_append, List.cons_append,
          List.append_assoc, allSteps]
        decide
    simp only [Bool.not_true, Bool.false_eq_true, if_false]
    cases h4 : onVIEW.nullish
    swap
    · simp only [if_true]
      right
      refine ⟨by simp only [onSCROLLstore_onPREVIOUS], by simp, ?_, ?_⟩
      · simp only [List.filterMap_append, List.filterMap_cons, List.filterMap_nil, Event.step?,
          filterMap_step?_log, filterMap_step?_runHook, filterMap_step?_onREDIRECT,
          filterMap_step?_leaveStep, List.append_nil, List.nil_append, List.cons_append,
          List.append_assoc, allSteps]
        decide
      · simp only [List.filterMap_append, List.filterMap_cons, List.filterMap_nil, Event.step?,
          filterMap_step?_log, filterMap_step?_runHook, filterMap_step?_onREDIRECT,
          filterMap_step?_leaveStep, List.append_nil, List.nil_append, List.cons_append,
          List.append_assoc, allSteps]
        decide
    simp only [Bool.false_eq_true, if_false]
    cases h5 : plat.renderMount
    · simp only [Bool.not_false, if_true]
      right
      refine ⟨by simp only [onSCROLLstore_onPREVIOUS], by simp, ?_, ?_⟩
      · simp only [List.filterMap_append, List.filterMap_cons, List.filterMap_nil, Event.step?,
          filterMap_step?_log, filterMap_step?_runHook, filterMap_step?_onREDIRECT,
          filterMap_step?_leaveStep, List.append_nil, List.nil_append, List.cons_append,
          List.append_assoc, allSteps]
        decide
      · simp only [List.filterMap_append, List.filterMap_cons, List.filterMap_nil, Event.step?,
          filterMap_step?_log, filterMap_step?_runHook, filterMap_step?_onREDIRECT,
          filterMap_step?_leaveStep, List.append_nil, List.nil_append, List.cons_append,
          List.append_assoc, allSteps]
        decide
    simp only [Bool.not_true, Bool.false_eq_true, if_false]
    cases h6 : plat.transitionIn
    · simp only [Bool.not_false, if_true]
      right
      refine ⟨by simp only [onSCROLLstore_onPREVIOUS], by simp, ?_, ?_⟩
      · simp only [List.filterMap_append, List.filterMap_cons, List.filterMap_nil, Event.step?,
          filterMap_step?_log, filterMap_step?_runHook, filterMap_step?_onREDIRECT,
          filterMap_step?_leaveStep, List.append_nil, List.nil_append, List.cons_append,
          List.append_assoc, allSteps]
        decide
      · simp only [List.filterMap_append, List.filterMap_cons, List.filterMap_nil, Event.step?,
          filterMap_step?_log, filterMap_step?_runHook, filterMap_step?_onREDIRECT,
          filterMap_step?_leaveStep, List.append_nil, List.nil_append, List.cons_append,
          List.append_assoc, allSteps]
        decide
    simp only [Bool.not_true, Bool.false_eq_true, if_false]
    cases h7 : plat.scroll
    · simp only [Bool.not_false, if_true]
      right
      refine ⟨by simp only [onSCROLLstore_onPREVIOUS], by simp, ?_, ?_⟩
      · simp only [List.filterMap_append, List.filterMap_cons, List.filterMap_nil, Event.step?,
          filterMap_step?_log, filterMap_step?_runHook, filterMap_step?_onREDIRECT,
          filterMap_step?_leaveStep, List.append_nil, List.nil_append, List.cons_append,
          List.append_assoc, allSteps]
        decide
      · simp only [List.filterMap_append, List.filterMap_cons, List.filterMap_nil, Event.step?,
          filterMap_step?_log, filterMap_step?_runHook, filterMap_step?_onREDIRECT,
          filterMap_step?_leaveStep, List.append_nil, List.nil_append, List.cons_append,
          List.append_assoc, allSteps]
        decide
    simp only [Bool.not_true, Bool.false_eq_true, if_false]
    cases h8 : plat.progressEnd
    · simp only [Bool.not_false, if_true]
      right
      refine ⟨by simp only [onSCROLLstore_onPREVIOUS], by simp, ?_, ?_⟩
      · simp only [List.filterMap_append, List.filterMap_cons, List.filterMap_nil, Event.step?,
          filterMap_step?_log, filterMap_step?_runHook, filterMap_step?_onREDIRECT,
          filterMap_step?_leaveStep, List.append_nil, List.nil_append, List.cons_append,
          List.append_assoc, allSteps]
        decide
      · simp only [List.filterMap_append, List.filterMap_cons, List.filterMap_nil, Event.step?,
          filterMap_step?_log, filterMap_step?_runHook, filterMap_step?_onREDIRECT,
          filterMap_step?_leaveStep, List.append_nil, List.nil_append, List.cons_append,
          List.append_assoc, allSteps]
        decide
    simp only [Bool.not_true, Bool.false_eq_true, if_false]
    left
    refine ⟨trivial, ?_, ?_⟩
    · simp only [List.filterMap_append, List.filterMap_cons, List.filterMap_nil, Event.step?,
    filterMap_step?_log, filterMap_step?_runHook, filterMap_step?_onREDIRECT,
    filterMap_step?_leaveStep, List.append_nil, List.nil_append, List.cons_append,
    List.append_assoc, allSteps]
    · simp [caught_not_mem_runHook, caught_not_mem_onREDIRECT, caught_not_mem_leaveStep]

theorem isLog_step (s : Step) : (Event.step s).isLog = false := rfl

theorem filter_not_isLog_log (l : List Err) :
    (l.map Event.log).filter (fun e => !e.isLog) = [] := by
  induction l with
  | nil => rfl
  | cons e rest ih => simp [Event.isLog]

theorem filter_not_isLog_runHook (hook : Affix) (PARAMS : Obj) :
    (runHook hook PARAMS).2.filter (fun e => !e.isLog) = [] := by
  obtain ⟨l, hl⟩ := runHook_snd hook PARAMS
  rw [hl, filter_not_isLog_log]

theorem filter_not_isLog_leaveStep (R : Router) (st : RouterState) :
    (leaveStep R st).2.filter (fun e => !e.isLog) = [] := by
  obtain ⟨l, hl⟩ := leaveStep_snd R st
  rw [hl, filter_not_isLog_log]

theorem filter_isNav_runHook (hook : Affix) (PARAMS : Obj) :
    (runHook hook PARAMS).2.filter Event.isNav = [] := by
  obtain ⟨l, hl⟩ := runHook_snd hook PARAMS
  rw [hl, filter_isNav_log]

theorem filter_isNav_leaveStep (R : Router) (st : RouterState) :
    (leaveStep R st).2.filter Event.isNav = [] := by
  obtain ⟨l, hl⟩ := leaveStep_snd R st
  rw [hl, filter_isNav_log]

/-- A redirect hook that resolves to `REDIRECT: 'ON'` with a non-empty string under
`ON` makes `onREDIRECT` navigate to it and return. -/
theorem onREDIRECT_active (R : Router) (plat : Platform) (hook : Affix) (PARAMS : Obj) (info : Affix)
    (target : String) (hhook : hook.truthy = true)
    (hinfo : (onAFFIX hook PARAMS).1 = .normal info)
    (hactive : info.prop "REDIRECT" = .str "ON") (htarget : info.prop "ON" = .str target)
    (hne : target ≠ "") :
    onREDIRECT R plat hook PARAMS =
      ((navigateTo R plat target.toList false).1,
        (onAFFIX hook PARAMS).2.map Event.log ++ (navigateTo R plat target.toList false).2) := by
  have ht : redirectTarget info = some (.str target) := by
    simp [redirectTarget, hactive, htarget, Affix.truthy, Affix.isString, Affix.isNull, hne]
  unfold onREDIRECT
  cases h : onAFFIX hook PARAMS with
  | mk c log =>
    rw [h] at hinfo
    simp only at hinfo
    subst hinfo
    simp only [hhook, if_true, ht]

/-- Without a redirect hook, or with one that resolves to a value whose `REDIRECT` is
not `'ON'` or whose `ON` is falsy, `onREDIRECT` navigates nowhere. -/
theorem onREDIRECT_inactive (R : Router) (plat : Platform) (hook : Affix) (PARAMS : Obj)
    (h : hook.truthy = false ∨
      (resolution hook PARAMS).prop "REDIRECT" ≠ .str "ON" ∨
      ((resolution hook PARAMS).prop "ON").truthy = false) :
    (onREDIRECT R plat hook PARAMS).2.filter Event.isNav = [] := by
  unfold onREDIRECT
  by_cases hh : hook.truthy = true
  · simp only [hh, if_true]
    have hres := onAFFIX_fst_eq hook PARAMS
    cases hr : onAFFIX hook PARAMS with
    | mk c log =>
      rw [hr] at hres
      simp only at hres
      subst hres
      have ht : redirectTarget (resolution hook PARAMS) = none := by
        rcases h with h | h | h
        · rw [hh] at h
          cases h
        · unfold redirectTarget
          by_cases h1 : ((resolution hook PARAMS).prop "REDIRECT").truthy = true
          · have h2 : ((resolution hook PARAMS).prop "REDIRECT").isString "ON" = false := by
              cases hp : (resolution hook PARAMS).prop "REDIRECT" with
              | str s =>
                rw [hp] at h
                simp only [Affix.isString, beq_eq_false_iff_ne, ne_eq]
                intro hs
                exact h (by rw [hs])
              | _ => rfl
            simp [h1, h2]
          · simp [h1, Affix.isString]
        · simp [redirectTarget, h, Affix.isNull]
      simp only [ht, filter_isNav_log]
  · simp [hh]

/-- Every run of the `try` block starts with the view resolution. -/
theorem tryBlock_head (R : Router) (plat : Platform) (st : RouterState) (AFFIXES : Route)
    (PARAMS : Obj) :
    (tryBlock R plat st AFFIXES PARAMS).2.head? = some (.step .resolveView) := by
  unfold tryBlock
  simp only [runHook_fst, leaveStep_fst, Bool.not_true, Bool.false_eq_true, if_false]
  cases hv : (onAFFIX (R.hooks AFFIXES.onVIEW).onVIEW PARAMS).1 with
  | abrupt e =>
    simp only
    simp only [List.cons_append, List.head?_cons]
  | normal onVIEW =>
    simp only
    cases h0 : plat.progressStart
    · simp only [Bool.not_false, if_true]
      simp only [List.cons_append, List.head?_cons]
    simp only [Bool.not_true, Bool.false_eq_true, if_false]
    cases h1 : (onREDIRECT R plat (R.hooks AFFIXES.onVIEW).onREDIRECT PARAMS).1
    · simp only [Bool.not_false, if_true]
      simp only [List.cons_append, List.head?_cons]
    simp only [Bool.not_true, Bool.false_eq_true, if_false]
    cases h2 : (st.onPREVIOUS.isSome && !plat.transitionOut)
    swap
    · simp only [if_true]
      simp only [List.cons_append, List.head?_cons]
    simp only [Bool.false_eq_true, if_false]
    cases h3 : plat.renderHead
    · simp only [Bool.not_false, if_true]
      simp only [List.cons_append, List.head?_cons]
    simp only [Bool.not_true, Bool.false_eq_true, if_false]
    cases h4 : onVIEW.nullish
    swap
    · simp only [if_true]
      simp only [List.cons_append, List.head?_cons]
    simp only [Bool.false_eq_true, if_false]
    cases h5 : plat.renderMount
    · simp only [Bool.not_false, if_true]
      simp only [List.cons_append, List.head?_cons]
    simp only [Bool.not_true, Bool.false_eq_true, if_false]
    cases h6 : plat.transitionIn
    · simp only [Bool.not_false, if_true]
      simp only [List.cons_append, List.head?_cons]
    simp only [Bool.not_true, Bool.false_eq_true, if_false]
    cases h7 : plat.scroll
    · simp only [Bool.not_false, if_true]
      simp only [List.cons_append, List.head?_cons]
    simp only [Bool.not_true, Bool.false_eq_true, if_false]
    cases h8 : plat.progressEnd
    · simp only [Bool.not_false, if_true]
      simp only [List.cons_append, List.head?_cons]
    simp only [Bool.not_true, Bool.false_eq_true, if_false]
    simp only [List.cons_append, List.head?_cons]

/-- The navigations of the `try` block are those of its redirect step, if it gets
there. -/
theorem tryBlock_navs (R : Router) (plat : Platform) (st : RouterState) (AFFIXES : Route)
    (PARAMS : Obj) :
    (tryBlock R plat st AFFIXES PARAMS).2.filter Event.isNav = [] ∨
    (tryBlock R plat st AFFIXES PARAMS).2.filter Event.isNav =
      (onREDIRECT R plat (R.hooks AFFIXES.onVIEW).onREDIRECT PARAMS).2.filter Event.isNav := by
  unfold tryBlock
  simp only [runHook_fst, leaveStep_fst, Bool.not_true, Bool.false_eq_true, if_false]
  cases hv : (onAFFIX (R.hooks AFFIXES.onVIEW).onVIEW PARAMS).1 with
  | abrupt e =>
    simp only
    left
    simp only [List.filter_append, List.filter_cons, List.filter_nil, Event.isNav,
        filter_isNav_log, filter_isNav_runHook, filter_isNav_leaveStep, List.append_nil,
        List.nil_append, List.cons_append, List.append_assoc, Bool.false_eq_true, if_false]
  | normal onVIEW =>
    simp only
    cases h0 : plat.progressStart
    · simp only [Bool.not_false, if_true]
      left
      simp only [List.filter_append, List.filter_cons, List.filter_nil, Event.isNav,
          filter_isNav_log, filter_isNav_runHook, filter_isNav_leaveStep, List.append_nil,
          List.nil_append, List.cons_append, List.append_assoc, Bool.false_eq_true, if_false]
    simp only [Bool.not_true, Bool.false_eq_true, if_false]
    cases h1 : (onREDIRECT R plat (R.hooks AFFIXES.onVIEW).onREDIRECT PARAMS).1
    · simp only [Bool.not_false, if_true]
      right
      simp only [List.filter_append, List.filter_cons, List.filter_nil, Event.isNav,
          filter_isNav_log, filter_isNav_runHook, filter_isNav_leaveStep, List.append_nil,
          List.nil_append, List.cons_append, List.append_assoc, Bool.false_eq_true, if_false]
    simp only [Bool.not_true, Bool.false_eq_true, if_false]
    cases h2 : (st.onPREVIOUS.isSome && !plat.transitionOut)
    swap
    · simp only [if_true]
      right
      simp only [List.filter_append, List.filter_cons, List.filter_nil, Event.isNav,
          filter_isNav_log, filter_isNav_runHook, filter_isNav_leaveStep, List.append_nil,
          List.nil_append, List.cons_append, List.append_assoc, Bool.false_eq_true, if_false]
    simp only [Bool.false_eq_true, if_false]
    cases h3 : plat.renderHead
    · simp only [Bool.not_false, if_true]
      right
      simp only [List.filter_append, List.filter_cons, List.filter_nil, Event.isNav,
          filter_isNav_log, filter_isNav_runHook, filter_isNav_leaveStep, List.append_nil,
          List.nil_append, List.cons_append, List.append_assoc, Bool.false_eq_true, if_false]
    simp only [Bool.not_true, Bool.false_eq_true, if_false]
    cases h4 : onVIEW.nullish
    swap
    · simp only [if_true]
      right
      simp only [List.filter_append, List.filter_cons, List.filter_nil, Event.isNav,
          filter_isNav_log, filter_isNav_runHook, filter_isNav_leaveStep, List.append_nil,
          List.nil_append, List.cons_append, List.append_assoc, Bool.false_eq_true, if_false]
    simp only [Bool.false_eq_true, if_false]
    cases h5 : plat.renderMount
    · simp only [Bool.not_false, if_true]
      right
      simp only [List.filter_append, List.filter_cons, List.filter_nil, Event.isNav,
          filter_isNav_log, filter_isNav_runHook, filter_isNav_leaveStep, List.append_nil,
          List.nil_append, List.cons_append, List.append_assoc, Bool.false_eq_true, if_false]
    simp only [Bool.not_true, Bool.false_eq_true, if_false]
    cases h6 : plat.transitionIn
    · simp only [Bool.not_false, if_true]
      right
      simp only [List.filter_append, List.filter_cons, List.filter_nil, Event.isNav,
          filter_isNav_log, filter_isNav_runHook, filter_isNav_leaveStep, List.append_nil,
          List.nil_append, List.cons_append, List.append_assoc, Bool.false_eq_true, if_false]
    simp only [Bool.not_true, Bool.false_eq_true, if_false]
    cases h7 : plat.scroll
    · simp only [Bool.not_false, if_true]
      right
      simp only [List.filter_append, List.filter_cons, List.filter_nil, Event.isNav,
          filter_isNav_log, filter_isNav_runHook, filter_isNav_leaveStep, List.append_nil,
          List.nil_append, List.cons_append, List.append_assoc, Bool.false_eq_true, if_false]
    simp only [Bool.not_true, Bool.false_eq_true, if_false]
    cases h8 : plat.progressEnd
    · simp only [Bool.not_false, if_true]
      right
      simp only [List.filter_append, List.filter_cons, List.filter_nil, Event.isNav,
          filter_isNav_log, filter_isNav_runHook, filter_isNav_leaveStep, List.append_nil,
          List.nil_append, List.cons_append, List.append_assoc, Bool.false_eq_true, if_false]
    simp only [Bool.not_true, Bool.false_eq_true, if_false]
    right
    simp only [List.filter_append, List.filter_cons, List.filter_nil, Event.isNav,
        filter_isNav_log, filter_isNav_runHook, filter_isNav_leaveStep, List.append_nil,
        List.nil_append, List.cons_append, List.append_assoc, Bool.false_eq_true, if_false]

/-- The `try` block when every platform step returns, the view resolves to something
other than `undefined` and `null`, and the redirect step returns: it commits, nothing is
caught, and its events other than logged errors are the six steps up to the redirect,
the events of the redirect, and the nine steps after it. -/
theorem tryBlock_of_ok (R : Router) (plat : Platform) (st : RouterState) (AFFIXES : Route)
    (PARAMS : Obj) (hplat : plat.allOk = true)
    (hview : (resolution (R.hooks AFFIXES.onVIEW).onVIEW PARAMS).nullish = false)
    (hrd : (onREDIRECT R plat (R.hooks AFFIXES.onVIEW).onREDIRECT PARAMS).1 = true) :
    (tryBlock R plat st AFFIXES PARAMS).1.onPREVIOUS = some (AFFIXES, PARAMS) ∧
    Event.caught ∉ (tryBlock R plat st AFFIXES PARAMS).2 ∧
    (tryBlock R plat st AFFIXES PARAMS).2.filter (fun e => !e.isLog) =
      [.step .resolveView, .step .progressStart, .step .scrollStore, .step .globalGuards,
        .step .routeGuard, .step .redirect] ++
      (onREDIRECT R plat (R.hooks AFFIXES.onVIEW).onREDIRECT PARAMS).2.filter (fun e => !e.isLog) ++
      [.step .leave, .step .transitionOut, .step .renderHead, .step .renderMount,
        .step .transitionIn, .step .scroll, .step .progressEnd, .step .loaded, .step .commit] := by
  simp only [Platform.allOk, Bool.and_eq_true] at hplat
  obtain ⟨⟨⟨⟨⟨⟨h1, h2⟩, h3⟩, h4⟩, h5⟩, h6⟩, h7⟩ := hplat
  have hv := onAFFIX_fst_eq (R.hooks AFFIXES.onVIEW).onVIEW PARAMS
  unfold tryBlock
  simp only [runHook_fst, leaveStep_fst, Bool.not_true, Bool.false_eq_true, if_false, hv, h1,
    h2, h3, h4, h5, h6, h7, hview, hrd, Bool.and_false]
  refine ⟨trivial, ?_, ?_⟩
  · simp [caught_not_mem_runHook, caught_not_mem_onREDIRECT, caught_not_mem_leaveStep]
  · simp only [List.filter_append, List.filter_cons, List.filter_nil, isLog_step,
      filter_not_isLog_log, filter_not_isLog_runHook, filter_not_isLog_leaveStep,
      List.append_nil, List.nil_append, List.cons_append, List.append_assoc, Bool.not_false,
      if_true]

/-- A matched definition always has its parameters extracted. -/
theorem onPARAMS_of_onMATCH (routes : List Route) (dec : Str → Str) (url : Str) (r : Route)
    (h : onMATCH routes url = some r) : ∃ PARAMS, onPARAMS dec r.pattern url = some PARAMS := by
  unfold onMATCH at h
  have hm : routeTest r.pattern url = true := by
    have := List.find?_some h
    simpa using this
  have hlen := routeTest_length r.pattern url hm
  exact reduceFrom_paramStep_total url (split '/' r.pattern) 0 _ (by omega)

theorem onPROCESS_of_match (R : Router) (plat : Platform) (st : RouterState) (url : Str)
    (AFFIXES : Route) (PARAMS : Obj) (hm : onMATCH R.routes url = some AFFIXES)
    (hp : onPARAMS plat.dec AFFIXES.pattern url = some PARAMS) :
    onPROCESS R plat st url =
      { state := (tryBlock R plat st AFFIXES PARAMS).1
        trace := (tryBlock R plat st AFFIXES PARAMS).2
        rejected := false } := by
  unfold onPROCESS
  simp only [hm, hp]

theorem onPROCESS_of_no_match (R : Router) (plat : Platform) (st : RouterState) (url : Str)
    (hm : onMATCH R.routes url = none) :
    onPROCESS R plat st url =
      { state := st, trace := (navigateTo R plat R.on404 false).2, rejected := true } := by
  unfold onPROCESS
  simp only [hm]

/-- The `try` block when every test on its way comes out well: the state it leaves and
its events, the events of every hook between the step that runs it and the next. -/
theorem tryBlock_eq (R : Router) (plat : Platform) (st : RouterState) (AFFIXES : Route)
    (PARAMS : Obj) (h0 : plat.progressStart = true)
    (h1 : (onREDIRECT R plat (R.hooks AFFIXES.onVIEW).onREDIRECT PARAMS).1 = true)
    (h2 : (st.onPREVIOUS.isSome && !plat.transitionOut) = false)
    (h3 : plat.renderHead = true)
    (h4 : (resolution (R.hooks AFFIXES.onVIEW).onVIEW PARAMS).nullish = false)
    (h5 : plat.renderMount = true) (h6 : plat.transitionIn = true)
    (h7 : plat.scroll = true) (h8 : plat.progressEnd = true) :
    tryBlock R plat st AFFIXES PARAMS =
      ({ onSCROLLstore plat st with onPREVIOUS := some (AFFIXES, PARAMS) },
        Event.step .resolveView ::
        ((onAFFIX (R.hooks AFFIXES.onVIEW).onVIEW PARAMS).2.map Event.log ++
        ([.step .progressStart, .step .scrollStore, .step .globalGuards] ++
        ((runHook R.onBEFORE PARAMS).2 ++
        (.step .routeGuard :: ((runHook (R.hooks AFFIXES.onVIEW).onBEFORE PARAMS).2 ++
        (.step .redirect :: ((onREDIRECT R plat (R.hooks AFFIXES.onVIEW).onREDIRECT PARAMS).2 ++
        (.step .leave :: ((leaveStep R st).2 ++
        ([.step .transitionOut, .step .renderHead, .step .renderMount, .step .transitionIn,
          .step .scroll, .step .progressEnd, .step .loaded] ++
        ((runHook (R.hooks AFFIXES.onVIEW).onLOADED PARAMS).2 ++ [.step .commit])))))))))))) := by
  have hv := onAFFIX_fst_eq (R.hooks AFFIXES.onVIEW).onVIEW PARAMS
  unfold tryBlock
  simp only [runHook_fst, leaveStep_fst, Bool.not_true, Bool.false_eq_true, if_false, hv, h0,
    h1, h2, h3, h4, h5, h6, h7, h8, List.append_assoc, List.cons_append, List.nil_append]

/-- A run of the `try` block in which nothing is caught: every test on its way came out
well. -/
theorem tryBlock_of_not_caught (R : Router) (plat : Platform) (st : RouterState)
    (AFFIXES : Route) (PARAMS : Obj)
    (h : Event.caught ∉ (tryBlock R plat st AFFIXES PARAMS).2) :
    plat.progressStart = true ∧
    (onREDIRECT R plat (R.hooks AFFIXES.onVIEW).onREDIRECT PARAMS).1 = true ∧
    (st.onPREVIOUS.isSome && !plat.transitionOut) = false ∧
    plat.renderHead = true ∧
    (resolution (R.hooks AFFIXES.onVIEW).onVIEW PARAMS).nullish = false ∧
    plat.renderMount = true ∧ plat.transitionIn = true ∧ plat.scroll = true ∧
    plat.progressEnd = true := by
  have hv := onAFFIX_fst_eq (R.hooks AFFIXES.onVIEW).onVIEW PARAMS
  unfold tryBlock at h
  simp only [runHook_fst, leaveStep_fst, Bool.not_true, Bool.false_eq_true, if_false, hv] at h
  have h0 : plat.progressStart = true := by
    cases hc : plat.progressStart
    · rw [hc] at h
      simp at h
    · rfl
  rw [h0] at h
  simp only [Bool.not_true, Bool.false_eq_true, if_false] at h
  have h1 : (onREDIRECT R plat (R.hooks AFFIXES.onVIEW).onREDIRECT PARAMS).1 = true := by
    cases hc : (onREDIRECT R plat (R.hooks AFFIXES.onVIEW).onREDIRECT PARAMS).1
    · rw [hc] at h
      simp at h
    · rfl
  rw [h1] at h
  simp only [Bool.not_true, Bool.false_eq_true, if_false] at h
  have h2 : (st.onPREVIOUS.isSome && !plat.transitionOut) = false := by
    cases hc : (st.onPREVIOUS.isSome && !plat.transitionOut)
    · rfl
    · rw [hc] at h
      simp at h
  rw [h2] at h
  simp only [Bool.not_true, Bool.false_eq_true, if_false] at h
  have h3 : plat.renderHead = true := by
    cases hc : plat.renderHead
    · rw [hc] at h
      simp at h
    · rfl
  rw [h3] at h
  simp only [Bool.not_true, Bool.false_eq_true, if_false] at h
  have h4 : (resolution (R.hooks AFFIXES.onVIEW).onVIEW PARAMS).nullish = false := by
    cases hc : (resolution (R.hooks AFFIXES.onVIEW).onVIEW PARAMS).nullish
    · rfl
    · rw [hc] at h
      simp at h
  rw [h4] at h
  simp only [Bool.not_true, Bool.false_eq_true, if_false] at h
  have h5 : plat.renderMount = true := by
    cases hc : plat.renderMount
    · rw [hc] at h
      simp at h
    · rfl
  rw [h5] at h
  simp only [Bool.not_true, Bool.false_eq_true, if_false] at h
  have h6 : plat.transitionIn = true := by
    cases hc : plat.transitionIn
    · rw [hc] at h
      simp at h
    · rfl
  rw [h6] at h
  simp only [Bool.not_true, Bool.false_eq_true, if_false] at h
  have h7 : plat.scroll = true := by
    cases hc : plat.scroll
    · rw [hc] at h
      simp at h
    · rfl
  rw [h7] at h
  simp only [Bool.not_true, Bool.false_eq_true, if_false] at h
  have h8 : plat.progressEnd = true := by
    cases hc : plat.progressEnd
    · rw [hc] at h
      simp at h
    · rfl
  rw [h8] at h
  simp only [Bool.not_true, Bool.false_eq_true, if_false] at h
  exact ⟨h0, h1, h2, h3, h4, h5, h6, h7, h8⟩

/-- A hook step returns, and its events are the errors logged for the hook. -/
theorem runHook_eq (hook : Affix) (PARAMS : Obj) :
    runHook hook PARAMS = (true, hookLog hook PARAMS) := by
  unfold runHook hookLog
  split
  · obtain ⟨v, hv⟩ := onAFFIX_normal hook PARAMS
    cases h : onAFFIX hook PARAMS with
    | mk c log =>
      rw [h] at hv
      simp only at hv
      subst hv
      rfl
  · rfl

/-- The leave step returns, and its events are the errors logged for the leave hook of
the previous definition. -/
theorem leaveStep_eq (R : Router) (st : RouterState) :
    leaveStep R st =
      (true, match st.onPREVIOUS with
        | some (prev, prevPARAMS) => hookLog (R.hooks prev.onVIEW).onLEAVE prevPARAMS
        | none => []) := by
  unfold leaveStep
  split
  · exact runHook_eq _ _
  · rfl

/-! ## The navigation pipeline: the specification's properties -/

/-- C11 as stated fails: on a router whose before-enter guard throws, the transition to
`/users/7` logs the error, goes on, and commits: `onPREVIOUS`, `null` before, holds the
matched definition and its parameters afterwards. The throw of the guard is caught by
`onAFFIX`; the guard step returns. -/
theorem onPROCESS_throwing_guard_commits :
    failsWith (.callable (fun _ => .abrupt "denied"))
      [("on".toList, "/users/7".toList), ("id".toList, "7".toList)] "denied" ∧
    freshState.onPREVIOUS = none ∧
    (onPROCESS (guardedRouter (.callable (fun _ => .abrupt "denied"))) calmPlatform freshState
        "/users/7".toList).trace =
      [.step .resolveView, .step .progressStart, .step .scrollStore, .step .globalGuards,
        .step .routeGuard, .log "denied", .step .redirect, .step .leave,
        .step .transitionOut, .step .renderHead, .step .renderMount, .step .transitionIn,
        .step .scroll, .step .progressEnd, .step .loaded, .step .commit] ∧
    (onPROCESS (guardedRouter (.callable (fun _ => .abrupt "denied"))) calmPlatform freshState
        "/users/7".toList).state.onPREVIOUS =
      some (⟨"/users/:id".toList, 0⟩,
        [("on".toList, "/users/7".toList), ("id".toList, "7".toList)]) :=
  ⟨Or.inr ⟨_, rfl, rfl⟩, rfl, by decide, rfl⟩

/-- C11, amended: a call of `onPROCESS` that enters its `catch` (a platform step throws,
the view resolves to `undefined` or `null`, the redirect step throws) or that throws
outside the `try` block leaves `onPREVIOUS` as it was; `onPREVIOUS` is written only by
the commit, the last of the steps, which runs only when every step before it has run in
order and nothing was caught, and it then holds the matched definition and its
parameters. A hook that throws or rejects does not make its step fail: with plain hooks,
when every platform step returns, the view resolves to a value other than `undefined`
and `null` and the redirect step returns, the transition commits whatever the guards,
the leave hook and the loaded hook do. -/
theorem onPROCESS_commit_atomic (R : Router) (plat : Platform) (st : RouterState)
    (url : Str) :
    ((Event.caught ∈ (onPROCESS R plat st url).trace ∨
        (onPROCESS R plat st url).rejected = true) →
      (onPROCESS R plat st url).state.onPREVIOUS = st.onPREVIOUS ∧
      Step.commit ∉ (onPROCESS R plat st url).trace.filterMap Event.step?) ∧
    (Step.commit ∈ (onPROCESS R plat st url).trace.filterMap Event.step? →
      (onPROCESS R plat st url).trace.filterMap Event.step? = allSteps ∧
      Event.caught ∉ (onPROCESS R plat st url).trace ∧
      (onPROCESS R plat st url).rejected = false ∧
      ∃ AFFIXES PARAMS, onMATCH R.routes url = some AFFIXES ∧
        onPARAMS plat.dec AFFIXES.pattern url = some PARAMS ∧
        (onPROCESS R plat st url).state.onPREVIOUS = some (AFFIXES, PARAMS)) ∧
    (Step.commit ∉ (onPROCESS R plat st url).trace.filterMap Event.step? →
      (onPROCESS R plat st url).state.onPREVIOUS = st.onPREVIOUS) ∧
    (∀ (AFFIXES : Route) (PARAMS : Obj), onMATCH R.routes url = some AFFIXES →
      onPARAMS plat.dec AFFIXES.pattern url = some PARAMS →
      R.plain st AFFIXES PARAMS = true → plat.allOk = true →
      (resolution (R.hooks AFFIXES.onVIEW).onVIEW PARAMS).nullish = false →
      (onREDIRECT R plat (R.hooks AFFIXES.onVIEW).onREDIRECT PARAMS).1 = true →
      (onPROCESS R plat st url).state.onPREVIOUS = some (AFFIXES, PARAMS) ∧
      Event.caught ∉ (onPROCESS R plat st url).trace ∧
      Step.commit ∈ (onPROCESS R plat st url).trace.filterMap Event.step?) := by
  cases hm : onMATCH R.routes url with
  | none =>
    rw [onPROCESS_of_no_match R plat st url hm]
    refine ⟨fun _ => ⟨rfl, ?_⟩, fun h => ?_, fun _ => rfl, fun AFFIXES PARAMS h => ?_⟩
    · simp only [filterMap_step?_navigateTo]
      simp
    · simp only [filterMap_step?_navigateTo] at h
      simp at h
    · simp at h
  | some AFFIXES =>
    obtain ⟨PARAMS, hp⟩ := onPARAMS_of_onMATCH R.routes plat.dec url AFFIXES hm
    rw [onPROCESS_of_match R plat st url AFFIXES PARAMS hm hp]
    simp only
    have h4 : ∀ (AFFIXES1 : Route) (PARAMS1 : Obj), some AFFIXES = some AFFIXES1 →
        onPARAMS plat.dec AFFIXES1.pattern url = some PARAMS1 →
        R.plain st AFFIXES1 PARAMS1 = true → plat.allOk = true →
        (resolution (R.hooks AFFIXES1.onVIEW).onVIEW PARAMS1).nullish = false →
        (onREDIRECT R plat (R.hooks AFFIXES1.onVIEW).onREDIRECT PARAMS1).1 = true →
        (tryBlock R plat st AFFIXES PARAMS).1.onPREVIOUS = some (AFFIXES1, PARAMS1) ∧
        Event.caught ∉ (tryBlock R plat st AFFIXES PARAMS).2 ∧
        Step.commit ∈ (tryBlock R plat st AFFIXES PARAMS).2.filterMap Event.step? := by
      intro AFFIXES1 PARAMS1 hA hp1 _ hplat hview hrd
      cases hA
      rw [hp] at hp1
      cases hp1
      obtain ⟨h1, h2, -⟩ := tryBlock_of_ok R plat st AFFIXES PARAMS hplat hview hrd
      refine ⟨h1, h2, ?_⟩
      rcases tryBlock_cases R plat st AFFIXES PARAMS with ⟨-, h5, -⟩ | ⟨-, h5, -, -⟩
      · rw [h5]
        decide
      · exact absurd h5 h2
    rcases tryBlock_cases R plat st AFFIXES PARAMS with ⟨h1, h2, h3⟩ | ⟨h1, h2, h3, -⟩
    · refine ⟨fun h => ?_, fun _ => ⟨h2, h3, trivial, AFFIXES, PARAMS, rfl, hp, h1⟩,
        fun h => ?_, h4⟩
      · rcases h with h | h
        · exact absurd h h3
        · simp at h
      · rw [h2] at h
        exact absurd (by decide) h
    · exact ⟨fun _ => ⟨h1, h3⟩, fun h => absurd h h3, fun _ => h1, h4⟩

/-- Witness for the amended C11: the transition to `/users/7` on the router whose guard
throws commits, on a platform where every step returns. -/
theorem onPROCESS_commit_atomic_witness :
    (guardedRouter (.callable (fun _ => .abrupt "denied"))).plain freshState
      ⟨"/users/:id".toList, 0⟩ [("on".toList, "/users/7".toList), ("id".toList, "7".toList)]
      = true ∧
    (onPROCESS (guardedRouter (.callable (fun _ => .abrupt "denied"))) calmPlatform freshState
        "/users/7".toList).state.onPREVIOUS =
      some (⟨"/users/:id".toList, 0⟩,
        [("on".toList, "/users/7".toList), ("id".toList, "7".toList)]) ∧
    Event.caught ∉ (onPROCESS (guardedRouter (.callable (fun _ => .abrupt "denied")))
      calmPlatform freshState "/users/7".toList).trace :=
  have h := (onPROCESS_commit_atomic (guardedRouter (.callable (fun _ => .abrupt "denied")))
    calmPlatform freshState "/users/7".toList).2.2.2 ⟨"/users/:id".toList, 0⟩
    [("on".toList, "/users/7".toList), ("id".toList, "7".toList)]
    (by decide) (by decide) rfl rfl rfl rfl
  ⟨rfl, h.1, h.2.1⟩

/-- C12: in a call of `onPROCESS` for a URL that matches a definition, with plain hooks,
when no step fails, the steps are started in exactly this order, each after the one
before it has returned: resolve view, start progress, store scroll, global guards, route
guard, redirect, previous leave, previous transition-out, render head, render mount,
transition-in, scroll, end progress, loaded, commit. The events of each hook (the errors
it logs, the navigation of a redirect) lie between the step that runs it and the next
step; every platform step that was called has returned and the view is neither
`undefined` nor `null`; the call leaves the scroll store written for the previous
parameters and `onPREVIOUS` holding the matched definition and its parameters. -/
theorem onPROCESS_step_order (R : Router) (plat : Platform) (st : RouterState) (url : Str)
    (AFFIXES : Route) (PARAMS : Obj) (hmatch : onMATCH R.routes url = some AFFIXES)
    (hparams : onPARAMS plat.dec AFFIXES.pattern url = some PARAMS)
    (hplain : R.plain st AFFIXES PARAMS = true)
    (hok : Event.caught ∉ (onPROCESS R plat st url).trace) :
    (onPROCESS R plat st url).trace.filterMap Event.step? =
      [.resolveView, .progressStart, .scrollStore, .globalGuards, .routeGuard, .redirect,
        .leave, .transitionOut, .renderHead, .renderMount, .transitionIn, .scroll,
        .progressEnd, .loaded, .commit] ∧
    (onPROCESS R plat st url).rejected = false ∧
    (onPROCESS R plat st url).trace =
      Event.step .resolveView ::
        ((onAFFIX (R.hooks AFFIXES.onVIEW).onVIEW PARAMS).2.map Event.log ++
        ([.step .progressStart, .step .scrollStore, .step .globalGuards] ++
        (hookLog R.onBEFORE PARAMS ++
        (.step .routeGuard :: (hookLog (R.hooks AFFIXES.onVIEW).onBEFORE PARAMS ++
        (.step .redirect :: ((onREDIRECT R plat (R.hooks AFFIXES.onVIEW).onREDIRECT PARAMS).2 ++
        (.step .leave ::
          ((match st.onPREVIOUS with
            | some (prev, prevPARAMS) => hookLog (R.hooks prev.onVIEW).onLEAVE prevPARAMS
            | none => []) ++
        ([.step .transitionOut, .step .renderHead, .step .renderMount, .step .transitionIn,
          .step .scroll, .step .progressEnd, .step .loaded] ++
        (hookLog (R.hooks AFFIXES.onVIEW).onLOADED PARAMS ++ [.step .commit]))))))))))) ∧
    (onPROCESS R plat st url).state =
      { onSCROLLstore plat st with onPREVIOUS := some (AFFIXES, PARAMS) } ∧
    (plat.progressStart = true ∧ (st.onPREVIOUS.isSome = true → plat.transitionOut = true) ∧
      plat.renderHead = true ∧ plat.renderMount = true ∧ plat.transitionIn = true ∧
      plat.scroll = true ∧ plat.progressEnd = true) ∧
    (resolution (R.hooks AFFIXES.onVIEW).onVIEW PARAMS).nullish = false ∧
    (onREDIRECT R plat (R.hooks AFFIXES.onVIEW).onREDIRECT PARAMS).1 = true := by
  have _hplain := hplain
  rw [onPROCESS_of_match R plat st url AFFIXES PARAMS hmatch hparams] at hok ⊢
  simp only at hok ⊢
  obtain ⟨h0, h1, h2, h3, h4, h5, h6, h7, h8⟩ := tryBlock_of_not_caught R plat st AFFIXES PARAMS hok
  have heq := tryBlock_eq R plat st AFFIXES PARAMS h0 h1 h2 h3 h4 h5 h6 h7 h8
  simp only [runHook_eq, leaveStep_eq] at heq
  refine ⟨?_, trivial, by rw [heq], by rw [heq], ⟨h0, fun hs => ?_, h3, h5, h6, h7, h8⟩, h4, h1⟩
  · rcases tryBlock_cases R plat st AFFIXES PARAMS with ⟨-, h, -⟩ | ⟨-, h, -, -⟩
    · exact h
    · exact absurd h hok
  · rw [hs] at h2
    simpa using h2

/-- Witness for C12: the URL `/users/7` on the sample router, every platform step
returning. -/
theorem onPROCESS_step_order_witness :
    onMATCH (sampleRouter .undefined).routes "/users/7".toList
      = some ⟨"/users/:id".toList, 0⟩ ∧
    Event.caught ∉ (onPROCESS (sampleRouter .undefined) calmPlatform freshState
      "/users/7".toList).trace ∧
    (onPROCESS (sampleRouter .undefined) calmPlatform freshState
        "/users/7".toList).trace.filterMap Event.step? =
      [.resolveView, .progressStart, .scrollStore, .globalGuards, .routeGuard, .redirect,
        .leave, .transitionOut, .renderHead, .renderMount, .transitionIn, .scroll,
        .progressEnd, .loaded, .commit] ∧
    (onPROCESS (sampleRouter .undefined) calmPlatform freshState
        "/users/7".toList).state.onPREVIOUS =
      some (⟨"/users/:id".toList, 0⟩,
        [("on".toList, "/users/7".toList), ("id".toList, "7".toList)]) :=
  have h := onPROCESS_step_order (sampleRouter .undefined) calmPlatform freshState
    "/users/7".toList ⟨"/users/:id".toList, 0⟩
    [("on".toList, "/users/7".toList), ("id".toList, "7".toList)]
    (by decide) (by decide) rfl (by decide)
  ⟨by decide, by decide, h.1, by rw [h.2.2.2.1]⟩

/-- C13 as stated fails: on the sample router, whose not-found path `/404` matches a
definition, the unmatched URL `/nope` makes `onPROCESS` call `history.pushState`, not
`replaceState`, and the promise of the call is rejected, by the throw on `AFFIXES.on`. -/
theorem onPROCESS_not_found_pushes_and_rejects :
    onMATCH (sampleRouter .undefined).routes "/nope".toList = none ∧
    onMATCH (sampleRouter .undefined).routes (sampleRouter .undefined).on404
      = some ⟨"/404".toList, 1⟩ ∧
    (onPROCESS (sampleRouter .undefined) calmPlatform freshState "/nope".toList).trace =
      [.pushState "/404".toList, .process "/404".toList] ∧
    (onPROCESS (sampleRouter .undefined) calmPlatform freshState "/nope".toList).rejected
      = true :=
  ⟨by decide, by decide, by decide, by decide⟩

/-- C13, amended: for a URL that matches no definition, `onPROCESS` calls `navigateTo`
once, with the not-found path and the default options. When the history takes the
navigated URL, that is one `history.pushState` of it, then one call of `onPROCESS` on
it; when the history refuses the URL, nothing follows the refused call. Either way the
call for the unmatched URL leaves the state of the router as it was. When the navigated
URL matches a definition, the call started on it runs that definition's transition from
the view resolution on and its promise is not rejected; in history mode with root `/`,
the navigated URL is the not-found path itself when that path starts with `/`. -/
theorem onPROCESS_not_found_navigates_once (R : Router) (plat : Platform) (st : RouterState)
    (url : Str) (hno : onMATCH R.routes url = none) :
    (plat.history (navURL R R.on404) = true →
      (onPROCESS R plat st url).trace =
        [.pushState (navURL R R.on404), .process (navURL R R.on404)]) ∧
    (plat.history (navURL R R.on404) = false → (onPROCESS R plat st url).trace = []) ∧
    (onPROCESS R plat st url).state.onPREVIOUS = st.onPREVIOUS ∧
    (onPROCESS R plat st url).state.STORAGE = st.STORAGE ∧
    (∀ (AFFIXES : Route) (plat1 : Platform) (st1 : RouterState),
      onMATCH R.routes (navURL R R.on404) = some AFFIXES →
      (onPROCESS R plat1 st1 (navURL R R.on404)).rejected = false ∧
      (onPROCESS R plat1 st1 (navURL R R.on404)).trace.head? = some (.step .resolveView)) ∧
    (∀ rest : Str, R.onMODE ≠ "hash".toList → R.onROOT = "/".toList → R.on404 = '/' :: rest →
      navURL R R.on404 = R.on404) := by
  rw [onPROCESS_of_no_match R plat st url hno]
  refine ⟨fun h => ?_, fun h => ?_, rfl, rfl, fun AFFIXES plat1 st1 hm => ?_,
    fun rest hmode hroot h404 => ?_⟩
  · simp [navigateTo, h]
  · simp [navigateTo, h]
  · obtain ⟨PARAMS, hp⟩ := onPARAMS_of_onMATCH R.routes plat1.dec _ AFFIXES hm
    rw [onPROCESS_of_match R plat1 st1 _ AFFIXES PARAMS hm hp]
    exact ⟨rfl, tryBlock_head R plat1 st1 AFFIXES PARAMS⟩
  · unfold navURL
    rw [if_neg hmode, hroot, h404]
    simp [removeFirst, List.isPrefixOf]

/-- Witness for the amended C13: the URL `/nope` on the sample router. -/
theorem onPROCESS_not_found_navigates_once_witness :
    onMATCH (sampleRouter .undefined).routes "/nope".toList = none ∧
    (onPROCESS (sampleRouter .undefined) calmPlatform freshState "/nope".toList).trace =
      [.pushState (navURL (sampleRouter .undefined) (sampleRouter .undefined).on404),
        .process (navURL (sampleRouter .undefined) (sampleRouter .undefined).on404)] ∧
    navURL (sampleRouter .undefined) (sampleRouter .undefined).on404 = "/404".toList :=
  ⟨by decide,
    (onPROCESS_not_found_navigates_once (sampleRouter .undefined) calmPlatform freshState
      "/nope".toList (by decide)).1 rfl,
    by decide⟩

/-- C14 as stated fails: a redirect hook that resolves to `{ ON: '', REDIRECT: 'ON' }`
is active and its target, the empty string, is not `null`, yet `onREDIRECT` performs no
navigation. -/
theorem onREDIRECT_empty_target_ignored :
    (resolution (.object [("ON", .str ""), ("REDIRECT", .str "ON")]) []).prop "REDIRECT"
      = .str "ON" ∧
    ((resolution (.object [("ON", .str ""), ("REDIRECT", .str "ON")]) []).prop "ON").isNull
      = false ∧
    onREDIRECT (sampleRouter (.object [("ON", .str ""), ("REDIRECT", .str "ON")]))
      calmPlatform (.object [("ON", .str ""), ("REDIRECT", .str "ON")]) [] = (true, []) ∧
    (onPROCESS (sampleRouter (.object [("ON", .str ""), ("REDIRECT", .str "ON")]))
      calmPlatform freshState "/users/7".toList).trace.filter Event.isNav = [] :=
  ⟨rfl, rfl, rfl, by decide⟩

/-- C14, amended: when the redirect hook of the matched definition, a plain hook,
resolves to a value with `REDIRECT: 'ON'` and a non-empty string under `ON`, and the
history takes the URL of that target, `onREDIRECT` calls `navigateTo` on the target (one
`pushState`, one `onPROCESS` call) and the transition goes on: with every platform step
returning and a view that is neither `undefined` nor `null`, the nine steps after the
redirect all run, nothing is caught, and the transition commits its own match and
parameters. When the history refuses the URL of the target, the transition ends in the
`catch` without a navigation and without a commit. When the hook is absent, or resolves
to a value whose `REDIRECT` is not `'ON'` or whose `ON` is falsy, the transition
performs no navigation. -/
theorem onPROCESS_redirect_continues :
    (∀ (R : Router) (plat : Platform) (st : RouterState) (url : Str) (AFFIXES : Route)
        (PARAMS : Obj) (info : Affix) (target : String),
      onMATCH R.routes url = some AFFIXES →
      onPARAMS plat.dec AFFIXES.pattern url = some PARAMS →
      R.plain st AFFIXES PARAMS = true →
      (R.hooks AFFIXES.onVIEW).onREDIRECT.truthy = true →
      (onAFFIX (R.hooks AFFIXES.onVIEW).onREDIRECT PARAMS).1 = .normal info →
      info.prop "REDIRECT" = .str "ON" → info.prop "ON" = .str target → target ≠ "" →
      plat.history (navURL R target.toList) = true →
      plat.allOk = true →
      (resolution (R.hooks AFFIXES.onVIEW).onVIEW PARAMS).nullish = false →
      (onPROCESS R plat st url).trace.filter (fun e => !e.isLog) =
        [.step .resolveView, .step .progressStart, .step .scrollStore, .step .globalGuards,
          .step .routeGuard, .step .redirect,
          .pushState (navURL R target.toList), .process (navURL R target.toList),
          .step .leave, .step .transitionOut, .step .renderHead, .step .renderMount,
          .step .transitionIn, .step .scroll, .step .progressEnd, .step .loaded,
          .step .commit] ∧
      Event.caught ∉ (onPROCESS R plat st url).trace ∧
      (onPROCESS R plat st url).rejected = false ∧
      (onPROCESS R plat st url).state.onPREVIOUS = some (AFFIXES, PARAMS)) ∧
    (∀ (R : Router) (plat : Platform) (st : RouterState) (url : Str) (AFFIXES : Route)
        (PARAMS : Obj) (info : Affix) (target : String),
      onMATCH R.routes url = some AFFIXES →
      onPARAMS plat.dec AFFIXES.pattern url = some PARAMS →
      R.plain st AFFIXES PARAMS = true →
      (R.hooks AFFIXES.onVIEW).onREDIRECT.truthy = true →
      (onAFFIX (R.hooks AFFIXES.onVIEW).onREDIRECT PARAMS).1 = .normal info →
      info.prop "REDIRECT" = .str "ON" → info.prop "ON" = .str target → target ≠ "" →
      plat.history (navURL R target.toList) = false →
      Event.caught ∈ (onPROCESS R plat st url).trace ∧
      (onPROCESS R plat st url).trace.filter Event.isNav = [] ∧
      (onPROCESS R plat st url).state.onPREVIOUS = st.onPREVIOUS) ∧
    (∀ (R : Router) (plat : Platform) (st : RouterState) (url : Str) (AFFIXES : Route)
        (PARAMS : Obj),
      onMATCH R.routes url = some AFFIXES →
      onPARAMS plat.dec AFFIXES.pattern url = some PARAMS →
      R.plain st AFFIXES PARAMS = true →
      ((R.hooks AFFIXES.onVIEW).onREDIRECT.truthy = false ∨
        (resolution (R.hooks AFFIXES.onVIEW).onREDIRECT PARAMS).prop "REDIRECT" ≠ .str "ON" ∨
        ((resolution (R.hooks AFFIXES.onVIEW).onREDIRECT PARAMS).prop "ON").truthy = false) →
      (onPROCESS R plat st url).trace.filter Event.isNav = []) := by
  refine ⟨fun R plat st url AFFIXES PARAMS info target hm hp _ hh hinfo hact htar hne hhist
      hplat hview => ?_,
    fun R plat st url AFFIXES PARAMS info target hm hp _ hh hinfo hact htar hne hhist => ?_,
    fun R plat st url AFFIXES PARAMS hm hp _ h => ?_⟩
  · have hrd := onREDIRECT_active R plat _ PARAMS info target hh hinfo hact htar hne
    have hnav : navigateTo R plat target.toList false =
        (true, [.pushState (navURL R target.toList), .process (navURL R target.toList)]) := by
      unfold navigateTo
      rw [if_pos hhist]
      rfl
    rw [hnav] at hrd
    obtain ⟨h1, h2, h3⟩ := tryBlock_of_ok R plat st AFFIXES PARAMS hplat hview (by rw [hrd])
    rw [onPROCESS_of_match R plat st url AFFIXES PARAMS hm hp]
    refine ⟨?_, h2, rfl, h1⟩
    simp only
    rw [h3, hrd]
    simp [List.filter_append, filter_not_isLog_log, Event.isLog]
  · have hrd := onREDIRECT_active R plat _ PARAMS info target hh hinfo hact htar hne
    have hnav : navigateTo R plat target.toList false = (false, []) := by
      unfold navigateTo
      rw [if_neg (by rw [hhist]; decide)]
    rw [hnav] at hrd
    rw [onPROCESS_of_match R plat st url AFFIXES PARAMS hm hp]
    simp only
    have hc : Event.caught ∈ (tryBlock R plat st AFFIXES PARAMS).2 := by
      by_contra hnc
      have := (tryBlock_of_not_caught R plat st AFFIXES PARAMS hnc).2.1
      rw [hrd] at this
      simp at this
    refine ⟨hc, ?_, ?_⟩
    · rcases tryBlock_navs R plat st AFFIXES PARAMS with h1 | h1
      · exact h1
      · rw [h1, hrd]
        simp [filter_isNav_log]
    · rcases tryBlock_cases R plat st AFFIXES PARAMS with ⟨-, -, h3⟩ | ⟨h1, -, -, -⟩
      · exact absurd hc h3
      · exact h1
  · rw [onPROCESS_of_match R plat st url AFFIXES PARAMS hm hp]
    simp only
    rcases tryBlock_navs R plat st AFFIXES PARAMS with h1 | h1
    · exact h1
    · rw [h1]
      exact onREDIRECT_inactive R plat _ PARAMS h

/-- Witness for the amended C14: on the sample router, a redirect hook that resolves to
`{ ON: '/404', REDIRECT: 'ON' }` on the URL `/users/7`. -/
theorem onPROCESS_redirect_continues_witness :
    (onPROCESS (sampleRouter (.object [("ON", .str "/404"), ("REDIRECT", .str "ON")]))
        calmPlatform freshState "/users/7".toList).trace.filter (fun e => !e.isLog) =
      [.step .resolveView, .step .progressStart, .step .scrollStore, .step .globalGuards,
        .step .routeGuard, .step .redirect,
        .pushState "/404".toList, .process "/404".toList,
        .step .leave, .step .transitionOut, .step .renderHead, .step .renderMount,
        .step .transitionIn, .step .scroll, .step .progressEnd, .step .loaded,
        .step .commit] ∧
    (onPROCESS (sampleRouter (.object [("ON", .str "/404"), ("REDIRECT", .str "ON")]))
        calmPlatform freshState "/users/7".toList).state.onPREVIOUS =
      some (⟨"/users/:id".toList, 0⟩,
        [("on".toList, "/users/7".toList), ("id".toList, "7".toList)]) ∧
    Event.caught ∈ (onPROCESS
      (sampleRouter (.object [("ON", .str "//example.com/x"), ("REDIRECT", .str "ON")]))
      sameOriginPlatform freshState "/users/7".toList).trace :=
  have h := onPROCESS_redirect_continues.1
    (sampleRouter (.object [("ON", .str "/404"), ("REDIRECT", .str "ON")])) calmPlatform
    freshState "/users/7".toList ⟨"/users/:id".toList, 0⟩
    [("on".toList, "/users/7".toList), ("id".toList, "7".toList)]
    (.object [("ON", .str "/404"), ("REDIRECT", .str "ON")]) "/404"
    (by decide) (by decide) rfl rfl rfl rfl rfl (by decide) rfl rfl rfl
  have h2 := onPROCESS_redirect_continues.2.1
    (sampleRouter (.object [("ON", .str "//example.com/x"), ("REDIRECT", .str "ON")]))
    sameOriginPlatform freshState "/users/7".toList ⟨"/users/:id".toList, 0⟩
    [("on".toList, "/users/7".toList), ("id".toList, "7".toList)]
    (.object [("ON", .str "//example.com/x"), ("REDIRECT", .str "ON")]) "//example.com/x"
    (by decide) (by decide) rfl rfl rfl rfl rfl (by decide) rfl
  ⟨h.1, h.2.2.2, h2.1⟩

/-! ## The builders and `dispatch`: lemmas -/

/-- The method `trim()` gives the empty string exactly on the strings that are empty or
whitespace-only. -/
theorem trim_isEmpty (s : List Char) : (trim s).isEmpty = s.all isWhiteSpace := by
  unfold trim
  induction s with
  | nil => rfl
  | cons c cs ih =>
    cases hc : isWhiteSpace c
    · have h1 : (c :: cs).dropWhile isWhiteSpace = c :: cs := by
        simp [List.dropWhile, hc]
      rw [h1]
      have h2 : ((c :: cs).reverse.dropWhile isWhiteSpace) ≠ [] := by
        intro h
        rw [List.dropWhile_eq_nil_iff] at h
        have := h c (by simp)
        rw [hc] at this
        exact absurd this (by decide)
      have h3 : ((c :: cs).reverse.dropWhile isWhiteSpace).reverse ≠ [] := by
        simpa using h2
      cases h4 : ((c :: cs).reverse.dropWhile isWhiteSpace).reverse with
      | nil => exact absurd h4 h3
      | cons x xs => simp [hc]
    · have h1 : (c :: cs).dropWhile isWhiteSpace = cs.dropWhile isWhiteSpace := by
        simp [List.dropWhile, hc]
      rw [h1, ih]
      simp [hc]

/-- The first test of `AZElement` is the condition of the specification on the tag. -/
theorem trim_tag_isEmpty (s : String) :
    (trim s.toList).isEmpty = (TagValue.str s).invalid := by
  rw [trim_isEmpty]; rfl

mutual
/-- The call `AZElement` returns exactly on constructible arguments. -/
theorem AZElement_isOk {α : Type} (host : Host α) (tag : TagValue) (attributes : α)
    (textContent : String) (isSVG : Bool) : ∀ children : Children α,
    (AZElement host tag attributes textContent children isSVG).isOk
      = elementConstructible host tag attributes textContent children isSVG
  | .undefined => by
    cases tag with
    | other b => simp [AZElement, elementConstructible, accepts, Except.isOk, Except.toBool]
    | str s =>
      simp only [AZElement, elementConstructible, accepts, Children.constructible,
        trim_tag_isEmpty]
      cases h1 : (TagValue.str s).invalid <;> cases h2 : host.createElement isSVG s <;>
        cases h3 : host.setAttributes attributes textContent <;>
        simp [Except.isOk, Except.toBool]
  | .other => by
    cases tag with
    | other b => simp [AZElement, elementConstructible, accepts, Except.isOk, Except.toBool]
    | str s =>
      simp only [AZElement, elementConstructible, accepts, Children.constructible,
        trim_tag_isEmpty]
      cases h1 : (TagValue.str s).invalid <;> cases h2 : host.createElement isSVG s <;>
        cases h3 : host.setAttributes attributes textContent <;>
        simp [Except.isOk, Except.toBool]
  | .array items => by
    have ih := forEachChild_isOk host items
    cases tag with
    | other b => simp [AZElement, elementConstructible, accepts, Except.isOk, Except.toBool]
    | str s =>
      simp only [AZElement, elementConstructible, accepts, Children.constructible,
        trim_tag_isEmpty]
      rw [← ih]
      cases h1 : (TagValue.str s).invalid <;> cases h2 : host.createElement isSVG s <;>
        cases h3 : host.setAttributes attributes textContent <;>
        cases h4 : forEachChild host items <;>
        simp [Except.isOk, Except.toBool]
/-- The loop over the children returns exactly when every child is constructible. -/
theorem forEachChild_isOk {α : Type} (host : Host α) : ∀ items : List (Child α),
    (forEachChild host items).isOk = allConstructible host items
  | [] => by simp [forEachChild, allConstructible, Except.isOk, Except.toBool]
  | child :: rest => by
    have ih1 := appendChildOf_isOk host child
    have ih2 := forEachChild_isOk host rest
    simp only [forEachChild, allConstructible]
    rw [← ih1, ← ih2]
    cases h1 : appendChildOf host child <;> cases h2 : forEachChild host rest <;>
      simp [Except.isOk, Except.toBool]
/-- The callback returns exactly on a constructible child. -/
theorem appendChildOf_isOk {α : Type} (host : Host α) : ∀ child : Child α,
    (appendChildOf host child).isOk = Child.constructible host child
  | .str _ => by simp [appendChildOf, Child.constructible, Except.isOk, Except.toBool]
  | .node _ => by simp [appendChildOf, Child.constructible, Except.isOk, Except.toBool]
  | .null => by simp [appendChildOf, Child.constructible, Except.isOk, Except.toBool]
  | .other => by simp [appendChildOf, Child.constructible, Except.isOk, Except.toBool]
  | .object tag attributes textContent children isSVG => by
    have ih := AZElement_isOk host tag attributes textContent isSVG children
    simp only [appendChildOf, Child.constructible]
    cases ht : tag.truthy
    · have hacc : accepts host tag attributes textContent isSVG = false := by
        cases tag with
        | other b => rfl
        | str s =>
          have hs : s.toList = [] := by
            simpa [TagValue.truthy] using ht
          have hinv : (TagValue.str s).invalid = true := by
            simp only [TagValue.invalid, hs]; rfl
          simp only [accepts, hinv]; rfl
      simp [hacc, Except.isOk, Except.toBool]
    · simp only [if_true]
      rw [ih]; rfl
end

/-- The callback of `AZFragment` returns exactly on a constructible child. -/
theorem fragmentChildOf_isOk {α : Type} (host : Host α) (child : Child α) :
    (fragmentChildOf host child).isOk = Child.constructible host child := by
  rw [← appendChildOf_isOk]
  cases child with
  | str s => rfl
  | node n => rfl
  | null => rfl
  | other => rfl
  | object tag attributes textContent children isSVG =>
    simp only [fragmentChildOf, appendChildOf]
    cases ht : tag.truthy
    · rfl
    · rfl

/-- The loop of `AZFragment` returns exactly when every child is constructible. -/
theorem forEachFragmentChild_isOk {α : Type} (host : Host α) (items : List (Child α)) :
    (forEachFragmentChild host items).isOk = allConstructible host items := by
  induction items with
  | nil => simp [forEachFragmentChild, allConstructible, Except.isOk, Except.toBool]
  | cons child rest ih =>
    simp only [forEachFragmentChild, allConstructible]
    rw [← fragmentChildOf_isOk, ← ih]
    cases h1 : fragmentChildOf host child <;> cases h2 : forEachFragmentChild host rest <;>
      simp [Except.isOk, Except.toBool]

/-- The call `AZFragment` returns exactly on constructible children. -/
theorem AZFragment_isOk {α : Type} (host : Host α) (children : Children α) :
    (AZFragment host children).isOk = Children.constructible host children := by
  cases children with
  | undefined => simp [AZFragment, Children.constructible, Except.isOk, Except.toBool]
  | other => simp [AZFragment, Children.constructible, Except.isOk, Except.toBool]
  | array items =>
    simp only [AZFragment, Children.constructible]
    exact forEachFragmentChild_isOk host items

/-- A call ends with an error exactly when it does not return. -/
theorem exists_error_iff {β : Type} (r : Except Err β) :
    (∃ e, r = .error e) ↔ r.isOk = false := by
  cases r with
  | error e => simp [Except.isOk, Except.toBool]
  | ok v => simp [Except.isOk, Except.toBool]

/-- A tag that fails the first test makes `AZElement` throw its first message. -/
theorem AZElement_of_invalid {α : Type} (host : Host α) (tag : TagValue) (attributes : α)
    (textContent : String) (children : Children α) (isSVG : Bool)
    (h : tag.invalid = true) :
    AZElement host tag attributes textContent children isSVG = .error invalidTagName := by
  cases tag with
  | other b => cases children <;> rfl
  | str s =>
    have h1 : (trim s.toList).isEmpty = true := by rw [trim_tag_isEmpty]; exact h
    cases children <;> simp only [AZElement, h1, if_true]

/-- The lookup `actions[name]` also finds the members of the prototype: the call
`dispatch('toString')` on a store without actions has a target that is no registered
name, and its promise is fulfilled by `Object.prototype.toString`. -/
theorem dispatch_inherited_member :
    Target.unregistered (noActions fun _ _ => .normal (.str "[object Object]"))
      (.name "toString") = true ∧
    dispatch (noActions fun _ _ => .normal (.str "[object Object]")) (.name "toString") []
      = .normal (.promise (.normal (.str "[object Object]"))) :=
  ⟨rfl, rfl⟩

/-! ## The builders and `dispatch`: claims -/

/-- C18 as stated fails. The call `AZElement('div', {}, '', [{ tag: ' ' }])` has a valid
tag and a single child that is a description object with a tag, on a host where every
platform call returns, and it throws: the nested call on the child tests the tag of the
child. The call `dispatch(42)` on a store without actions has a target that is neither a
function nor a registered name, and it returns a promise that is rejected with the
dispatch error: the call does not raise. -/
theorem AZElement_described_child_raises_and_dispatch_rejects :
    ((TagValue.str "div").invalid = false ∧
      (∀ child ∈ [(Child.object (.str " ") () "" .undefined false : Child Unit)],
        child.described = true) ∧
      AZElement calmHost (.str "div") () ""
        (.array [.object (.str " ") () "" .undefined false]) false
        = .error invalidTagName) ∧
    (Target.unregistered (noActions fun _ _ => .normal .undefined) (.other (.ok "42")) = true ∧
      dispatch (noActions fun _ _ => .normal .undefined) (.other (.ok "42")) []
        = .normal (.promise (.abrupt "DISPATCH ERROR: Invalid action \"42\"."))  ∧
      (dispatch (noActions fun _ _ => .normal .undefined) (.other (.ok "42")) []).raises
        = false) := by
  refine ⟨⟨by decide, ?_, ?_⟩, rfl, rfl, rfl⟩
  · intro child h
    simp only [List.mem_singleton] at h
    subst h
    rfl
  · rfl

/-- C18, amended: `AZElement` throws from the call itself if and only if its arguments
are not constructible: the tag is not a string or is empty or whitespace-only, or a
platform call on the tag or the attributes throws, or `children` is not a sequence, or
some child is neither a string, a node, nor a description object whose own construction
returns by the same rule; a tag that fails the test gives the message of the tag.
`AZFragment` throws if and only if its children are not constructible in that sense.
A call of `dispatch` never raises: it returns a promise, and for a target that is not a
function and that is a value of another type than string, or a string under which
`actions` holds no member, the promise is rejected with the dispatch error. -/
theorem builders_raise_iff_not_constructible :
    (∀ (α : Type) (host : Host α) (tag : TagValue) (attributes : α) (textContent : String)
        (children : Children α) (isSVG : Bool),
      ((∃ e, AZElement host tag attributes textContent children isSVG = .error e) ↔
        elementConstructible host tag attributes textContent children isSVG = false) ∧
      (tag.invalid = true →
        AZElement host tag attributes textContent children isSVG = .error invalidTagName)) ∧
    (∀ (α : Type) (host : Host α) (children : Children α),
      (∃ e, AZFragment host children = .error e) ↔
        Children.constructible host children = false) ∧
    (∀ (actions : Actions) (target : Target) (args : List Affix),
      (dispatch actions target args).raises = false ∧
      (∃ settled, dispatch actions target args = .normal (.promise settled))) ∧
    (∀ (actions : Actions) (args : List Affix) (text : String),
      dispatch actions (.other (.ok text)) args
        = .normal (.promise (.abrupt (dispatchError text)))) ∧
    (∀ (actions : Actions) (args : List Affix) (name : String),
      actions.get name = none →
      dispatch actions (.name name) args
        = .normal (.promise (.abrupt (dispatchError name)))) := by
  refine ⟨fun α host tag attributes textContent children isSVG => ⟨?_, ?_⟩,
    fun α host children => ?_, fun actions target args => ⟨rfl, _, rfl⟩,
    fun actions args text => rfl, fun actions args name h => ?_⟩
  · rw [exists_error_iff, AZElement_isOk]
  · exact AZElement_of_invalid host tag attributes textContent children isSVG
  · rw [exists_error_iff, AZFragment_isOk]
  · simp only [dispatch, dispatchBody, h]

/-- Witness for the amended C18: the call `AZElement('div', {}, '', [{ tag: 'p',
children: [7] }])` throws, the call `AZElement(' ')` throws the message of the tag, and
`dispatch('save')` on a store without actions is rejected. -/
theorem builders_raise_iff_not_constructible_witness :
    (∃ e, AZElement calmHost (.str "div") () ""
      (.array [.object (.str "p") () "" (.array [.other]) false]) false = .error e) ∧
    AZElement calmHost (.str " ") () "" .undefined false = .error invalidTagName ∧
    dispatch (noActions fun _ _ => .normal .undefined) (.name "save") []
      = .normal (.promise (.abrupt (dispatchError "save"))) :=
  ⟨(builders_raise_iff_not_constructible.1 Unit calmHost (.str "div") () ""
      (.array [.object (.str "p") () "" (.array [.other]) false]) false).1.2 (by decide),
    (builders_raise_iff_not_constructible.1 Unit calmHost (.str " ") () "" .undefined
      false).2 (by decide),
    builders_raise_iff_not_constructible.2.2.2.2 (noActions fun _ _ => .normal .undefined)
      [] "save" rfl⟩

end AZCore
